import Mathlib

/-!
NetStylus: the stylus event transport protocol.

A shallow embedding of the wire packet (`src/common/netstylus_packet.h`), of the
evdev receiver (`src/evdev/server_evdev.cpp`) and of the sender relay
(`src/client/stylus_plugin.cpp`), followed by the properties proved about them.

Conventions of the embedding:

* unsigned machine integers are `Nat` (reduced modulo `2 ^ w` where the code can
  wrap), signed ones are `Int`;
* a datagram and the receive buffer are lists of bytes; the fields of `Packet`
  are read from the buffer at the offsets of the usual ABI (natural alignment,
  `sizeof(Packet) = 56`), least significant byte first;
* calls into libevdev and to `printf`/`puts` are recorded, in order, with the
  arguments the code passes;
* what the environment does (datagrams arriving, `read` failing, SIGINT, the
  return codes of libevdev) is an explicit input;
* what the stylus and the window report to the sender (the tablet contexts with
  their packet properties, the metrics of the client rectangle) is an explicit
  input as well.
-/

namespace NetStylus

/-! ## The wire packet (`netstylus_packet.h`) -/

/-- One octet of a datagram or of the receive buffer. -/
abbrev Byte := Fin 256

/-- The magic string of packets, `static const char PACKET_MAGIC[10] = "NetStylus"`:
nine characters and the terminating NUL. -/
def PACKET_MAGIC : List Byte := [78, 101, 116, 83, 116, 121, 108, 117, 115, 0]

/-- The masks of `enum PacketFeatures`. -/
def PacketIsTouching : Nat := 0x1
def PacketIsEraser : Nat := 0x2
def PacketButtonPressed : Nat := 0x8
def PacketHasPressure : Nat := 0x10
def PacketHasTiltX : Nat := 0x20
def PacketHasTiltY : Nat := 0x40

/-- The fields of `struct Packet`. -/
structure Packet where
  /-- Field `char magic[10]`. -/
  magic : List Byte
  /-- Field `uint16_t status`. -/
  status : Nat
  /-- Field `uint32_t pressure`. -/
  pressure : Nat
  /-- Field `uint64_t seqNumber`. -/
  seqNumber : Nat
  /-- Field `int32_t maxPressure`. -/
  maxPressure : Int
  /-- Field `uint32_t x`. -/
  x : Nat
  /-- Field `uint32_t maxX`. -/
  maxX : Nat
  /-- Field `uint32_t y`. -/
  y : Nat
  /-- Field `uint32_t maxY`. -/
  maxY : Nat
  /-- Field `uint32_t tiltX`. -/
  tiltX : Nat
  /-- Field `uint32_t tiltY`. -/
  tiltY : Nat
deriving DecidableEq, Repr

/-- The value of `sizeof(Packet)`: 52 bytes of fields, padded to the alignment of
`seqNumber`. -/
def PACKET_SIZE : Nat := 56

/-- The unsigned integer stored in a run of bytes, least significant first. -/
def leNat : List Byte → Nat
  | [] => 0
  | b :: bs => b.val + 256 * leNat bs

/-- The `w` bytes of `v`, least significant first. -/
def leBytes : Nat → Nat → List Byte
  | 0, _ => []
  | w + 1, v => ⟨v % 256, Nat.mod_lt _ (by decide)⟩ :: leBytes w (v / 256)

/-- The unsigned field of width `w` at offset `off` of a buffer. -/
def fieldAt (buf : List Byte) (off w : Nat) : Nat :=
  leNat ((buf.drop off).take w)

/-- A 32-bit pattern read as `int32_t`. -/
def toInt32 (n : Nat) : Int :=
  if n % 2 ^ 32 < 2 ^ 31 then (n % 2 ^ 32 : Nat) else ((n % 2 ^ 32 : Nat) : Int) - 2 ^ 32

/-- The 32-bit pattern of an `int32_t`. -/
def ofInt32 (i : Int) : Nat := (i % 2 ^ 32).toNat

/-- The `Packet` object stored in a buffer, `*reinterpret_cast<Packet *>(buf)`. -/
def Packet.ofBytes (buf : List Byte) : Packet where
  magic := buf.take 10
  status := fieldAt buf 10 2
  pressure := fieldAt buf 12 4
  seqNumber := fieldAt buf 16 8
  maxPressure := toInt32 (fieldAt buf 24 4)
  x := fieldAt buf 28 4
  maxX := fieldAt buf 32 4
  y := fieldAt buf 36 4
  maxY := fieldAt buf 40 4
  tiltX := fieldAt buf 44 4
  tiltY := fieldAt buf 48 4

/-- The 56 bytes of a `Packet` object whose padding is zero, as `sendto` transmits
them from `reinterpret_cast<char *>(&p)`. -/
def Packet.toBytes (p : Packet) : List Byte :=
  (p.magic ++ List.replicate 10 0).take 10 ++ leBytes 2 p.status ++ leBytes 4 p.pressure
    ++ leBytes 8 p.seqNumber ++ leBytes 4 (ofInt32 p.maxPressure) ++ leBytes 4 p.x
    ++ leBytes 4 p.maxX ++ leBytes 4 p.y ++ leBytes 4 p.maxY ++ leBytes 4 p.tiltX
    ++ leBytes 4 p.tiltY ++ List.replicate 4 0

/-! ## The receiver (`server_evdev.cpp`) -/

/-- The C library's `strncmp` on character arrays: at most `n` characters are
compared and the comparison stops after a NUL; the result is the difference of
the first two characters that differ, or `0`. A list that ends is read as NUL. -/
def strncmp (a b : List Byte) : Nat → Int
  | 0 => 0
  | n + 1 =>
    if a.headD 0 ≠ b.headD 0 then ((a.headD 0).val : Int) - ((b.headD 0).val : Int)
    else if a.headD 0 = 0 then 0
    else strncmp a.tail b.tail n
termination_by structural n => n

/-- The value of `errno` after a `read` that timed out. -/
def EAGAIN : Nat := 11

/-- What one call of `read(mSocket, &p, sizeof(p))` yields: a datagram, of which
the first `sizeof(p)` bytes are stored and whose stored length is the return
value (`0` for an empty datagram), or `-1` with `errno` set. -/
inductive ReadResult where
  | datagram (d : List Byte)
  | error (errno : Nat)
deriving DecidableEq, Repr

/-- One step of the environment: the outcome of the next `read`, and whether
SIGINT has been delivered by the time that `read` returns. The handler then
clears `canRun`, and the code finds it clear at its next look at `canRun`. The
reads are the clock of the embedding: a SIGINT delivered between two reads counts
as delivered during the later one. -/
structure Tick where
  res : ReadResult
  sigint : Bool
deriving DecidableEq, Repr

/-- The members of `class Server` that the protocol uses, the global `canRun`,
and `pbuf`, the storage of the local `Packet p` of `readOne`: the code leaves it
uninitialised, so its content at entry is whatever the state holds. -/
structure Server where
  mLastSeq : Nat
  mMaxX : Nat
  mMaxY : Nat
  mMaxPressure : Int
  canRun : Bool
  pbuf : List Byte
deriving DecidableEq, Repr

/-- A `Server` as constructed (`mLastSeq = 0`, `mMaxX = 16000`, `mMaxY = 9000`,
`mMaxPressure = 4096`, `canRun = true`) over a given stack content. -/
def Server.init (stack : List Byte) : Server where
  mLastSeq := 0
  mMaxX := 16000
  mMaxY := 9000
  mMaxPressure := 4096
  canRun := true
  pbuf := stack

/-- The buffer after `read` has stored a datagram in it: the first
`min d.length sizeof(p)` bytes are overwritten, the others are kept. -/
def recvInto (buf d : List Byte) : List Byte :=
  d.take PACKET_SIZE ++ buf.drop (min d.length PACKET_SIZE)

/-- The buffer as `readOne` examines it after `read` has stored a datagram: the
last character of the magic has been overwritten,
`p.magic[sizeof(p.magic) - 1] = 0`. -/
def received (buf d : List Byte) : List Byte :=
  (recvInto buf d).set 9 0

/-- How a call of `Server::readOne` ends: it returns `p`, it throws
`std::runtime_error` (with the `errno` of the failed `read`), or it is still
blocked in `read` when the observed environment ends. -/
inductive Outcome where
  | returned (p : Packet)
  | thrown (errno : Nat)
  | blocked
deriving DecidableEq, Repr

/-- The constant `shouldReset` of `readOne`. -/
def shouldReset : Nat := 100

/-- The function `Server::readOne`. Each iteration of the `do ... while` loop
consumes one `Tick`. `continue` jumps to the loop condition
`(bytes >= 0 || errno == EAGAIN) && canRun`; after the loop `bytes < 0 && canRun`
throws. The result carries the state and the ticks not consumed. -/
def readOne : Server → List Tick → Outcome × Server × List Tick
  | s, [] => (Outcome.blocked, s, [])
  | s, t :: rest =>
    let run := s.canRun && !t.sigint
    match t.res with
    | ReadResult.error e =>
      let s1 := { s with canRun := run }
      if e = EAGAIN ∧ run = true then readOne s1 rest
      else if run = true then (Outcome.thrown e, s1, rest)
      else (Outcome.returned (Packet.ofBytes s1.pbuf), s1, rest)
    | ReadResult.datagram d =>
      if min d.length PACKET_SIZE = 0 then
        -- bytes <= 0: continue
        let s1 := { s with canRun := run }
        if run = true then readOne s1 rest
        else (Outcome.returned (Packet.ofBytes s1.pbuf), s1, rest)
      else
        let buf := received s.pbuf d
        let p := Packet.ofBytes buf
        let s1 := { s with canRun := run, pbuf := buf }
        if strncmp p.magic PACKET_MAGIC 10 ≠ 0 then
          if run = true then readOne s1 rest
          else (Outcome.returned p, s1, rest)
        else if p.seqNumber ≤ s.mLastSeq ∧ s.mLastSeq - p.seqNumber < shouldReset then
          if run = true then readOne s1 rest
          else (Outcome.returned p, s1, rest)
        else
          -- mLastSeq = p.seqNumber; break
          (Outcome.returned p, { s1 with mLastSeq := p.seqNumber }, rest)

/-- Event types and codes of `linux/input-event-codes.h`. -/
def EV_SYN : Nat := 0x00
def EV_KEY : Nat := 0x01
def EV_ABS : Nat := 0x03
def SYN_REPORT : Nat := 0
def ABS_X : Nat := 0x00
def ABS_Y : Nat := 0x01
def ABS_PRESSURE : Nat := 0x18
def ABS_TILT_X : Nat := 0x1a
def ABS_TILT_Y : Nat := 0x1b
def BTN_TOOL_PEN : Nat := 0x140
def BTN_TOOL_RUBBER : Nat := 0x141
def BTN_TOUCH : Nat := 0x14a
def BTN_STYLUS : Nat := 0x14b

/-- The descriptions `reportError` is called with. -/
inductive Descr where
  | X | Y | pressure | touch | tool | button | tiltX | tiltY
deriving DecidableEq, Repr

/-- The two axes whose maximum `packetToEvent` can change. -/
inductive Axis where
  | X | Y
deriving DecidableEq, Repr

/-- What the receiver does to the outside, in order: calls of libevdev with the
arguments the code passes, and lines printed. -/
inductive Out where
  /-- Call `libevdev_set_abs_maximum(mDev, code, val)`; the parameter is `int val` -/
  | setAbsMaximum (code : Nat) (value : Int)
  /-- Call `libevdev_uinput_write_event(mUidev, type, code, value)`; the parameter is
  `int value` -/
  | writeEvent (type code : Nat) (value : Int)
  /-- Line `puts("Maximum X changed. ...")`, or the same for Y -/
  | putsMaxChanged (axis : Axis)
  /-- Line `printf("Packet %lu: failed to write %s (%d)\n", seqNumber, descr, err)` -/
  | printFailedWrite (seqNumber : Nat) (descr : Descr) (err : Int)
  /-- Line `printf("Packet %lu: failed to syn (%d)\n", seqNumber, err)` -/
  | printFailedSyn (seqNumber : Nat) (err : Int)
  /-- Call `libevdev_enable_event_type(mDev, type)` -/
  | enableEventType (type : Nat)
  /-- Call `libevdev_enable_event_code(mDev, type, code, &absValues)` with the `maximum`
  and `resolution` of `absValues`, or with `nullptr` -/
  | enableEventCode (type code : Nat) (absinfo : Option (Int × Int))
  /-- Line `printf("Failed to enable ... %d\n", err)`, for the `n`-th enabling call -/
  | printFailedEnable (n : Nat) (err : Int)
  /-- Call `libevdev_uinput_create_from_device(mDev, LIBEVDEV_UINPUT_OPEN_MANAGED, &mUidev)` -/
  | createDevice
  /-- Line `fputs("libevdev_new returned null\n", stderr)` -/
  | printNoDevice
  /-- Line `fprintf(stderr, "Could not create the device, error %d\n", err)` -/
  | printFailedCreate (err : Int)
  /-- Line `fprintf(stderr, "Exiting: %s\n", e.what())` -/
  | printExiting (errno : Nat)
deriving DecidableEq, Repr

/-- The function `reportError`. -/
def reportError (p : Packet) (descr : Descr) (err : Int) : List Out :=
  if err < 0 then [Out.printFailedWrite p.seqNumber descr err] else []

/-- The function `Server::packetToEvent`. `errs` holds the return codes of the
coming `libevdev_uinput_write_event` calls, one per call (none left: `0`); the
result carries the codes not consumed. The value of a call is the `int` argument:
a `uint32_t` field is converted to `int` at the call (`toInt32`), and
`p.status & PacketButtonPressed` is an `int` already. -/
def packetToEvent (s : Server) (p : Packet) (errs : List Int) :
    Server × List Out × List Int :=
  if p.status &&& PacketHasPressure = 0 then
    -- Might be a mouse event, discard it
    (s, [], errs)
  else
    let o : List Out := []
    let (s, o) :=
      if p.maxX ≠ s.mMaxX then
        ({ s with mMaxX := p.maxX },
          o ++ [Out.putsMaxChanged Axis.X, Out.setAbsMaximum ABS_X (toInt32 p.maxX)])
      else (s, o)
    let (s, o) :=
      if p.maxY ≠ s.mMaxY then
        ({ s with mMaxY := p.maxY },
          o ++ [Out.putsMaxChanged Axis.Y, Out.setAbsMaximum ABS_Y (toInt32 p.maxY)])
      else (s, o)
    let o := o ++ [Out.writeEvent EV_ABS ABS_X (toInt32 p.x)] ++ reportError p Descr.X (errs.headD 0)
    let errs := errs.tail
    let o := o ++ [Out.writeEvent EV_ABS ABS_Y (toInt32 p.y)] ++ reportError p Descr.Y (errs.headD 0)
    let errs := errs.tail
    let o := o ++ [Out.writeEvent EV_ABS ABS_PRESSURE (toInt32 p.pressure)]
      ++ reportError p Descr.pressure (errs.headD 0)
    let errs := errs.tail
    let o := o ++ [Out.writeEvent EV_KEY BTN_TOUCH
        (if p.status &&& PacketIsTouching ≠ 0 then 1 else 0)]
      ++ reportError p Descr.touch (errs.headD 0)
    let errs := errs.tail
    let o := o ++
      (if p.status &&& PacketIsEraser ≠ 0 then [Out.writeEvent EV_KEY BTN_TOOL_RUBBER 1]
       else [Out.writeEvent EV_KEY BTN_TOOL_PEN 1])
      ++ reportError p Descr.tool (errs.headD 0)
    let errs := errs.tail
    let o := o ++ [Out.writeEvent EV_KEY BTN_STYLUS ((p.status &&& PacketButtonPressed : Nat) : Int)]
      ++ reportError p Descr.button (errs.headD 0)
    let errs := errs.tail
    let (o, errs) :=
      if p.status &&& PacketHasTiltX ≠ 0 then
        (o ++ [Out.writeEvent EV_ABS ABS_TILT_X (toInt32 p.tiltX)]
          ++ reportError p Descr.tiltX (errs.headD 0), errs.tail)
      else (o, errs)
    let (o, errs) :=
      if p.status &&& PacketHasTiltY ≠ 0 then
        (o ++ [Out.writeEvent EV_ABS ABS_TILT_Y (toInt32 p.tiltY)]
          ++ reportError p Descr.tiltY (errs.headD 0), errs.tail)
      else (o, errs)
    let o := o ++ [Out.writeEvent EV_SYN SYN_REPORT 0]
      ++ (if errs.headD 0 < 0 then [Out.printFailedSyn p.seqNumber (errs.headD 0)] else [])
    (s, o, errs.tail)

/-- What `Server::run` needs from the platform besides the datagrams: whether
`setupSocket` succeeds, whether `libevdev_new` returns a device, the return codes
of the eleven enabling calls of `setupDevice` (none left: `0`), and the return
code of `libevdev_uinput_create_from_device`. -/
structure Env where
  socketOk : Bool
  devNew : Bool
  enableErrs : List Int
  createErr : Int
deriving DecidableEq, Repr

/-- The function `Server::readFirst`: the first packet gives the initial ranges of
the device. An exception of `readOne` propagates. -/
def readFirst (s : Server) (trace : List Tick) : Outcome × Server × List Tick :=
  match readOne s trace with
  | (Outcome.returned p, s1, rest) =>
    (Outcome.returned p,
      { s1 with mMaxX := p.maxX, mMaxY := p.maxY, mMaxPressure := p.maxPressure }, rest)
  | r => r

/-- One enabling call of `setupDevice` and the line printed when it fails
(`if (err) printf(...)`); `n` numbers the call. -/
def enableCall (n : Nat) (call : Out) (errs : List Int) : List Out :=
  call :: (if errs.getD n 0 ≠ 0 then [Out.printFailedEnable n (errs.getD n 0)] else [])

/-- The function `Server::setupDevice`: the device is described with the ranges
held by the server, then created. -/
def setupDevice (env : Env) (s : Server) : Bool × List Out :=
  if env.devNew = false then (false, [Out.printNoDevice])
  else
    let e := env.enableErrs
    let o :=
      enableCall 0 (Out.enableEventType EV_ABS) e
      ++ enableCall 1 (Out.enableEventCode EV_ABS ABS_X (some (toInt32 s.mMaxX, 100))) e
      ++ enableCall 2 (Out.enableEventCode EV_ABS ABS_Y (some (toInt32 s.mMaxY, 100))) e
      ++ enableCall 3 (Out.enableEventCode EV_ABS ABS_PRESSURE (some (s.mMaxPressure, 1))) e
      ++ enableCall 4 (Out.enableEventCode EV_ABS ABS_TILT_X (some (18000, 5729))) e
      ++ enableCall 5 (Out.enableEventCode EV_ABS ABS_TILT_Y (some (18000, 5729))) e
      ++ enableCall 6 (Out.enableEventType EV_KEY) e
      ++ enableCall 7 (Out.enableEventCode EV_KEY BTN_TOUCH none) e
      ++ enableCall 8 (Out.enableEventCode EV_KEY BTN_TOOL_PEN none) e
      ++ enableCall 9 (Out.enableEventCode EV_KEY BTN_TOOL_RUBBER none) e
      ++ enableCall 10 (Out.enableEventCode EV_KEY BTN_STYLUS none) e
      ++ [Out.createDevice]
      ++ (if env.createErr ≠ 0 then [Out.printFailedCreate env.createErr] else [])
    (decide (env.createErr = 0), o)

/-- How the loop of `readEvents` ends: `canRun` was found clear, `readOne` threw,
the receiver is still blocked in `read` when the observed environment ends, or
the iteration bound of the embedding was reached. -/
inductive LoopEnd where
  | stopped
  | thrown (errno : Nat)
  | blocked
  | outOfFuel
deriving DecidableEq, Repr

/-- The result of `readEvents`: how it ended, the final state, everything done to
the outside, and the ticks and return codes not consumed. -/
structure EventsResult where
  ending : LoopEnd
  st : Server
  out : List Out
  rest : List Tick
  errs : List Int
deriving DecidableEq, Repr

/-- The loop of `Server::readEvents`, `while (canRun) { Packet p = readOne();
if (canRun) packetToEvent(p); }`, for at most `fuel` iterations. -/
def readEventsLoop : Nat → Server → List Tick → List Int → EventsResult
  | 0, s, trace, errs => ⟨LoopEnd.outOfFuel, s, [], trace, errs⟩
  | fuel + 1, s, trace, errs =>
    if s.canRun = false then ⟨LoopEnd.stopped, s, [], trace, errs⟩
    else
      match readOne s trace with
      | (Outcome.blocked, s1, rest) => ⟨LoopEnd.blocked, s1, [], rest, errs⟩
      | (Outcome.thrown e, s1, rest) => ⟨LoopEnd.thrown e, s1, [], rest, errs⟩
      | (Outcome.returned p, s1, rest) =>
        if s1.canRun = true then
          let (s2, o, errs2) := packetToEvent s1 p errs
          let r := readEventsLoop fuel s2 rest errs2
          { r with out := o ++ r.out }
        else readEventsLoop fuel s1 rest errs

/-- The function `Server::readEvents`. Every iteration that does not end the loop
consumes a tick, so one iteration more than there are ticks is enough. -/
def readEvents (s : Server) (trace : List Tick) (errs : List Int) : EventsResult :=
  readEventsLoop (trace.length + 1) s trace errs

/-- The result of `Server::run`: the value returned (`none` while the receiver is
still blocked in `read` when the observed environment ends), the final state and
everything done to the outside. -/
structure RunResult where
  exit : Option Nat
  st : Server
  out : List Out
deriving DecidableEq, Repr

/-- The function `Server::run`. -/
def run (env : Env) (s : Server) (trace : List Tick) (errs : List Int) : RunResult :=
  if env.socketOk = false then ⟨some 1, s, []⟩
  else
    match readFirst s trace with
    | (Outcome.blocked, s1, _) => ⟨none, s1, []⟩
    | (Outcome.thrown e, s1, _) => ⟨some 2, s1, [Out.printExiting e]⟩
    | (Outcome.returned _, s1, rest) =>
      if s1.canRun = false then ⟨some 0, s1, []⟩
      else
        match setupDevice env s1 with
        | (false, o) => ⟨some 3, s1, o⟩
        | (true, o) =>
          let r := readEvents s1 rest errs
          match r.ending with
          | LoopEnd.thrown e => ⟨some 2, r.st, o ++ r.out ++ [Out.printExiting e]⟩
          | LoopEnd.stopped => ⟨some 0, r.st, o ++ r.out⟩
          | _ => ⟨none, r.st, o ++ r.out⟩

/-! ## The sender (`stylus_plugin.cpp`) -/

/-- A value of type `double`: the finite number `m * 2 ^ e` (both zeros are
`m = 0`), an infinity, or a NaN. The signs of zeros and infinities are not kept:
nothing the sender computes depends on them. -/
inductive Double where
  | finite (m e : Int)
  | inf
  | nan
deriving DecidableEq, Repr

/-- The integer nearest to `n / d`, the even one of two equally near. -/
def roundHalfEven (n d : Nat) : Nat :=
  if 2 * (n % d) < d then n / d
  else if d < 2 * (n % d) then n / d + 1
  else if (n / d) % 2 = 0 then n / d else n / d + 1

/-- The number of times `n` can be halved before it drops below `2`, which is
`floor (log2 n)` for positive `n`; `fuel` bounds the halvings. -/
def halvings : Nat → Nat → Nat
  | 0, _ => 0
  | fuel + 1, n => if n < 2 then 0 else halvings fuel (n / 2) + 1

/-- The integer `floor (log2 n)` for positive `n`. -/
def floorLog2 (n : Nat) : Nat := halvings n n

/-- The binary64 number nearest to `n / d` (ties to even) for positive `n` and
`d`, negated when `neg` is set: 53 significant bits, least exponent `-1074`,
infinite from `2 ^ 1024` on. -/
def roundBinary64 (neg : Bool) (n d : Nat) : Double :=
  -- k is the integer with 2 ^ k ≤ n / d < 2 ^ (k + 1)
  let k0 : Int := (floorLog2 n : Int) - (floorLog2 d : Int)
  let reaches : Bool :=
    if 0 ≤ k0 then decide (d * 2 ^ k0.toNat ≤ n) else decide (d ≤ n * 2 ^ (-k0).toNat)
  let k : Int := if reaches then k0 else k0 - 1
  -- the unit in the last place
  let u : Int := max (k - 52) (-1074)
  let m : Nat :=
    if 0 ≤ u then roundHalfEven n (d * 2 ^ u.toNat) else roundHalfEven (n * 2 ^ (-u).toNat) d
  if 0 ≤ u ∧ 2 ^ 1024 ≤ m * 2 ^ u.toNat then Double.inf
  else Double.finite (if neg then -(m : Int) else (m : Int)) u

/-- The bit pattern of a `LONG`, which is a 32-bit signed integer. -/
def longBits (v : Int) : Nat := ofInt32 v

/-- The conversion of a `LONG` to `double`, which is exact. -/
def Double.ofLong (v : Int) : Double := Double.finite (toInt32 (longBits v)) 0

/-- The quotient `a / b` of two `double`s in the default rounding mode. -/
def Double.div : Double → Double → Double
  | Double.nan, _ => Double.nan
  | _, Double.nan => Double.nan
  | Double.inf, Double.inf => Double.nan
  | Double.inf, Double.finite _ _ => Double.inf
  | Double.finite _ _, Double.inf => Double.finite 0 0
  | Double.finite a ea, Double.finite b eb =>
    if b = 0 then (if a = 0 then Double.nan else Double.inf)
    else if a = 0 then Double.finite 0 0
    else
      roundBinary64 (decide (a < 0) != decide (b < 0))
        (a.natAbs * 2 ^ (ea - eb).toNat) (b.natAbs * 2 ^ (eb - ea).toNat)

/-- The integer that remains of a finite `double` when its fractional part is
discarded. -/
def Double.truncate : Double → Option Int
  | Double.finite m e =>
    some (if 0 ≤ e then m * 2 ^ e.toNat
      else if 0 ≤ m then ((m.natAbs / 2 ^ (-e).toNat : Nat) : Int)
      else -((m.natAbs / 2 ^ (-e).toNat : Nat) : Int))
  | _ => none

/-- The conversion `static_cast<uint32_t>(d)`: the truncated value when it can be
represented in `uint32_t`; otherwise the behaviour is undefined and the value is
whatever the platform yields, `ub d`, in 32 bits. -/
def castUInt32 (ub : Double → Nat) (d : Double) : Nat :=
  match d.truncate with
  | some t => if 0 ≤ t ∧ t < 2 ^ 32 then t.toNat else ub d % 2 ^ 32
  | none => ub d % 2 ^ 32

/-- The structure `NetworkStylus::Context`: the offset of each property in a
stylus packet; a negative number means that the tablet does not support it. -/
structure Context where
  x : Int := -1
  y : Int := -1
  pressure : Int := -1
  maxPressure : Int := -1
  tiltX : Int := -1
  tiltY : Int := -1
  status : Int := -1
deriving DecidableEq, Repr

/-- The members of `class NetworkStylus` that the relay uses; `mContexts` is the
map from `TABLET_CONTEXT_ID` to `Context`. -/
structure Sender where
  mMaxX : Nat
  mMaxY : Nat
  mScaleX : Double
  mScaleY : Double
  mContexts : Nat → Option Context
  mSeqNumber : Nat

/-- A `NetworkStylus` as constructed: extents `0`, scales `1`, no tablet,
`mSeqNumber = 0`. -/
def Sender.init : Sender where
  mMaxX := 0
  mMaxY := 0
  mScaleX := Double.finite 1 0
  mScaleY := Double.finite 1 0
  mContexts := fun _ => none
  mSeqNumber := 0

/-- Why a call of `sendPackets` does not complete: `totalLength / numPackets` with
`numPackets = 0`, or an access `packets[k]` outside the sample buffer (at the
given position of the buffer). -/
inductive Fault where
  | divByZero
  | outOfBounds (pos : Int)
deriving DecidableEq, Repr

/-- The access `packets[off]` when `packets` points at position `base` of the
sample buffer `buffer`. -/
def readLong (buffer : List Int) (base : Nat) (off : Int) : Except Fault Int :=
  if 0 ≤ (base : Int) + off then
    match buffer.get? ((base : Int) + off).toNat with
    | some v => Except.ok v
    | none => Except.error (Fault.outOfBounds ((base : Int) + off))
  else Except.error (Fault.outOfBounds ((base : Int) + off))

/-- The constant `statusMask` of `sendPackets`. -/
def statusMask : Nat := PacketIsTouching ||| PacketIsEraser ||| PacketButtonPressed

/-- The body of the loop of `sendPackets` up to the assignment of `p.seqNumber`:
the packet built from the sample at `base`, with sequence number `seq`. -/
def buildPacket (ub : Double → Nat) (s : Sender) (tablet : Context) (buffer : List Int)
    (base seq : Nat) : Except Fault Packet := do
  -- Packet p = {}; strncpy(p.magic, PACKET_MAGIC, sizeof(p.magic))
  let rawStatus ← readLong buffer base tablet.status
  let status := longBits rawStatus &&& statusMask
  let rawX ← readLong buffer base tablet.x
  let x := castUInt32 ub ((Double.ofLong rawX).div s.mScaleX)
  let rawY ← readLong buffer base tablet.y
  let y := castUInt32 ub ((Double.ofLong rawY).div s.mScaleY)
  let (status, pressure, maxPressure) ←
    if 0 ≤ tablet.pressure then do
      let v ← readLong buffer base tablet.pressure
      pure (status ||| PacketHasPressure, longBits v, tablet.maxPressure)
    else pure (status, 0, (0 : Int))
  let (status, tiltX) ←
    if 0 ≤ tablet.tiltX then do
      let v ← readLong buffer base tablet.tiltX
      pure (status ||| PacketHasTiltX, longBits v)
    else pure (status, 0)
  let (status, tiltY) ←
    if 0 ≤ tablet.tiltY then do
      let v ← readLong buffer base tablet.tiltY
      pure (status ||| PacketHasTiltY, longBits v)
    else pure (status, 0)
  pure { magic := PACKET_MAGIC, status := status, pressure := pressure, seqNumber := seq,
         maxPressure := maxPressure, x := x, maxX := s.mMaxX, y := y, maxY := s.mMaxY,
         tiltX := tiltX, tiltY := tiltY }

/-- The result of `sendPackets`: the state afterwards, the packets passed to
`sendto` in order, and the fault that ended the call, if any. -/
structure SendResult where
  st : Sender
  sent : List Packet
  fault : Option Fault

/-- The number of values of `uint64_t`: `mSeqNumber++` wraps around at it. -/
def UINT64_RANGE : Nat := 2 ^ 64

/-- The loop `for (ULONG i = 0; i < numPackets; i++)` of `sendPackets` with `n`
iterations to go, `packets` at position `base` and `mSeqNumber = seq`: the packets
sent, the final `mSeqNumber` and the fault that ended the loop, if any. -/
def sendLoop (ub : Double → Nat) (s : Sender) (tablet : Context) (packetSize : Nat)
    (buffer : List Int) : Nat → Nat → Nat → List Packet × Nat × Option Fault
  | 0, _, seq => ([], seq, none)
  | n + 1, base, seq =>
    match buildPacket ub s tablet buffer base seq with
    | Except.error f => ([], seq, some f)
    | Except.ok p =>
      -- p.seqNumber = mSeqNumber++; sendto(...); packets += packetSize
      let r := sendLoop ub s tablet packetSize buffer n (base + packetSize)
        ((seq + 1) % UINT64_RANGE)
      (p :: r.1, r.2.1, r.2.2)

/-- The function `NetworkStylus::sendPackets`, called with `stylusInfo->tcid = tcid`
and `packets` pointing at the start of `buffer`. -/
def sendPackets (ub : Double → Nat) (s : Sender) (tcid numPackets totalLength : Nat)
    (buffer : List Int) : SendResult :=
  match s.mContexts tcid with
  | none => ⟨s, [], none⟩
  | some tablet =>
    if numPackets = 0 then ⟨s, [], some Fault.divByZero⟩
    else
      let r := sendLoop ub s tablet (totalLength / numPackets) buffer numPackets 0 s.mSeqNumber
      ⟨{ s with mSeqNumber := r.2.1 }, r.1, r.2.2⟩

/-- A call of `sendPackets` in the life of a sender, with the members that
`gatherContexts` and `windowChanged` have given the sender by the time of the
call. No function but `sendPackets` writes `mSeqNumber`, so between two calls
every member but `mSeqNumber` may have changed. -/
structure Call where
  mMaxX : Nat
  mMaxY : Nat
  mScaleX : Double
  mScaleY : Double
  mContexts : Nat → Option Context
  tcid : Nat
  numPackets : Nat
  totalLength : Nat
  buffer : List Int

/-- The sender at the time of a call: the members of the call, and the
`mSeqNumber` that the calls before have left. -/
def Call.sender (c : Call) (s : Sender) : Sender where
  mMaxX := c.mMaxX
  mMaxY := c.mMaxY
  mScaleX := c.mScaleX
  mScaleY := c.mScaleY
  mContexts := c.mContexts
  mSeqNumber := s.mSeqNumber

/-- A sequence of calls of `sendPackets` on one sender: the packets sent, in
order, up to the first call that faults, if one does. -/
def sendAll (ub : Double → Nat) : Sender → List Call → SendResult
  | s, [] => ⟨s, [], none⟩
  | s, c :: cs =>
    let r := sendPackets ub (c.sender s) c.tcid c.numPackets c.totalLength c.buffer
    match r.fault with
    | some f => ⟨r.st, r.sent, some f⟩
    | none =>
      let r2 := sendAll ub r.st cs
      ⟨r2.st, r.sent ++ r2.sent, r2.fault⟩

/-- The kinds of packet property that `gatherContexts` tells apart by their GUID
(`GUID_PACKETPROPERTY_GUID_X`, `..._Y`, `..._PACKET_STATUS`, `..._NORMAL_PRESSURE`,
`..._X_TILT_ORIENTATION`, `..._Y_TILT_ORIENTATION`), and any other GUID. -/
inductive PropertyKind where
  | X
  | Y
  | PACKET_STATUS
  | NORMAL_PRESSURE
  | X_TILT_ORIENTATION
  | Y_TILT_ORIENTATION
  | other (guid : Nat)
deriving DecidableEq, Repr

/-- What `gatherContexts` reads of a `PACKET_PROPERTY`: its `guid` and the
`nLogicalMax` of its `PropertyMetrics`. -/
structure PacketProperty where
  guid : PropertyKind
  nLogicalMax : Int
deriving DecidableEq, Repr

/-- What the stylus reports for one entry `contexts[i]` of the enumeration: the
identifier, whether `GetTabletFromTabletContextId` succeeds for it, and the
properties that `GetPacketDescriptionData` yields, in order. -/
structure TabletReport where
  tcid : Nat
  tabletFound : Bool
  properties : List PacketProperty
deriving DecidableEq, Repr

/-- What `GetAllTabletContextIds` yields: whether it succeeds, and the contexts. -/
structure Enumeration where
  succeeded : Bool
  contexts : List TabletReport
deriving DecidableEq, Repr

/-- The body of the loop over the properties in `gatherContexts`, for the
property at position `j`. -/
def Context.setProperty (ctx : Context) (j : Int) (pr : PacketProperty) : Context :=
  match pr.guid with
  | PropertyKind.X => { ctx with x := j }
  | PropertyKind.Y => { ctx with y := j }
  | PropertyKind.PACKET_STATUS => { ctx with status := j }
  | PropertyKind.NORMAL_PRESSURE => { ctx with pressure := j, maxPressure := pr.nLogicalMax }
  | PropertyKind.X_TILT_ORIENTATION => { ctx with tiltX := j }
  | PropertyKind.Y_TILT_ORIENTATION => { ctx with tiltY := j }
  | PropertyKind.other _ => ctx

/-- The loop `for (int j = 0; j < nProperties; j++)` of `gatherContexts` from
position `j` on, over the properties that remain. -/
def resolveFrom : Context → Int → List PacketProperty → Context
  | ctx, _, [] => ctx
  | ctx, j, pr :: rest => resolveFrom (ctx.setProperty j pr) (j + 1) rest

/-- The context that `gatherContexts` resolves from the properties of a tablet:
the loop run on a default-constructed `Context ctx`. -/
def resolve (properties : List PacketProperty) : Context :=
  resolveFrom {} 0 properties

/-- The loop `for (ULONG i = 0; i < nContexts; i++)` of `gatherContexts` on the map
`mContexts`: a context with X, Y and Status is assigned to its identifier,
`mContexts[contexts[i]] = ctx`. -/
def gatherLoop : (Nat → Option Context) → List TabletReport → (Nat → Option Context)
  | m, [] => m
  | m, t :: ts =>
    if t.tabletFound = true then
      if 0 ≤ (resolve t.properties).x ∧ 0 ≤ (resolve t.properties).y
          ∧ 0 ≤ (resolve t.properties).status then
        gatherLoop (Function.update m t.tcid (some (resolve t.properties))) ts
      else gatherLoop m ts
    else gatherLoop m ts

/-- The function `NetworkStylus::gatherContexts`, given what the stylus reports. -/
def gatherContexts (s : Sender) (e : Enumeration) : Sender :=
  if e.succeeded = false ∨ e.contexts.length = 0 then s
  else { s with mContexts := gatherLoop s.mContexts e.contexts }

/-- What `windowChanged` computes, in floating point, from the client rectangle
of the window and the capabilities of its device context, before it touches the
sender: the outcome of the test `width < 1 || height < 1`, the two scales and
the two extents (`width * 100 + 0.5` and `height * 100 + 0.5` as `uint32_t`). -/
structure WindowMetrics where
  tooSmall : Bool
  scaleX : Double
  scaleY : Double
  maxX : Nat
  maxY : Nat
deriving DecidableEq, Repr

/-- The function `NetworkStylus::windowChanged`, given what it computes from the
window: a window of less than one millimetre (minimized) leaves the sender as it
is, any other window sets the scales and the extents. -/
def windowChanged (s : Sender) (w : WindowMetrics) : Sender :=
  if w.tooSmall = true then s
  else { s with mScaleX := w.scaleX, mScaleY := w.scaleY, mMaxX := w.maxX, mMaxY := w.maxY }

/-! ## Definitions used to state the properties -/

/-- The state of the server once `readOne` has discarded the datagram `d` with
`continue`: only the buffer holds what was read, and `canRun` is clear if SIGINT
came; `mLastSeq` and the ranges are as before. -/
def discarded (s : Server) (d : List Byte) (sig : Bool) : Server :=
  { s with canRun := s.canRun && !sig, pbuf := received s.pbuf d }

/-- The continuation of `readOne` after it has discarded `d`: the loop condition
lets it read on while `canRun` is set, and at the end of the loop it returns
the buffer to a caller that finds `canRun` clear. -/
def readOn (s : Server) (d : List Byte) (sig : Bool) (rest : List Tick) :
    Outcome × Server × List Tick :=
  if (discarded s d sig).canRun = true then readOne (discarded s d sig) rest
  else (Outcome.returned (Packet.ofBytes (discarded s d sig).pbuf), discarded s d sig, rest)

/-- A sample wire packet with the given sequence number: touching, with pressure. -/
def samplePacket (seq : Nat) : Packet where
  magic := PACKET_MAGIC
  status := 0x11
  pressure := 2048
  seqNumber := seq
  maxPressure := 4096
  x := 1000
  maxX := 10000
  y := 500
  maxY := 5000
  tiltX := 0
  tiltY := 0

/-- A receiver whose last accepted sequence number is `lastSeq`, over a zeroed
stack. -/
def sampleServer (lastSeq : Nat) : Server :=
  { Server.init (List.replicate 56 0) with mLastSeq := lastSeq }

/-- The sample packet numbered 51 with the last byte of its magic changed from NUL
to the letter `X`. -/
def foreignMagicPacket : Packet :=
  { samplePacket 51 with magic := [78, 101, 116, 83, 116, 121, 108, 117, 115, 88] }

/-- The sample packet numbered 200 with the first byte of its magic changed. -/
def wrongMagicPacket : Packet :=
  { samplePacket 200 with magic := [110, 101, 116, 83, 116, 121, 108, 117, 115, 0] }

/-- The event of a recorded action: `(type, code, value)` for a call of
`libevdev_uinput_write_event`, nothing for the other actions. -/
def Out.event : Out → Option (Nat × Nat × Int)
  | Out.writeEvent t c v => some (t, c, v)
  | _ => none

/-- The events that a log attempts to write to the virtual device, in order. -/
def events (o : List Out) : List (Nat × Nat × Int) :=
  o.filterMap Out.event

/-- A platform on which the socket and the device can be set up without error. -/
def sampleEnv : Env where
  socketOk := true
  devNew := true
  enableErrs := []
  createErr := 0

/-- The presence flags that `sendPackets` sets for a context: a flag per offset
that is not negative. -/
def presenceFlags (tablet : Context) : Nat :=
  (if 0 ≤ tablet.pressure then PacketHasPressure else 0)
    ||| (if 0 ≤ tablet.tiltX then PacketHasTiltX else 0)
    ||| (if 0 ≤ tablet.tiltY then PacketHasTiltY else 0)

/-- A tablet whose samples are `x, y, status, pressure`, with logical maximum
pressure 4096 and no tilt. -/
def sampleContext : Context :=
  { x := 0, y := 1, status := 2, pressure := 3, maxPressure := 4096 }

/-- A sender whose window is 100 mm by 50 mm at scale 1, which knows the sample
tablet under the identifier 7. -/
def sampleSender : Sender :=
  { Sender.init with
    mMaxX := 10000
    mMaxY := 5000
    mContexts := fun tcid => if tcid = 7 then some sampleContext else none }

/-- A platform on which a conversion to `uint32_t` that is undefined yields 0. -/
def sampleUb : Double → Nat := fun _ => 0

/-- The fields of a packet hold values of the C types of `struct Packet`. -/
def Packet.InRange (p : Packet) : Prop :=
  p.magic.length = 10 ∧ p.status < 2 ^ 16 ∧ p.pressure < 2 ^ 32 ∧ p.seqNumber < 2 ^ 64
    ∧ -2 ^ 31 ≤ p.maxPressure ∧ p.maxPressure < 2 ^ 31
    ∧ p.x < 2 ^ 32 ∧ p.maxX < 2 ^ 32 ∧ p.y < 2 ^ 32 ∧ p.maxY < 2 ^ 32
    ∧ p.tiltX < 2 ^ 32 ∧ p.tiltY < 2 ^ 32

/-- The position of the last occurrence of the kind `k` in a property list, or
`-1` when `k` does not occur. -/
def lastPosition (k : PropertyKind) : List PacketProperty → Int
  | [] => -1
  | pr :: rest =>
    if 0 ≤ lastPosition k rest then lastPosition k rest + 1
    else if pr.guid = k then 0 else -1

/-- The logical maximum of the last NormalPressure property of a list, if there
is one. -/
def lastLogicalMax : List PacketProperty → Option Int
  | [] => none
  | pr :: rest =>
    match lastLogicalMax rest with
    | some v => some v
    | none => if pr.guid = PropertyKind.NORMAL_PRESSURE then some pr.nLogicalMax else none

/-- Stated from the words of the specification: the context resolved for a
property list gives each recognised kind the position of its last occurrence,
`maxPressure` the logical maximum of the NormalPressure property, and `-1` to
what does not occur. -/
def resolvedBySpec (properties : List PacketProperty) : Context where
  x := lastPosition PropertyKind.X properties
  y := lastPosition PropertyKind.Y properties
  pressure := lastPosition PropertyKind.NORMAL_PRESSURE properties
  maxPressure := (lastLogicalMax properties).getD (-1)
  tiltX := lastPosition PropertyKind.X_TILT_ORIENTATION properties
  tiltY := lastPosition PropertyKind.Y_TILT_ORIENTATION properties
  status := lastPosition PropertyKind.PACKET_STATUS properties

/-- A report from which `gatherContexts` stores a context: the tablet was found
and the context resolved from its properties has X, Y and Status. -/
def TabletReport.usable (t : TabletReport) : Prop :=
  t.tabletFound = true ∧ 0 ≤ (resolve t.properties).x ∧ 0 ≤ (resolve t.properties).y
    ∧ 0 ≤ (resolve t.properties).status

/-- The context resolved from the last usable report of an enumeration for the
identifier `id`, if there is such a report. -/
def lastUsable (id : Nat) : List TabletReport → Option Context
  | [] => none
  | t :: ts =>
    match lastUsable id ts with
    | some c => some c
    | none =>
      if t.tcid = id ∧ t.tabletFound = true ∧ 0 ≤ (resolve t.properties).x
          ∧ 0 ≤ (resolve t.properties).y ∧ 0 ≤ (resolve t.properties).status then
        some (resolve t.properties)
      else none

/-- The properties of the sample tablet: X, Y, Status and NormalPressure with
logical maximum 4096, in this order. -/
def sampleProperties : List PacketProperty :=
  [⟨PropertyKind.X, 32767⟩, ⟨PropertyKind.Y, 32767⟩, ⟨PropertyKind.PACKET_STATUS, 15⟩,
   ⟨PropertyKind.NORMAL_PRESSURE, 4096⟩]

/-- A packet with its extents replaced. -/
def Packet.withExtents (maxX maxY : Nat) (p : Packet) : Packet :=
  { p with maxX := maxX, maxY := maxY }

/-- The value of the key `code` on the virtual device after one more event: an
`EV_KEY` event for the code sets it, any other event keeps it. -/
def keyWrite (code : Nat) (v : Int) (e : Nat × Nat × Int) : Int :=
  if e.1 = EV_KEY ∧ e.2.1 = code then e.2.2 else v

/-- The state of the key `code` on the virtual device after a sequence of events:
the last value written for the code, and 0 when none was written. -/
def keyState (evs : List (Nat × Nat × Int)) (code : Nat) : Int :=
  evs.foldl (keyWrite code) 0

/-- The function `Server::packetToEvent` applied to a sequence of packets in order,
as the loop of `readEvents` applies it to the packets that `readOne` returns: the
final state, the whole log and the return codes left. -/
def applyPackets : Server → List Packet → List Int → Server × List Out × List Int
  | s, [], errs => (s, [], errs)
  | s, p :: ps, errs =>
    ((applyPackets (packetToEvent s p errs).1 ps (packetToEvent s p errs).2.2).1,
      (packetToEvent s p errs).2.1
        ++ (applyPackets (packetToEvent s p errs).1 ps (packetToEvent s p errs).2.2).2.1,
      (applyPackets (packetToEvent s p errs).1 ps (packetToEvent s p errs).2.2).2.2)

/-- The offsets at which the loop of `sendPackets` reads a sample of a tablet:
`packets[tablet.status]`, `packets[tablet.x]`, `packets[tablet.y]`, and
`packets[tablet.pressure]`, `packets[tablet.tiltX]`, `packets[tablet.tiltY]` for
those of the three that are resolved (not negative). -/
def Context.offsets (c : Context) : List Int :=
  [c.status, c.x, c.y] ++ (if 0 ≤ c.pressure then [c.pressure] else [])
    ++ (if 0 ≤ c.tiltX then [c.tiltX] else []) ++ (if 0 ≤ c.tiltY then [c.tiltY] else [])

/-! ## Properties of the receiver -/

theorem take_recvInto (buf d : List Byte) (n : Nat) (h : n ≤ min d.length PACKET_SIZE) :
    (recvInto buf d).take n = d.take n := by
  unfold recvInto
  rw [List.take_append_of_le_length (by rw [List.length_take]; omega), List.take_take]
  congr 1
  omega

theorem fieldAt_congr (a b : List Byte) (off w : Nat)
    (h : a.take (off + w) = b.take (off + w)) : fieldAt a off w = fieldAt b off w := by
  unfold fieldAt
  rw [List.take_drop, List.take_drop, h]

theorem fieldAt_set (l : List Byte) (i off w : Nat) (v : Byte) (h : i < off) :
    fieldAt (l.set i v) off w = fieldAt l off w := by
  unfold fieldAt
  rw [List.drop_set_of_lt _ _ h]

theorem fieldAt_received (buf d : List Byte) (off w : Nat) (h9 : 9 < off)
    (h : off + w ≤ min d.length PACKET_SIZE) :
    fieldAt (received buf d) off w = fieldAt d off w := by
  unfold received
  rw [fieldAt_set _ _ _ _ _ h9]
  exact fieldAt_congr _ _ _ _ (take_recvInto buf d _ h)

theorem take_nine_received (buf d : List Byte) (h : 9 ≤ d.length) :
    (received buf d).take 9 = d.take 9 := by
  unfold received
  rw [List.set_take, List.set_eq_of_length_le (by rw [List.length_take]; omega),
    take_recvInto buf d 9 (by unfold PACKET_SIZE; omega)]

theorem received_set_nine (buf d : List Byte) (x : Byte) :
    received buf (d.set 9 x) = received buf d := by
  unfold received recvInto
  rw [List.length_set, List.set_take]
  by_cases h : 9 < (List.take PACKET_SIZE d).length
  · rw [List.set_append, if_pos (by rwa [List.length_set]), List.set_set, List.set_append,
      if_pos h]
  · have e : (List.take PACKET_SIZE d).set 9 x = List.take PACKET_SIZE d :=
      List.set_eq_of_length_le (by omega)
    rw [e]

theorem byte_sub_eq_zero (x y : Byte) : ((x.val : Int) - (y.val : Int) = 0) ↔ x = y := by
  rw [Fin.ext_iff]
  omega

/-- Against a string that starts with the non-NUL characters `c` followed by a
NUL, `strncmp` over more than `c.length` characters yields `0` exactly for the
arrays that start with `c` followed by a NUL (or by the end of the array). -/
theorem strncmp_eq_zero_iff (c : List Byte) (hc : ∀ x ∈ c, x ≠ 0) (tl : List Byte) :
    ∀ (a : List Byte) (n : Nat), c.length < n →
      (strncmp a (c ++ 0 :: tl) n = 0 ↔
        a.take c.length = c ∧ (a.drop c.length).headD 0 = 0) := by
  induction c with
  | nil =>
    intro a n hn
    obtain ⟨k, rfl⟩ : ∃ k, n = k + 1 := ⟨n - 1, by simp at hn; omega⟩
    unfold strncmp
    cases a with
    | nil => simp
    | cons x a =>
      by_cases h : x = 0
      · simp [h]
      · simp only [List.nil_append, List.headD_cons, ne_eq, h, not_false_eq_true, if_true,
          List.length_nil, List.take_zero, List.drop_zero, true_and, iff_false]
        rw [byte_sub_eq_zero]
        exact h
  | cons y c ih =>
    intro a n hn
    obtain ⟨k, rfl⟩ : ∃ k, n = k + 1 := ⟨n - 1, by simp at hn; omega⟩
    have hy : y ≠ 0 := hc y (List.mem_cons_self _ _)
    have hk : c.length < k := by simp at hn; omega
    unfold strncmp
    cases a with
    | nil =>
      have h0 : (0 : Byte) ≠ y := fun e => hy e.symm
      simp only [List.cons_append, List.headD_nil, List.headD_cons, ne_eq, h0,
        not_false_eq_true, if_true, List.take_nil, List.length_cons, false_and, iff_false,
        reduceCtorEq]
      rw [byte_sub_eq_zero]
      exact h0
    | cons x a =>
      by_cases hxy : x = y
      · subst hxy
        simp [hy, ih (fun z hz => hc z (List.mem_cons_of_mem _ hz)) a k hk]
      · simp only [List.cons_append, List.headD_cons, ne_eq, hxy, not_false_eq_true, if_true,
          List.length_cons, List.take_succ_cons, List.cons.injEq, false_and, iff_false]
        rw [byte_sub_eq_zero]
        exact hxy

/-- The magic check of `readOne` on the buffer it examines passes exactly when
the first nine bytes of the buffer are the characters of `NetStylus`. -/
theorem magic_check_iff (buf d : List Byte) :
    strncmp (Packet.ofBytes (received buf d)).magic PACKET_MAGIC 10 = 0 ↔
      (received buf d).take 9 = PACKET_MAGIC.take 9 := by
  have h := strncmp_eq_zero_iff (PACKET_MAGIC.take 9) (by simp [PACKET_MAGIC]) []
    ((received buf d).take 10) 10 (by decide)
  have e : PACKET_MAGIC = PACKET_MAGIC.take 9 ++ 0 :: [] := by decide
  have hz : (List.drop 9 (List.take 10 (received buf d))).headD 0 = 0 := by
    unfold received
    rw [List.drop_take, List.drop_set, if_neg (by decide)]
    cases hd : List.drop 9 (recvInto buf d) with
    | nil => rfl
    | cons z zs => rfl
  have hl : (PACKET_MAGIC.take 9).length = 9 := by decide
  rw [hl, List.take_take] at h
  have e2 : (Packet.ofBytes (received buf d)).magic = (received buf d).take 10 := rfl
  rw [e2]
  conv_lhs => rw [e]
  rw [h]
  exact ⟨fun hh => hh.1, fun hh => ⟨hh, hz⟩⟩

/-- One iteration of `readOne` on a non-empty datagram: the packet is accepted
when the first nine bytes of the buffer spell `NetStylus` and the sequence test
does not reject it; otherwise the loop goes on, or ends when `canRun` is clear. -/
theorem readOne_datagram (s : Server) (d : List Byte) (sig : Bool) (rest : List Tick)
    (hd : 0 < d.length) :
    readOne s (⟨ReadResult.datagram d, sig⟩ :: rest) =
      if (received s.pbuf d).take 9 = PACKET_MAGIC.take 9 ∧
          ¬ ((Packet.ofBytes (received s.pbuf d)).seqNumber ≤ s.mLastSeq ∧
            s.mLastSeq - (Packet.ofBytes (received s.pbuf d)).seqNumber < shouldReset) then
        (Outcome.returned (Packet.ofBytes (received s.pbuf d)),
          { s with canRun := s.canRun && !sig, pbuf := received s.pbuf d,
                   mLastSeq := (Packet.ofBytes (received s.pbuf d)).seqNumber }, rest)
      else if (s.canRun && !sig) = true then
        readOne { s with canRun := s.canRun && !sig, pbuf := received s.pbuf d } rest
      else
        (Outcome.returned (Packet.ofBytes (received s.pbuf d)),
          { s with canRun := s.canRun && !sig, pbuf := received s.pbuf d }, rest) := by
  have hmin : ¬ min d.length PACKET_SIZE = 0 := by unfold PACKET_SIZE; omega
  rw [readOne]
  simp only [hmin, if_false]
  by_cases hm : (received s.pbuf d).take 9 = PACKET_MAGIC.take 9
  · have hm2 := (magic_check_iff s.pbuf d).mpr hm
    simp only [hm2, ne_eq, not_true_eq_false, if_false, hm, true_and]
    by_cases hs : (Packet.ofBytes (received s.pbuf d)).seqNumber ≤ s.mLastSeq ∧
        s.mLastSeq - (Packet.ofBytes (received s.pbuf d)).seqNumber < shouldReset
    · simp only [hs, and_self, if_true, not_true_eq_false, if_false]
    · simp only [hs, if_false, not_false_eq_true, if_true]
  · have hm2 : ¬ strncmp (Packet.ofBytes (received s.pbuf d)).magic PACKET_MAGIC 10 = 0 :=
      fun h => hm ((magic_check_iff s.pbuf d).mp h)
    simp only [hm2, ne_eq, not_false_eq_true, if_true, hm, false_and, if_false]

/-- The sequence number that `readOne` examines is the one the datagram carries,
for a datagram long enough to carry one. -/
theorem seqNumber_received (buf d : List Byte) (h : 24 ≤ d.length) :
    (Packet.ofBytes (received buf d)).seqNumber = (Packet.ofBytes d).seqNumber :=
  fieldAt_received buf d 16 8 (by decide) (by unfold PACKET_SIZE; omega)

/-- A datagram with the magic of `PACKET_MAGIC` passes the magic check. -/
theorem magic_received (buf d : List Byte) (h : 9 ≤ d.length)
    (hm : (Packet.ofBytes d).magic = PACKET_MAGIC) :
    (received buf d).take 9 = PACKET_MAGIC.take 9 := by
  rw [take_nine_received buf d h, ← hm]
  show d.take 9 = (d.take 10).take 9
  rw [List.take_take]
  rfl

/-- A whole datagram with the magic of `PACKET_MAGIC` is examined by `readOne` as
the packet it carries. -/
theorem ofBytes_received (buf d : List Byte) (h : PACKET_SIZE ≤ d.length)
    (hm : (Packet.ofBytes d).magic = PACKET_MAGIC) :
    Packet.ofBytes (received buf d) = Packet.ofBytes d := by
  have hmin : min d.length PACKET_SIZE = PACKET_SIZE := by omega
  have hmagic : (Packet.ofBytes (received buf d)).magic = (Packet.ofBytes d).magic := by
    show (received buf d).take 10 = d.take 10
    unfold received
    rw [List.set_take, take_recvInto buf d 10 (by rw [hmin]; decide)]
    have e : d.take 10 = PACKET_MAGIC := hm
    rw [e]
    decide
  unfold Packet.ofBytes at hmagic ⊢
  simp only at hmagic
  rw [hmagic]
  rw [fieldAt_received buf d 10 2 (by decide) (by rw [hmin]; decide),
    fieldAt_received buf d 12 4 (by decide) (by rw [hmin]; decide),
    fieldAt_received buf d 16 8 (by decide) (by rw [hmin]; decide),
    fieldAt_received buf d 24 4 (by decide) (by rw [hmin]; decide),
    fieldAt_received buf d 28 4 (by decide) (by rw [hmin]; decide),
    fieldAt_received buf d 32 4 (by decide) (by rw [hmin]; decide),
    fieldAt_received buf d 36 4 (by decide) (by rw [hmin]; decide),
    fieldAt_received buf d 40 4 (by decide) (by rw [hmin]; decide),
    fieldAt_received buf d 44 4 (by decide) (by rw [hmin]; decide),
    fieldAt_received buf d 48 4 (by decide) (by rw [hmin]; decide)]

/-- Every call of `readOne` that does not find the environment exhausted at
entry consumes at least one tick. -/
theorem readOne_rest_length (tr : List Tick) :
    ∀ s : Server, (readOne s tr).2.2.length ≤ tr.length - 1 := by
  induction tr with
  | nil => intro s; simp [readOne]
  | cons t rest ih =>
    intro s
    have key : ∀ s1 : Server, (readOne s1 rest).2.2.length ≤ rest.length := fun s1 =>
      le_trans (ih s1) (Nat.sub_le _ _)
    rw [readOne]
    simp only [List.length_cons, Nat.add_sub_cancel]
    split
    · split
      · exact key _
      · split <;> simp
    · split
      · split
        · exact key _
        · simp
      · split
        · split
          · exact key _
          · simp
        · split
          · split
            · exact key _
            · simp
          · simp

theorem readOne_nil (s : Server) : readOne s [] = (Outcome.blocked, s, []) := by
  rw [readOne]

theorem readOne_rest_lt (s : Server) (tr : List Tick) (p : Packet) (s1 : Server)
    (rest : List Tick) (h : readOne s tr = (Outcome.returned p, s1, rest)) :
    rest.length < tr.length := by
  cases tr with
  | nil => rw [readOne_nil] at h; cases h
  | cons t tl =>
    have := readOne_rest_length (t :: tl) s
    rw [h] at this
    simp at this ⊢
    omega

/-- The loop of `readEvents` does the same with any two iteration bounds that
exceed the number of ticks: more fuel than that is never used. -/
theorem readEventsLoop_fuel (f : Nat) :
    ∀ (g : Nat) (s : Server) (tr : List Tick) (e : List Int), tr.length < f → tr.length < g →
      readEventsLoop f s tr e = readEventsLoop g s tr e := by
  induction f with
  | zero => intro g s tr e hf; omega
  | succ f ih =>
    intro g s tr e hf hg
    obtain ⟨g, rfl⟩ : ∃ k, g = k + 1 := ⟨g - 1, by omega⟩
    rw [readEventsLoop, readEventsLoop]
    split
    · rfl
    · rcases h : readOne s tr with ⟨o, s1, rest⟩
      cases o with
      | blocked => rfl
      | thrown n => rfl
      | returned p =>
        have hl := readOne_rest_lt s tr p s1 rest h
        simp only
        split
        · rw [ih g _ rest _ (by omega) (by omega)]
        · exact ih g _ rest _ (by omega) (by omega)

/-- The loop of `readEvents` does not reach an iteration bound that exceeds the
number of ticks. -/
theorem readEventsLoop_ending (f : Nat) :
    ∀ (s : Server) (tr : List Tick) (e : List Int), tr.length < f →
      (readEventsLoop f s tr e).ending ≠ LoopEnd.outOfFuel := by
  induction f with
  | zero => intro s tr e hf; omega
  | succ f ih =>
    intro s tr e hf
    rw [readEventsLoop]
    split
    · simp
    · rcases h : readOne s tr with ⟨o, s1, rest⟩
      cases o with
      | blocked => simp
      | thrown n => simp
      | returned p =>
        have hl := readOne_rest_lt s tr p s1 rest h
        simp only
        split
        · exact ih _ rest _ (by omega)
        · exact ih _ rest _ (by omega)

/-- The function `readEvents` ends because `canRun` is clear, because `readOne`
threw, or with the receiver blocked in `read` at the end of the observed
environment: its iteration bound is never reached. -/
theorem readEvents_ending (s : Server) (tr : List Tick) (e : List Int) :
    (readEvents s tr e).ending ≠ LoopEnd.outOfFuel :=
  readEventsLoop_ending (tr.length + 1) s tr e (Nat.lt_succ_self _)

/-- When `readOne` discards the datagram it has just read, `readEvents` goes on
exactly as it would from the discarded state on the ticks that follow: nothing is
passed to `packetToEvent` and nothing is emitted for that datagram. -/
theorem readEvents_discard (s : Server) (d : List Byte) (sig : Bool) (rest : List Tick)
    (e : List Int) (hrun : s.canRun = true)
    (h : readOne s (⟨ReadResult.datagram d, sig⟩ :: rest) = readOn s d sig rest) :
    readEvents s (⟨ReadResult.datagram d, sig⟩ :: rest) e
      = readEvents (discarded s d sig) rest e := by
  unfold readEvents
  rw [List.length_cons, readEventsLoop]
  simp only [hrun, Bool.true_eq_false, if_false]
  rw [h]
  unfold readOn
  by_cases hc : (discarded s d sig).canRun = true
  · rw [if_pos hc]
    conv_rhs => rw [readEventsLoop]
    simp only [hc, Bool.true_eq_false, if_false]
    rcases h1 : readOne (discarded s d sig) rest with ⟨o, s1, rest1⟩
    cases o with
    | blocked => rfl
    | thrown n => rfl
    | returned p =>
      have hl := readOne_rest_lt _ _ p s1 rest1 h1
      simp only
      split
      · rw [readEventsLoop_fuel (rest.length + 1) rest.length _ rest1 _ (by omega) (by omega)]
      · exact readEventsLoop_fuel (rest.length + 1) rest.length _ rest1 _ (by omega) (by omega)
  · rw [if_neg hc]
    have hc2 : (discarded s d sig).canRun = false := by simpa using hc
    simp only [hc2, Bool.false_eq_true, if_false]

/-- A datagram that fails the magic check or the sequence test is discarded. -/
theorem readOne_discards (s : Server) (d : List Byte) (sig : Bool) (rest : List Tick)
    (hd : 0 < d.length)
    (h : ¬ ((received s.pbuf d).take 9 = PACKET_MAGIC.take 9 ∧
          ¬ ((Packet.ofBytes (received s.pbuf d)).seqNumber ≤ s.mLastSeq ∧
            s.mLastSeq - (Packet.ofBytes (received s.pbuf d)).seqNumber < shouldReset))) :
    readOne s (⟨ReadResult.datagram d, sig⟩ :: rest) = readOn s d sig rest := by
  rw [readOne_datagram s d sig rest hd, if_neg h]
  rfl

/-- A datagram that passes the magic check and the sequence test is accepted. -/
theorem readOne_takes (s : Server) (d : List Byte) (sig : Bool) (rest : List Tick)
    (hd : 0 < d.length)
    (hm : (received s.pbuf d).take 9 = PACKET_MAGIC.take 9)
    (hs : ¬ ((Packet.ofBytes (received s.pbuf d)).seqNumber ≤ s.mLastSeq ∧
            s.mLastSeq - (Packet.ofBytes (received s.pbuf d)).seqNumber < shouldReset)) :
    readOne s (⟨ReadResult.datagram d, sig⟩ :: rest) =
      (Outcome.returned (Packet.ofBytes (received s.pbuf d)),
        { s with canRun := s.canRun && !sig, pbuf := received s.pbuf d,
                 mLastSeq := (Packet.ofBytes (received s.pbuf d)).seqNumber }, rest) := by
  rw [readOne_datagram s d sig rest hd, if_pos ⟨hm, hs⟩]

/-- A call of `readOne` leaves `mLastSeq` as it was or returns the packet whose
sequence number `mLastSeq` now is. -/
theorem readOne_lastSeq (tr : List Tick) :
    ∀ s : Server, (readOne s tr).2.1.mLastSeq = s.mLastSeq ∨
      ∃ p, (readOne s tr).1 = Outcome.returned p ∧ (readOne s tr).2.1.mLastSeq = p.seqNumber := by
  induction tr with
  | nil => intro s; left; rw [readOne_nil]
  | cons t rest ih =>
    intro s
    obtain ⟨res, sig⟩ := t
    cases res with
    | error e =>
      rw [readOne]
      simp only
      split_ifs
      · exact ih _
      · left; rfl
      · left; rfl
    | datagram d =>
      by_cases hd : 0 < d.length
      · rw [readOne_datagram s d sig rest hd]
        split_ifs
        · right; exact ⟨_, rfl, rfl⟩
        · exact ih _
        · left; rfl
      · have hmin : min d.length PACKET_SIZE = 0 := by omega
        rw [readOne]
        simp only [hmin, if_true]
        split_ifs
        · exact ih _
        · left; rfl

/-- C1 (receiver sequence rule, accept case). For every receiver state `s` and
every received datagram `d` that carries a magic and a sequence number (at least
24 bytes), whose magic is `PACKET_MAGIC` and whose `seqNumber` is strictly
greater than `mLastSeq`, the iteration of `Server::readOne` that reads `d`
returns: the result is the packet in the receive buffer, `mLastSeq` becomes the
`seqNumber` of `d`, and for a whole datagram (56 bytes or more) the packet
returned is exactly the packet that `d` carries. -/
theorem readOne_accepts_newer (s : Server) (d : List Byte) (sig : Bool) (rest : List Tick)
    (hlen : 24 ≤ d.length) (hmagic : (Packet.ofBytes d).magic = PACKET_MAGIC)
    (hseq : s.mLastSeq < (Packet.ofBytes d).seqNumber) :
    readOne s (⟨ReadResult.datagram d, sig⟩ :: rest) =
        (Outcome.returned (Packet.ofBytes (received s.pbuf d)),
          { s with canRun := s.canRun && !sig, pbuf := received s.pbuf d,
                   mLastSeq := (Packet.ofBytes d).seqNumber }, rest)
      ∧ (Packet.ofBytes (received s.pbuf d)).seqNumber = (Packet.ofBytes d).seqNumber
      ∧ (PACKET_SIZE ≤ d.length → Packet.ofBytes (received s.pbuf d) = Packet.ofBytes d) := by
  have hs := seqNumber_received s.pbuf d hlen
  refine ⟨?_, hs, fun h => ofBytes_received s.pbuf d h hmagic⟩
  rw [readOne_takes s d sig rest (by omega) (magic_received s.pbuf d (by omega) hmagic)
    (by rw [hs]; omega), hs]

/-- Witness of C1: a receiver with `mLastSeq = 50` reads the sample packet with
sequence number 200; it is returned and `mLastSeq` becomes 200. -/
theorem readOne_accepts_newer_witness :
    (readOne (sampleServer 50) [⟨ReadResult.datagram (samplePacket 200).toBytes, false⟩]).1
        = Outcome.returned (samplePacket 200)
      ∧ (readOne (sampleServer 50)
          [⟨ReadResult.datagram (samplePacket 200).toBytes, false⟩]).2.1.mLastSeq = 200 := by
  have h := readOne_accepts_newer (sampleServer 50) (samplePacket 200).toBytes false []
    (by decide) (by decide) (by decide)
  rw [h.1]
  exact ⟨by rw [h.2.2 (by decide)]; decide, by decide⟩

/-- The loop of `readEvents` on an exhausted environment emits nothing and keeps
`mLastSeq`. -/
theorem readEvents_nil (s : Server) (e : List Int) :
    (readEvents s [] e).out = [] ∧ (readEvents s [] e).st.mLastSeq = s.mLastSeq := by
  unfold readEvents
  rw [readEventsLoop, readOne_nil]
  split <;> exact ⟨rfl, rfl⟩

/-- After a discarded datagram that is the last of the observed environment,
`readOne` ends with `mLastSeq` as it was. -/
theorem readOn_nil_lastSeq (s : Server) (d : List Byte) (sig : Bool) :
    (readOn s d sig []).2.1.mLastSeq = s.mLastSeq := by
  unfold readOn
  rw [readOne_nil]
  split <;> rfl

/-- C2 (receiver sequence rule, reject-in-window case). For every receiver state
`s` and every received datagram `d` with the magic of `PACKET_MAGIC` whose
`seqNumber` is at most `mLastSeq` and less than 100 behind it, `Server::readOne`
discards `d`: it does not return at `d` but reads on from a state in which only
the receive buffer has changed (`mLastSeq` is unchanged), or, when SIGINT has
cleared `canRun`, hands the buffer back to a caller that will not use it. In
`Server::readEvents` nothing is passed to `packetToEvent` for `d`: the run
continues as the run on the following ticks from that state, and when `d` is the
last datagram observed nothing at all is emitted and `mLastSeq` is as before. -/
theorem readOne_rejects_in_window (s : Server) (d : List Byte) (sig : Bool)
    (rest : List Tick) (errs : List Int)
    (hlen : 24 ≤ d.length) (_hmagic : (Packet.ofBytes d).magic = PACKET_MAGIC)
    (hle : (Packet.ofBytes d).seqNumber ≤ s.mLastSeq)
    (hwin : s.mLastSeq - (Packet.ofBytes d).seqNumber < 100) :
    readOne s (⟨ReadResult.datagram d, sig⟩ :: rest) = readOn s d sig rest
      ∧ (discarded s d sig).mLastSeq = s.mLastSeq
      ∧ (s.canRun = true →
          readEvents s (⟨ReadResult.datagram d, sig⟩ :: rest) errs
            = readEvents (discarded s d sig) rest errs)
      ∧ (readOne s [⟨ReadResult.datagram d, sig⟩]).2.1.mLastSeq = s.mLastSeq
      ∧ (s.canRun = true →
          (readEvents s [⟨ReadResult.datagram d, sig⟩] errs).out = [] ∧
          (readEvents s [⟨ReadResult.datagram d, sig⟩] errs).st.mLastSeq = s.mLastSeq) := by
  have hs := seqNumber_received s.pbuf d hlen
  have key : ∀ tl, readOne s (⟨ReadResult.datagram d, sig⟩ :: tl) = readOn s d sig tl :=
    fun tl => readOne_discards s d sig tl (by omega)
      (by rw [hs]; exact fun h => h.2 ⟨hle, hwin⟩)
  refine ⟨key rest, rfl, fun hrun => readEvents_discard s d sig rest errs hrun (key rest),
    ?_, fun hrun => ?_⟩
  · rw [key []]
    exact readOn_nil_lastSeq s d sig
  · rw [readEvents_discard s d sig [] errs hrun (key [])]
    exact readEvents_nil _ _

/-- Witness of C2: a receiver with `mLastSeq = 50` reads the sample packet with
sequence number 49, and an exact duplicate of the packet numbered 50: each is
discarded, nothing is emitted and `mLastSeq` stays 50. -/
theorem readOne_rejects_in_window_witness :
    ((readOne (sampleServer 50)
        [⟨ReadResult.datagram (samplePacket 49).toBytes, false⟩]).2.1.mLastSeq = 50
      ∧ (readEvents (sampleServer 50)
        [⟨ReadResult.datagram (samplePacket 49).toBytes, false⟩] []).out = [])
    ∧ ((readOne (sampleServer 50)
        [⟨ReadResult.datagram (samplePacket 50).toBytes, false⟩]).2.1.mLastSeq = 50
      ∧ (readEvents (sampleServer 50)
        [⟨ReadResult.datagram (samplePacket 50).toBytes, false⟩] []).out = []) := by
  have h49 := readOne_rejects_in_window (sampleServer 50) (samplePacket 49).toBytes false [] []
    (by decide) (by decide) (by decide) (by decide)
  have h50 := readOne_rejects_in_window (sampleServer 50) (samplePacket 50).toBytes false [] []
    (by decide) (by decide) (by decide) (by decide)
  exact ⟨⟨h49.2.2.2.1, (h49.2.2.2.2 rfl).1⟩, ⟨h50.2.2.2.1, (h50.2.2.2.2 rfl).1⟩⟩

/-- Counterexample to C3 as stated: a receiver with `mLastSeq = 200` reads the
sample packet with sequence number 50, which is not newer; `readOne` returns it
and `mLastSeq` drops to 50. -/
theorem readOne_older_counterexample :
    (Packet.ofBytes (samplePacket 50).toBytes).magic = PACKET_MAGIC
      ∧ (Packet.ofBytes (samplePacket 50).toBytes).seqNumber ≤ (sampleServer 200).mLastSeq
      ∧ (readOne (sampleServer 200)
          [⟨ReadResult.datagram (samplePacket 50).toBytes, false⟩]).1
            = Outcome.returned (samplePacket 50)
      ∧ (readOne (sampleServer 200)
          [⟨ReadResult.datagram (samplePacket 50).toBytes, false⟩]).2.1.mLastSeq = 50
      ∧ (readEvents (sampleServer 200)
          [⟨ReadResult.datagram (samplePacket 50).toBytes, false⟩] []).out ≠ [] := by
  refine ⟨by decide, by decide, by decide, by decide, by decide⟩

/-- C3, amended. For every receiver state `s` and every received datagram `d`
with the magic of `PACKET_MAGIC` whose `seqNumber` is at most `mLastSeq`:
when `d` is less than 100 behind `mLastSeq`, `Server::readOne` discards it and
`mLastSeq` is unchanged; when `d` is 100 or more behind, `readOne` returns it and
sets `mLastSeq` to its `seqNumber`, which is not greater than before. Over any
call of `readOne` on any environment, `mLastSeq` is afterwards what it was or the
sequence number of the packet the call returns: it is the sequence number of the
packet accepted last, not the highest one accepted. -/
theorem readOne_older_datagram (s : Server) (d : List Byte) (sig : Bool) (rest : List Tick)
    (hlen : 24 ≤ d.length) (hmagic : (Packet.ofBytes d).magic = PACKET_MAGIC)
    (hle : (Packet.ofBytes d).seqNumber ≤ s.mLastSeq) :
    (s.mLastSeq - (Packet.ofBytes d).seqNumber < 100 →
        readOne s (⟨ReadResult.datagram d, sig⟩ :: rest) = readOn s d sig rest
          ∧ (discarded s d sig).mLastSeq = s.mLastSeq)
      ∧ (100 ≤ s.mLastSeq - (Packet.ofBytes d).seqNumber →
        readOne s (⟨ReadResult.datagram d, sig⟩ :: rest) =
          (Outcome.returned (Packet.ofBytes (received s.pbuf d)),
            { s with canRun := s.canRun && !sig, pbuf := received s.pbuf d,
                     mLastSeq := (Packet.ofBytes d).seqNumber }, rest)
          ∧ (Packet.ofBytes (received s.pbuf d)).seqNumber = (Packet.ofBytes d).seqNumber)
      ∧ (∀ (s0 : Server) (tr : List Tick),
          (readOne s0 tr).2.1.mLastSeq = s0.mLastSeq ∨
          ∃ p, (readOne s0 tr).1 = Outcome.returned p ∧
            (readOne s0 tr).2.1.mLastSeq = p.seqNumber) := by
  have hs := seqNumber_received s.pbuf d hlen
  refine ⟨fun hwin => ⟨?_, rfl⟩, fun hfar => ⟨?_, hs⟩, fun s0 tr => readOne_lastSeq tr s0⟩
  · exact readOne_discards s d sig rest (by omega)
      (by rw [hs]; exact fun h => h.2 ⟨hle, hwin⟩)
  · rw [readOne_takes s d sig rest (by omega) (magic_received s.pbuf d (by omega) hmagic)
      (by rw [hs]; unfold shouldReset; omega), hs]

/-- Witness of C3, amended: `mLastSeq = 200` and the sample packets numbered 150
(discarded) and 50 (returned, `mLastSeq` becomes 50). -/
theorem readOne_older_datagram_witness :
    (readOne (sampleServer 200)
        [⟨ReadResult.datagram (samplePacket 150).toBytes, false⟩]).2.1.mLastSeq = 200
      ∧ (readOne (sampleServer 200)
        [⟨ReadResult.datagram (samplePacket 50).toBytes, false⟩]).2.1.mLastSeq = 50 := by
  have h150 := (readOne_older_datagram (sampleServer 200) (samplePacket 150).toBytes false []
    (by decide) (by decide) (by decide)).1 (by decide)
  have h50 := (readOne_older_datagram (sampleServer 200) (samplePacket 50).toBytes false []
    (by decide) (by decide) (by decide)).2.1 (by decide)
  rw [h150.1, h50.1]
  exact ⟨readOn_nil_lastSeq _ _ _, by decide⟩

/-- The nine bytes that `readOne` compares with `NetStylus` after a read: the bytes
of the datagram, followed for a datagram of less than nine bytes by the bytes that
the buffer held before at those positions. -/
theorem take_nine_buffer (buf d : List Byte) :
    (received buf d).take 9 = (d ++ buf.drop d.length).take 9 := by
  have e : (received buf d).take 9 = (recvInto buf d).take 9 := by
    unfold received
    rw [List.set_take, List.set_eq_of_length_le (by rw [List.length_take]; omega)]
  rw [e]
  unfold recvInto PACKET_SIZE
  by_cases h : d.length ≤ 56
  · rw [List.take_of_length_le h, Nat.min_eq_left h]
  · have h9 : 9 ≤ (d.take 56).length := by rw [List.length_take]; omega
    rw [List.take_append_of_le_length h9, List.take_append_of_le_length (by omega),
      List.take_take]
    rfl

/-- A datagram whose bytes, followed by anything, start with nine given bytes
starts like them as far as it goes. -/
theorem take_nine_start (d st m : List Byte) (h : (d ++ st).take 9 = m) :
    d.take 9 <+: m := by
  rw [← h, List.take_append_eq_append_take]
  exact List.prefix_append _ _

/-- A datagram of nine bytes or more that does not start with nine given bytes is
not a beginning of them. -/
theorem not_prefix_of_take_ne (d m : List Byte) (hd : 9 ≤ d.length) (hm : m.length = 9)
    (h : d.take 9 ≠ m) : ¬ (d.take 9 <+: m) := by
  intro hp
  apply h
  exact hp.eq_of_length (by rw [List.length_take, hm]; omega)

/-- A datagram after which the buffer does not start with `NetStylus` is discarded:
`readOne` reads on, `mLastSeq` is unchanged and `readEvents` passes nothing to
`packetToEvent` for it. -/
theorem readOne_magic_discard (s : Server) (d : List Byte) (sig : Bool)
    (rest : List Tick) (errs : List Int) (hd : 0 < d.length)
    (hne : (received s.pbuf d).take 9 ≠ PACKET_MAGIC.take 9) :
    readOne s (⟨ReadResult.datagram d, sig⟩ :: rest) = readOn s d sig rest
      ∧ (discarded s d sig).mLastSeq = s.mLastSeq
      ∧ (s.canRun = true →
          readEvents s (⟨ReadResult.datagram d, sig⟩ :: rest) errs
            = readEvents (discarded s d sig) rest errs)
      ∧ (readOne s [⟨ReadResult.datagram d, sig⟩]).2.1.mLastSeq = s.mLastSeq
      ∧ (s.canRun = true →
          (readEvents s [⟨ReadResult.datagram d, sig⟩] errs).out = [] ∧
          (readEvents s [⟨ReadResult.datagram d, sig⟩] errs).st.mLastSeq = s.mLastSeq) := by
  have key : ∀ tl, readOne s (⟨ReadResult.datagram d, sig⟩ :: tl) = readOn s d sig tl :=
    fun tl => readOne_discards s d sig tl hd (fun h => hne h.1)
  refine ⟨key rest, rfl, fun hrun => readEvents_discard s d sig rest errs hrun (key rest),
    ?_, fun hrun => ?_⟩
  · rw [key []]
    exact readOn_nil_lastSeq s d sig
  · rw [readEvents_discard s d sig [] errs hrun (key [])]
    exact readEvents_nil _ _

/-- Counterexample to C4 as stated. The magic of the first datagram differs from
`PACKET_MAGIC` in its tenth byte, and `readOne` accepts the datagram all the same:
it returns the packet (with the tenth byte cleared), `mLastSeq` becomes 51 and
`readEvents` emits events for it. The second receiver reads a datagram whose magic
starts with a lower-case `n`, which it discards, and then the datagram of the one
byte `N`, which has no magic field of ten bytes: the byte completes `NetStylus` in
the buffer that the discarded datagram has left, and `readOne` accepts what the
buffer holds, the sample packet numbered 200. -/
theorem readOne_magic_counterexample :
    ((Packet.ofBytes foreignMagicPacket.toBytes).magic ≠ PACKET_MAGIC
      ∧ (readOne (sampleServer 50)
          [⟨ReadResult.datagram foreignMagicPacket.toBytes, false⟩]).1
            = Outcome.returned (samplePacket 51)
      ∧ (readOne (sampleServer 50)
          [⟨ReadResult.datagram foreignMagicPacket.toBytes, false⟩]).2.1.mLastSeq = 51
      ∧ (readEvents (sampleServer 50)
          [⟨ReadResult.datagram foreignMagicPacket.toBytes, false⟩] []).out ≠ [])
    ∧ ((readOne (sampleServer 50)
          [⟨ReadResult.datagram wrongMagicPacket.toBytes, false⟩]).1 = Outcome.blocked
      ∧ (readOne (sampleServer 50)
          [⟨ReadResult.datagram wrongMagicPacket.toBytes, false⟩,
           ⟨ReadResult.datagram [78], false⟩]).1 = Outcome.returned (samplePacket 200)
      ∧ (readOne (sampleServer 50)
          [⟨ReadResult.datagram wrongMagicPacket.toBytes, false⟩,
           ⟨ReadResult.datagram [78], false⟩]).2.1.mLastSeq = 200
      ∧ events (readEvents (sampleServer 50)
          [⟨ReadResult.datagram wrongMagicPacket.toBytes, false⟩,
           ⟨ReadResult.datagram [78], false⟩] []).out ≠ []) := by
  refine ⟨⟨by decide, by decide, by decide, by decide⟩, by decide, by decide, by decide,
    by decide⟩

/-- C4, amended. `Server::readOne` compares the receive buffer, not the datagram
alone, and overwrites the tenth byte of the magic before it compares. So the tenth
byte is ignored: a datagram is treated exactly as the same datagram with any other
tenth byte. The nine bytes compared with `NetStylus` are the bytes of the datagram,
followed for a datagram of less than nine bytes by the bytes that earlier reads
have left in the buffer: a datagram that is not empty is accepted only if these
nine bytes are `NetStylus`, and is discarded otherwise; an empty datagram is
never accepted, the loop goes on or ends. Every datagram, of any length, that
differs from `NetStylus` in one of the first nine bytes it carries is discarded
without changing `mLastSeq`, and `readEvents` passes nothing to `packetToEvent`
for it. -/
theorem readOne_magic_first_nine (s : Server) (d : List Byte) (sig : Bool)
    (rest : List Tick) (errs : List Int) :
    (∀ x : Byte, readOne s (⟨ReadResult.datagram (d.set 9 x), sig⟩ :: rest)
        = readOne s (⟨ReadResult.datagram d, sig⟩ :: rest))
      ∧ (9 ≤ d.length → d.take 9 ≠ PACKET_MAGIC.take 9 →
          readOne s (⟨ReadResult.datagram d, sig⟩ :: rest) = readOn s d sig rest
          ∧ (discarded s d sig).mLastSeq = s.mLastSeq
          ∧ (s.canRun = true →
              readEvents s (⟨ReadResult.datagram d, sig⟩ :: rest) errs
                = readEvents (discarded s d sig) rest errs)
          ∧ (readOne s [⟨ReadResult.datagram d, sig⟩]).2.1.mLastSeq = s.mLastSeq
          ∧ (s.canRun = true →
              (readEvents s [⟨ReadResult.datagram d, sig⟩] errs).out = [] ∧
              (readEvents s [⟨ReadResult.datagram d, sig⟩] errs).st.mLastSeq = s.mLastSeq))
      ∧ (¬ (d.take 9 <+: PACKET_MAGIC.take 9) →
          readOne s (⟨ReadResult.datagram d, sig⟩ :: rest) = readOn s d sig rest
          ∧ (discarded s d sig).mLastSeq = s.mLastSeq
          ∧ (s.canRun = true →
              readEvents s (⟨ReadResult.datagram d, sig⟩ :: rest) errs
                = readEvents (discarded s d sig) rest errs)
          ∧ (readOne s [⟨ReadResult.datagram d, sig⟩]).2.1.mLastSeq = s.mLastSeq
          ∧ (s.canRun = true →
              (readEvents s [⟨ReadResult.datagram d, sig⟩] errs).out = [] ∧
              (readEvents s [⟨ReadResult.datagram d, sig⟩] errs).st.mLastSeq = s.mLastSeq))
      ∧ (0 < d.length → (d ++ s.pbuf.drop d.length).take 9 ≠ PACKET_MAGIC.take 9 →
          readOne s (⟨ReadResult.datagram d, sig⟩ :: rest) = readOn s d sig rest
          ∧ (discarded s d sig).mLastSeq = s.mLastSeq
          ∧ (s.canRun = true →
              readEvents s (⟨ReadResult.datagram d, sig⟩ :: rest) errs
                = readEvents (discarded s d sig) rest errs)
          ∧ (readOne s [⟨ReadResult.datagram d, sig⟩]).2.1.mLastSeq = s.mLastSeq
          ∧ (s.canRun = true →
              (readEvents s [⟨ReadResult.datagram d, sig⟩] errs).out = [] ∧
              (readEvents s [⟨ReadResult.datagram d, sig⟩] errs).st.mLastSeq = s.mLastSeq))
      ∧ (0 < d.length →
          readOne s (⟨ReadResult.datagram d, sig⟩ :: rest) = readOn s d sig rest
          ∨ ((d ++ s.pbuf.drop d.length).take 9 = PACKET_MAGIC.take 9
            ∧ (9 ≤ d.length → d.take 9 = PACKET_MAGIC.take 9)
            ∧ readOne s (⟨ReadResult.datagram d, sig⟩ :: rest) =
                (Outcome.returned (Packet.ofBytes (received s.pbuf d)),
                  { s with canRun := s.canRun && !sig, pbuf := received s.pbuf d,
                           mLastSeq := (Packet.ofBytes (received s.pbuf d)).seqNumber },
                  rest)))
      ∧ readOne s (⟨ReadResult.datagram [], sig⟩ :: rest) =
          (if (s.canRun && !sig) = true then readOne { s with canRun := s.canRun && !sig } rest
           else (Outcome.returned (Packet.ofBytes s.pbuf),
                  { s with canRun := s.canRun && !sig }, rest)) := by
  have hbuf := take_nine_buffer s.pbuf d
  have hpre : ¬ (d.take 9 <+: PACKET_MAGIC.take 9) →
      0 < d.length ∧ (received s.pbuf d).take 9 ≠ PACKET_MAGIC.take 9 := by
    intro hp
    constructor
    · rcases Nat.eq_zero_or_pos d.length with h0 | h0
      · exfalso
        apply hp
        rw [List.length_eq_zero.mp h0]
        exact List.nil_prefix
      · exact h0
    · intro h
      rw [hbuf] at h
      exact hp (take_nine_start d _ _ h)
  refine ⟨?_, ?_, ?_, ?_, ?_, ?_⟩
  · intro x
    rw [readOne, readOne]
    simp only [List.length_set, received_set_nine]
  · intro hlen hne
    have hp := hpre (not_prefix_of_take_ne d _ hlen (by decide) hne)
    exact readOne_magic_discard s d sig rest errs hp.1 hp.2
  · intro hp
    exact readOne_magic_discard s d sig rest errs (hpre hp).1 (hpre hp).2
  · intro hd hne
    exact readOne_magic_discard s d sig rest errs hd (by rw [hbuf]; exact hne)
  · intro hd
    by_cases hc : (received s.pbuf d).take 9 = PACKET_MAGIC.take 9 ∧
        ¬ ((Packet.ofBytes (received s.pbuf d)).seqNumber ≤ s.mLastSeq ∧
          s.mLastSeq - (Packet.ofBytes (received s.pbuf d)).seqNumber < shouldReset)
    · right
      refine ⟨by rw [← hbuf]; exact hc.1, fun h9 => ?_, readOne_takes s d sig rest hd hc.1 hc.2⟩
      rw [← take_nine_received s.pbuf d h9]
      exact hc.1
    · left
      exact readOne_discards s d sig rest hd hc
  · rw [readOne]
    rfl

/-- Witness of C4, amended: a datagram whose magic starts with a lower-case `n`,
and the datagram of the five bytes `Hello`, are discarded by a receiver with
`mLastSeq = 50`: nothing is emitted and `mLastSeq` stays 50. -/
theorem readOne_magic_first_nine_witness :
    ((readOne (sampleServer 50)
        [⟨ReadResult.datagram wrongMagicPacket.toBytes, false⟩]).2.1.mLastSeq = 50
      ∧ (readEvents (sampleServer 50)
        [⟨ReadResult.datagram wrongMagicPacket.toBytes, false⟩] []).out = [])
    ∧ (¬ (List.take 9 [72, 101, 108, 108, 111] <+: PACKET_MAGIC.take 9)
      ∧ (readOne (sampleServer 50)
        [⟨ReadResult.datagram [72, 101, 108, 108, 111], false⟩]).2.1.mLastSeq = 50
      ∧ (readEvents (sampleServer 50)
        [⟨ReadResult.datagram [72, 101, 108, 108, 111], false⟩] []).out = []) := by
  have h := (readOne_magic_first_nine (sampleServer 50) wrongMagicPacket.toBytes false []
    []).2.1 (by decide) (by decide)
  have h2 := (readOne_magic_first_nine (sampleServer 50) [72, 101, 108, 108, 111] false []
    []).2.2.1 (by decide)
  exact ⟨⟨h.2.2.2.1, (h.2.2.2.2 rfl).1⟩, by decide, h2.2.2.2.1, (h2.2.2.2.2 rfl).1⟩

theorem events_append (a b : List Out) : events (a ++ b) = events a ++ events b := by
  unfold events
  rw [List.filterMap_append]

theorem events_reportError (p : Packet) (descr : Descr) (err : Int) :
    events (reportError p descr err) = [] := by
  unfold reportError
  split <;> rfl

theorem events_enableCall (n : Nat) (call : Out) (errs : List Int) (h : call.event = none) :
    events (enableCall n call errs) = [] := by
  unfold enableCall events
  simp only [List.filterMap_cons, h]
  split <;> rfl

theorem events_enableType (n ty : Nat) (errs : List Int) :
    events (enableCall n (Out.enableEventType ty) errs) = [] :=
  events_enableCall _ _ _ rfl

theorem events_enableCode (n ty code : Nat) (a : Option (Int × Int)) (errs : List Int) :
    events (enableCall n (Out.enableEventCode ty code a) errs) = [] :=
  events_enableCall _ _ _ rfl

theorem events_setupDevice (env : Env) (s : Server) : events (setupDevice env s).2 = [] := by
  unfold setupDevice
  split
  · rfl
  · simp only [events_append, events_enableType, events_enableCode]
    split <;> rfl

/-- A packet that `readOne` returns while `canRun` is set is one it has accepted:
`mLastSeq` is its sequence number. -/
theorem readOne_returned_running (tr : List Tick) :
    ∀ (s s1 : Server) (p : Packet) (rest : List Tick),
      readOne s tr = (Outcome.returned p, s1, rest) → s1.canRun = true →
        s1.mLastSeq = p.seqNumber := by
  induction tr with
  | nil => intro s s1 p rest h; rw [readOne_nil] at h; cases h
  | cons t tl ih =>
    intro s s1 p rest h hrun
    obtain ⟨res, sig⟩ := t
    cases res with
    | error e =>
      rw [readOne] at h
      simp only at h
      split_ifs at h with h1 h2
      · exact ih _ _ _ _ h hrun
      · cases h
      · cases h
        simp only at hrun
        exact absurd hrun h2
    | datagram d =>
      by_cases hd : 0 < d.length
      · rw [readOne_datagram s d sig tl hd] at h
        split_ifs at h with h1 h2
        · cases h; rfl
        · exact ih _ _ _ _ h hrun
        · cases h
          simp only at hrun
          exact absurd hrun h2
      · have hmin : min d.length PACKET_SIZE = 0 := by omega
        rw [readOne] at h
        simp only [hmin, if_true] at h
        split_ifs at h with h2
        · exact ih _ _ _ _ h hrun
        · cases h
          simp only at hrun
          exact absurd hrun h2

/-- Counterexample to C5 as stated: a freshly constructed receiver reads the
sample packet numbered 5, which has the has-pressure bit set, and is then
interrupted by SIGINT. The packet is accepted while `canRun` is set (`mLastSeq`
becomes 5 and the ranges are taken from it), `packetToEvent` would emit events
for it, yet `run` returns `0` without having written a single event. -/
theorem run_first_packet_counterexample :
    (readFirst (sampleServer 0)
        [⟨ReadResult.datagram (samplePacket 5).toBytes, false⟩, ⟨ReadResult.error 4, true⟩]).1
          = Outcome.returned (samplePacket 5)
      ∧ (readFirst (sampleServer 0)
        [⟨ReadResult.datagram (samplePacket 5).toBytes, false⟩, ⟨ReadResult.error 4, true⟩]).2.1
          = { sampleServer 0 with mLastSeq := 5, mMaxX := 10000, mMaxY := 5000,
                                  mMaxPressure := 4096, pbuf := (samplePacket 5).toBytes }
      ∧ (samplePacket 5).status &&& PacketHasPressure ≠ 0
      ∧ events (packetToEvent (sampleServer 5) (samplePacket 5) []).2.1 ≠ []
      ∧ (run sampleEnv (sampleServer 0)
        [⟨ReadResult.datagram (samplePacket 5).toBytes, false⟩, ⟨ReadResult.error 4, true⟩]
        []).exit = some 0
      ∧ events (run sampleEnv (sampleServer 0)
        [⟨ReadResult.datagram (samplePacket 5).toBytes, false⟩, ⟨ReadResult.error 4, true⟩]
        []).out = [] := by
  refine ⟨by decide, by decide, by decide, by decide, by decide, by decide⟩

/-- Once `readFirst` has returned with `canRun` set, the events of the run are
those of `readEvents` on the ticks that follow, provided the device is set up. -/
theorem run_after_first (env : Env) (s : Server) (trace : List Tick) (errs : List Int)
    (p : Packet) (s2 : Server) (rest : List Tick) (hsock : env.socketOk = true)
    (hf : readFirst s trace = (Outcome.returned p, s2, rest)) (hrun2 : s2.canRun = true) :
    events (run env s trace errs).out =
      (if (setupDevice env s2).1 = true then events (readEvents s2 rest errs).out else []) := by
  unfold run
  rw [hf]
  simp only [hsock, Bool.true_eq_false, if_false, hrun2]
  have hsd := events_setupDevice env s2
  rcases hd : setupDevice env s2 with ⟨ok, o⟩
  rw [hd] at hsd
  have hsd2 : events o = [] := hsd
  have hp : ∀ e, events [Out.printExiting e] = [] := fun _ => rfl
  cases ok with
  | false => simpa using hsd2
  | true =>
    simp only [if_true]
    split <;> simp only [events_append, hsd2, hp, List.nil_append, List.append_nil]

/-- C5, amended. For every run of the receiver (`Server::run`, socket set up) in
which `readFirst` obtains a first packet `p` while `canRun` stays set, that
packet sets `mLastSeq` to its sequence number and the ranges `mMaxX`, `mMaxY`,
`mMaxPressure` to its `maxX`, `maxY`, `maxPressure`, and it is not applied by the
event reconstructor: the events written during the run are exactly those that
`readEvents` writes for the datagrams read after it (none when the device cannot
be set up), so none when nothing follows. -/
theorem run_first_packet (env : Env) (s : Server) (trace : List Tick) (errs : List Int)
    (p : Packet) (s1 : Server) (rest : List Tick) (hsock : env.socketOk = true)
    (h : readOne s trace = (Outcome.returned p, s1, rest)) (hrun : s1.canRun = true) :
    s1.mLastSeq = p.seqNumber
      ∧ readFirst s trace = (Outcome.returned p,
          { s1 with mMaxX := p.maxX, mMaxY := p.maxY, mMaxPressure := p.maxPressure }, rest)
      ∧ events (run env s trace errs).out =
          (if (setupDevice env
                { s1 with mMaxX := p.maxX, mMaxY := p.maxY, mMaxPressure := p.maxPressure }).1
              = true then
            events (readEvents
              { s1 with mMaxX := p.maxX, mMaxY := p.maxY, mMaxPressure := p.maxPressure }
              rest errs).out
          else [])
      ∧ (rest = [] → events (run env s trace errs).out = []) := by
  have hf : readFirst s trace = (Outcome.returned p,
      { s1 with mMaxX := p.maxX, mMaxY := p.maxY, mMaxPressure := p.maxPressure }, rest) := by
    unfold readFirst
    rw [h]
  have hev := run_after_first env s trace errs p _ rest hsock hf hrun
  refine ⟨readOne_returned_running trace s s1 p rest h hrun, hf, hev, fun hr => ?_⟩
  rw [hev, hr]
  split
  · rw [(readEvents_nil _ _).1]
    rfl
  · rfl

/-- Witness of C5, amended: the run of the counterexample followed by a second
sample packet before the interruption; only the second packet is written to the
device. -/
theorem run_first_packet_witness :
    events (run sampleEnv (sampleServer 0)
        [⟨ReadResult.datagram (samplePacket 5).toBytes, false⟩,
         ⟨ReadResult.datagram (samplePacket 6).toBytes, false⟩,
         ⟨ReadResult.error 4, true⟩] []).out
      = events (packetToEvent (sampleServer 5) (samplePacket 6) []).2.1 := by
  have h := (run_first_packet sampleEnv (sampleServer 0)
    [⟨ReadResult.datagram (samplePacket 5).toBytes, false⟩,
     ⟨ReadResult.datagram (samplePacket 6).toBytes, false⟩,
     ⟨ReadResult.error 4, true⟩] [] (samplePacket 5)
    { sampleServer 0 with mLastSeq := 5, pbuf := (samplePacket 5).toBytes }
    [⟨ReadResult.datagram (samplePacket 6).toBytes, false⟩, ⟨ReadResult.error 4, true⟩]
    rfl (by decide) rfl).2.2.1
  rw [h]
  decide

/-- C6 (foreign-sample discard). For every packet whose status has the
has-pressure bit (`0x10`) clear, `Server::packetToEvent` calls nothing and
prints nothing (no axis, key or synchronization event, no change of an axis
maximum), consumes no return code, and leaves the receiver state as it was, so
`mMaxX` and `mMaxY` keep their values even when the packet's `maxX` and `maxY`
differ from them. -/
theorem packetToEvent_without_pressure (s : Server) (p : Packet) (errs : List Int)
    (h : p.status &&& PacketHasPressure = 0) :
    packetToEvent s p errs = (s, [], errs) := by
  unfold packetToEvent
  rw [if_pos h]

/-- Witness of C6: a touching sample without pressure whose extents differ from
the receiver's leaves the receiver untouched. -/
theorem packetToEvent_without_pressure_witness :
    ({ samplePacket 7 with status := 0x01 } : Packet).maxX ≠ (sampleServer 6).mMaxX
      ∧ packetToEvent (sampleServer 6) { samplePacket 7 with status := 0x01 } [-1]
          = (sampleServer 6, [], [-1]) :=
  ⟨by decide, packetToEvent_without_pressure (sampleServer 6)
    { samplePacket 7 with status := 0x01 } [-1] (by decide)⟩

theorem events_write (t c : Nat) (v : Int) (o : List Out) :
    events (Out.writeEvent t c v :: o) = (t, c, v) :: events o := rfl

theorem events_nil : events [] = [] := rfl

theorem events_maxChanged (a : Axis) (o : List Out) :
    events (Out.putsMaxChanged a :: o) = events o := rfl

theorem events_setAbsMaximum (c : Nat) (v : Int) (o : List Out) :
    events (Out.setAbsMaximum c v :: o) = events o := rfl

theorem events_failedSyn (c : Prop) [Decidable c] (seq : Nat) (err : Int) :
    events (if c then [Out.printFailedSyn seq err] else []) = [] := by
  split <;> rfl

/-- The events of `packetToEvent` for a packet with the has-pressure bit, in any
state of the receiver and with any return codes. -/
theorem events_packetToEvent (s0 : Server) (p : Packet) (e0 : List Int)
    (h : p.status &&& PacketHasPressure ≠ 0) :
    events (packetToEvent s0 p e0).2.1 =
      [(EV_ABS, ABS_X, toInt32 p.x), (EV_ABS, ABS_Y, toInt32 p.y),
       (EV_ABS, ABS_PRESSURE, toInt32 p.pressure),
       (EV_KEY, BTN_TOUCH, if p.status &&& PacketIsTouching ≠ 0 then 1 else 0),
       (EV_KEY, if p.status &&& PacketIsEraser ≠ 0 then BTN_TOOL_RUBBER else BTN_TOOL_PEN, 1),
       (EV_KEY, BTN_STYLUS, ((p.status &&& PacketButtonPressed : Nat) : Int))]
      ++ (if p.status &&& PacketHasTiltX ≠ 0 then [(EV_ABS, ABS_TILT_X, toInt32 p.tiltX)]
          else [])
      ++ (if p.status &&& PacketHasTiltY ≠ 0 then [(EV_ABS, ABS_TILT_Y, toInt32 p.tiltY)]
          else [])
      ++ [(EV_SYN, SYN_REPORT, 0)] := by
  unfold packetToEvent
  rw [if_neg h]
  by_cases hx : p.maxX = s0.mMaxX <;> by_cases hy : p.maxY = s0.mMaxY <;>
    by_cases he : p.status &&& PacketIsEraser = 0 <;>
    by_cases htx : p.status &&& PacketHasTiltX = 0 <;>
    by_cases hty : p.status &&& PacketHasTiltY = 0 <;>
    simp only [hx, hy, he, htx, hty, ne_eq, not_true_eq_false, not_false_eq_true, if_true,
      if_false, events_append, events_reportError, events_write, events_nil,
      events_maxChanged, events_setAbsMaximum, events_failedSyn, List.nil_append,
      List.append_nil,
      List.cons_append, List.append_assoc]

/-- The value that a 32-bit unsigned field has as an `int` argument: the field
itself below `2 ^ 31`, the field minus `2 ^ 32` from there on. -/
theorem toInt32_cases (v : Nat) (h : v < 2 ^ 32) :
    (v < 2 ^ 31 → toInt32 v = v) ∧ (2 ^ 31 ≤ v → toInt32 v = (v : Int) - 2 ^ 32) := by
  unfold toInt32
  rw [Nat.mod_eq_of_lt h]
  constructor
  · intro h1
    rw [if_pos h1]
  · intro h1
    rw [if_neg (by omega)]

/-- Counterexample to C7 as stated: the sample packet with a tilt of -300, which
the sender stores in the unsigned field `tiltX` as 4294966996, and the has-tiltX
bit. The `ABS_TILT_X` event does not carry the value of the field: it carries
-300, the field converted to the `int` parameter of
`libevdev_uinput_write_event`. -/
theorem packetToEvent_events_counterexample :
    longBits (-300) = 4294966996
      ∧ { samplePacket 6 with status := 0x31, tiltX := 4294966996 }.status
          &&& PacketHasPressure ≠ 0
      ∧ events (packetToEvent (sampleServer 5)
          { samplePacket 6 with status := 0x31, tiltX := 4294966996 } []).2.1
          = [(EV_ABS, ABS_X, 1000), (EV_ABS, ABS_Y, 500), (EV_ABS, ABS_PRESSURE, 2048),
             (EV_KEY, BTN_TOUCH, 1), (EV_KEY, BTN_TOOL_PEN, 1), (EV_KEY, BTN_STYLUS, 0),
             (EV_ABS, ABS_TILT_X, -300), (EV_SYN, SYN_REPORT, 0)]
      ∧ (EV_ABS, ABS_TILT_X, (4294966996 : Int))
          ∉ events (packetToEvent (sampleServer 5)
              { samplePacket 6 with status := 0x31, tiltX := 4294966996 } []).2.1 := by
  refine ⟨by decide, by decide, by decide, by decide⟩

/-- C7, amended (event order). For every packet with the has-pressure bit set, the
calls of `libevdev_uinput_write_event` that `Server::packetToEvent` makes are, in
this order: `ABS_X` for `x`, `ABS_Y` for `y`, `ABS_PRESSURE` for `pressure`,
`BTN_TOUCH` with value 1 if the touching bit is set and 0 otherwise, one tool event
(`BTN_TOOL_RUBBER` if the eraser bit is set, otherwise `BTN_TOOL_PEN`, with value
1), `BTN_STYLUS` (with the button-pressed bit of the status as value), `ABS_TILT_X`
for `tiltX` exactly when the has-tiltX bit is set, `ABS_TILT_Y` for `tiltY` exactly
when the has-tiltY bit is set, and at last one `SYN_REPORT`. The value of the event
for a field is the unsigned 32-bit field converted to `int` at the call: the field
itself when it is below `2 ^ 31`, and the field minus `2 ^ 32` otherwise. The
sequence is the same whatever the return codes of the calls are, and whatever the
state of the receiver is. -/
theorem packetToEvent_events (s : Server) (p : Packet) (errs : List Int)
    (h : p.status &&& PacketHasPressure ≠ 0) :
    events (packetToEvent s p errs).2.1 =
        [(EV_ABS, ABS_X, toInt32 p.x), (EV_ABS, ABS_Y, toInt32 p.y),
         (EV_ABS, ABS_PRESSURE, toInt32 p.pressure),
         (EV_KEY, BTN_TOUCH, if p.status &&& PacketIsTouching ≠ 0 then 1 else 0),
         (EV_KEY, if p.status &&& PacketIsEraser ≠ 0 then BTN_TOOL_RUBBER else BTN_TOOL_PEN, 1),
         (EV_KEY, BTN_STYLUS, ((p.status &&& PacketButtonPressed : Nat) : Int))]
        ++ (if p.status &&& PacketHasTiltX ≠ 0 then [(EV_ABS, ABS_TILT_X, toInt32 p.tiltX)]
            else [])
        ++ (if p.status &&& PacketHasTiltY ≠ 0 then [(EV_ABS, ABS_TILT_Y, toInt32 p.tiltY)]
            else [])
        ++ [(EV_SYN, SYN_REPORT, 0)]
      ∧ (∀ (s2 : Server) (errs2 : List Int),
          events (packetToEvent s2 p errs2).2.1 = events (packetToEvent s p errs).2.1)
      ∧ (∀ v : Nat, v < 2 ^ 31 → toInt32 v = v)
      ∧ (∀ v : Nat, 2 ^ 31 ≤ v → v < 2 ^ 32 → toInt32 v = (v : Int) - 2 ^ 32) := by
  exact ⟨events_packetToEvent s p errs h,
    fun s2 errs2 => by rw [events_packetToEvent s2 p errs2 h, events_packetToEvent s p errs h],
    fun v hv => (toInt32_cases v (by omega)).1 hv,
    fun v hv hlt => (toInt32_cases v hlt).2 hv⟩

/-- Witness of C7, amended: the sample packet (touching, with pressure, no tilt)
yields X, Y, pressure, touch 1, pen, stylus button 0 and the synchronization,
though the writes of Y and of the synchronization fail. -/
theorem packetToEvent_events_witness :
    events (packetToEvent (sampleServer 5) (samplePacket 6) [0, -1, 0, 0, 0, 0, -19]).2.1
      = [(EV_ABS, ABS_X, 1000), (EV_ABS, ABS_Y, 500), (EV_ABS, ABS_PRESSURE, 2048),
         (EV_KEY, BTN_TOUCH, 1), (EV_KEY, BTN_TOOL_PEN, 1), (EV_KEY, BTN_STYLUS, 0),
         (EV_SYN, SYN_REPORT, 0)] :=
  (packetToEvent_events (sampleServer 5) (samplePacket 6) [0, -1, 0, 0, 0, 0, -19]
    (by decide)).1

/-! ## Properties of the sender -/

/-- What a packet that `buildPacket` has built consists of: the three reads of
status, x and y have succeeded, and every field is determined by them, by the
optional reads, by the context and by the geometry of the sender. -/
theorem buildPacket_ok (ub : Double → Nat) (s : Sender) (tablet : Context)
    (buffer : List Int) (base seq : Nat) (p : Packet)
    (h : buildPacket ub s tablet buffer base seq = Except.ok p) :
    ∃ rawStatus rawX rawY,
      readLong buffer base tablet.status = Except.ok rawStatus
      ∧ readLong buffer base tablet.x = Except.ok rawX
      ∧ readLong buffer base tablet.y = Except.ok rawY
      ∧ p.magic = PACKET_MAGIC
      ∧ p.status = (longBits rawStatus &&& statusMask) ||| presenceFlags tablet
      ∧ p.x = castUInt32 ub ((Double.ofLong rawX).div s.mScaleX)
      ∧ p.y = castUInt32 ub ((Double.ofLong rawY).div s.mScaleY)
      ∧ p.maxX = s.mMaxX ∧ p.maxY = s.mMaxY ∧ p.seqNumber = seq
      ∧ (if 0 ≤ tablet.pressure then
          ∃ v, readLong buffer base tablet.pressure = Except.ok v
            ∧ p.pressure = longBits v ∧ p.maxPressure = tablet.maxPressure
        else p.pressure = 0 ∧ p.maxPressure = 0)
      ∧ (if 0 ≤ tablet.tiltX then
          ∃ v, readLong buffer base tablet.tiltX = Except.ok v ∧ p.tiltX = longBits v
        else p.tiltX = 0)
      ∧ (if 0 ≤ tablet.tiltY then
          ∃ v, readLong buffer base tablet.tiltY = Except.ok v ∧ p.tiltY = longBits v
        else p.tiltY = 0) := by
  unfold buildPacket at h
  cases hs : readLong buffer base tablet.status with
  | error f => simp [hs, bind, Except.bind] at h
  | ok rawStatus =>
    cases hx : readLong buffer base tablet.x with
    | error f => simp [hs, hx, bind, Except.bind] at h
    | ok rawX =>
      cases hy : readLong buffer base tablet.y with
      | error f => simp [hs, hx, hy, bind, Except.bind] at h
      | ok rawY =>
        refine ⟨rawStatus, rawX, rawY, rfl, rfl, rfl, ?_⟩
        simp only [hs, hx, hy, bind, Except.bind, pure, Except.pure] at h
        by_cases hp : 0 ≤ tablet.pressure <;> by_cases htx : 0 ≤ tablet.tiltX <;>
          by_cases hty : 0 ≤ tablet.tiltY <;>
          simp only [hp, htx, hty, if_true, if_false] at h ⊢
        all_goals repeat' (split at h)
        all_goals cases h
        all_goals simp only [presenceFlags, hp, htx, hty, if_true, if_false]
        all_goals simp_all [Nat.lor_assoc]

theorem UINT64_RANGE_pos : 0 < UINT64_RANGE := by decide

/-- The loop of `sendPackets` numbers the packets it sends consecutively from
`seq`, builds the `i`-th of them from the sample `i * packetSize` further in the
buffer, and leaves `mSeqNumber` advanced by the number of packets sent. -/
theorem sendLoop_spec (ub : Double → Nat) (s : Sender) (tablet : Context) (packetSize : Nat)
    (buffer : List Int) (n : Nat) :
    ∀ (base seq : Nat), seq < UINT64_RANGE →
      (sendLoop ub s tablet packetSize buffer n base seq).2.1
          = (seq + (sendLoop ub s tablet packetSize buffer n base seq).1.length) % UINT64_RANGE
        ∧ (sendLoop ub s tablet packetSize buffer n base seq).1.length ≤ n
        ∧ ((sendLoop ub s tablet packetSize buffer n base seq).2.2 = none →
            (sendLoop ub s tablet packetSize buffer n base seq).1.length = n)
        ∧ ∀ (i : Nat) (p : Packet),
            (sendLoop ub s tablet packetSize buffer n base seq).1[i]? = some p →
              buildPacket ub s tablet buffer (base + i * packetSize) ((seq + i) % UINT64_RANGE)
                = Except.ok p := by
  induction n with
  | zero =>
    intro base seq hseq
    simp [sendLoop, Nat.mod_eq_of_lt hseq]
  | succ n ih =>
    intro base seq hseq
    rw [sendLoop]
    cases hb : buildPacket ub s tablet buffer base seq with
    | error f => simp [Nat.mod_eq_of_lt hseq]
    | ok p0 =>
      obtain ⟨h1, h2, h3, h4⟩ := ih (base + packetSize) ((seq + 1) % UINT64_RANGE)
        (Nat.mod_lt _ UINT64_RANGE_pos)
      simp only [List.length_cons]
      refine ⟨?_, by omega, fun hf => by rw [h3 hf], ?_⟩
      · rw [h1, Nat.mod_add_mod]
        congr 1
        omega
      · intro i p hi
        cases i with
        | zero =>
          simp only [List.getElem?_cons_zero, Option.some.injEq] at hi
          subst hi
          simpa [Nat.mod_eq_of_lt hseq] using hb
        | succ i =>
          simp only [List.getElem?_cons_succ] at hi
          have := h4 i p hi
          rw [Nat.mod_add_mod] at this
          have e1 : base + packetSize + i * packetSize = base + (i + 1) * packetSize := by ring
          have e2 : seq + 1 + i = seq + (i + 1) := by ring
          rw [e1, e2] at this
          exact this

/-- With a known tablet and at least one sample, `sendPackets` is its loop. -/
theorem sendPackets_known (ub : Double → Nat) (s : Sender) (tcid numPackets totalLength : Nat)
    (buffer : List Int) (tablet : Context) (hctx : s.mContexts tcid = some tablet)
    (hn : numPackets ≠ 0) :
    (sendPackets ub s tcid numPackets totalLength buffer).sent
        = (sendLoop ub s tablet (totalLength / numPackets) buffer numPackets 0 s.mSeqNumber).1
      ∧ (sendPackets ub s tcid numPackets totalLength buffer).st.mSeqNumber
        = (sendLoop ub s tablet (totalLength / numPackets) buffer numPackets 0 s.mSeqNumber).2.1
      ∧ (sendPackets ub s tcid numPackets totalLength buffer).fault
        = (sendLoop ub s tablet (totalLength / numPackets) buffer numPackets 0 s.mSeqNumber).2.2 := by
  unfold sendPackets
  rw [hctx]
  simp only [hn, if_false, and_self]

/-- With no sample, or with a tablet that is not known, `sendPackets` sends
nothing and leaves the sender as it was. -/
theorem sendPackets_nothing (ub : Double → Nat) (s : Sender) (tcid numPackets totalLength : Nat)
    (buffer : List Int) (h : s.mContexts tcid = none ∨ numPackets = 0) :
    (sendPackets ub s tcid numPackets totalLength buffer).sent = []
      ∧ (sendPackets ub s tcid numPackets totalLength buffer).st = s := by
  unfold sendPackets
  cases hc : s.mContexts tcid with
  | none => exact ⟨rfl, rfl⟩
  | some tablet =>
    rcases h with h | h
    · rw [hc] at h; cases h
    · simp only [h, if_true, and_self]

/-- Every packet that `sendPackets` sends is the packet built from its sample:
the `i`-th packet sent comes from position `i * (totalLength / numPackets)` of
the buffer and carries the sequence number `mSeqNumber + i`. -/
theorem sendPackets_sent (ub : Double → Nat) (s : Sender) (tcid numPackets totalLength : Nat)
    (buffer : List Int) (tablet : Context) (i : Nat) (p : Packet)
    (hctx : s.mContexts tcid = some tablet) (hseq : s.mSeqNumber < UINT64_RANGE)
    (hp : (sendPackets ub s tcid numPackets totalLength buffer).sent[i]? = some p) :
    buildPacket ub s tablet buffer (i * (totalLength / numPackets))
      ((s.mSeqNumber + i) % UINT64_RANGE) = Except.ok p := by
  by_cases hn : numPackets = 0
  · rw [(sendPackets_nothing ub s tcid numPackets totalLength buffer (Or.inr hn)).1] at hp
    simp at hp
  · rw [(sendPackets_known ub s tcid numPackets totalLength buffer tablet hctx hn).1] at hp
    have := (sendLoop_spec ub s tablet (totalLength / numPackets) buffer numPackets 0
      s.mSeqNumber hseq).2.2.2 i p hp
    simpa using this

/-- Every packet that the loop of `sendPackets` sends is built from the sample at
its position, whatever `mSeqNumber` is. -/
theorem sendLoop_built (ub : Double → Nat) (s : Sender) (tablet : Context) (packetSize : Nat)
    (buffer : List Int) (n : Nat) :
    ∀ (base seq i : Nat) (p : Packet),
      (sendLoop ub s tablet packetSize buffer n base seq).1[i]? = some p →
        ∃ sq, buildPacket ub s tablet buffer (base + i * packetSize) sq = Except.ok p := by
  induction n with
  | zero =>
    intro base seq i p h
    simp [sendLoop] at h
  | succ n ih =>
    intro base seq i p h
    rw [sendLoop] at h
    cases hb : buildPacket ub s tablet buffer base seq with
    | error f =>
      rw [hb] at h
      simp at h
    | ok p0 =>
      rw [hb] at h
      cases i with
      | zero =>
        simp only [List.getElem?_cons_zero, Option.some.injEq] at h
        subst h
        exact ⟨seq, by simpa using hb⟩
      | succ i =>
        simp only [List.getElem?_cons_succ] at h
        obtain ⟨sq, hsq⟩ := ih _ _ i p h
        have e1 : base + packetSize + i * packetSize = base + (i + 1) * packetSize := by ring
        rw [e1] at hsq
        exact ⟨sq, hsq⟩

/-- Every packet that `sendPackets` sends is built from its sample: the `i`-th
packet sent comes from position `i * (totalLength / numPackets)` of the buffer. -/
theorem sendPackets_built (ub : Double → Nat) (s : Sender) (tcid numPackets totalLength : Nat)
    (buffer : List Int) (tablet : Context) (i : Nat) (p : Packet)
    (hctx : s.mContexts tcid = some tablet)
    (hp : (sendPackets ub s tcid numPackets totalLength buffer).sent[i]? = some p) :
    ∃ sq, buildPacket ub s tablet buffer (i * (totalLength / numPackets)) sq = Except.ok p := by
  by_cases hn : numPackets = 0
  · rw [(sendPackets_nothing ub s tcid numPackets totalLength buffer (Or.inr hn)).1] at hp
    simp at hp
  · rw [(sendPackets_known ub s tcid numPackets totalLength buffer tablet hctx hn).1] at hp
    obtain ⟨sq, hsq⟩ := sendLoop_built ub s tablet (totalLength / numPackets) buffer numPackets 0
      s.mSeqNumber i p hp
    exact ⟨sq, by simpa using hsq⟩

/-- The bits of a status word made of the masked raw status and the presence
flags. -/
theorem status_bits (r : Nat) (c1 c2 c3 : Prop) [Decidable c1] [Decidable c2] [Decidable c3] :
    (((r &&& 0xB) ||| ((if c1 then 0x10 else 0) ||| (if c2 then 0x20 else 0)
        ||| (if c3 then 0x40 else 0))) &&& 0x10 ≠ 0 ↔ c1)
    ∧ (((r &&& 0xB) ||| ((if c1 then 0x10 else 0) ||| (if c2 then 0x20 else 0)
        ||| (if c3 then 0x40 else 0))) &&& 0x20 ≠ 0 ↔ c2)
    ∧ (((r &&& 0xB) ||| ((if c1 then 0x10 else 0) ||| (if c2 then 0x20 else 0)
        ||| (if c3 then 0x40 else 0))) &&& 0x40 ≠ 0 ↔ c3)
    ∧ ((r &&& 0xB) ||| ((if c1 then 0x10 else 0) ||| (if c2 then 0x20 else 0)
        ||| (if c3 then 0x40 else 0))) &&& 0xB = r &&& 0xB
    ∧ ((r &&& 0xB) ||| ((if c1 then 0x10 else 0) ||| (if c2 then 0x20 else 0)
        ||| (if c3 then 0x40 else 0))) &&& 0xFF84 = 0 := by
  have e : r &&& 0xB = (r % 16) &&& 0xB := by
    have h15 : (0xB : Nat) = 15 &&& 0xB := by decide
    have hm : r &&& 15 = r % 16 := Nat.and_pow_two_sub_one_eq_mod r 4
    conv_lhs => rw [h15, ← Nat.and_assoc, hm]
  have ha : r % 16 < 16 := Nat.mod_lt _ (by decide)
  rw [e]
  generalize r % 16 = a at ha
  by_cases h1 : c1 <;> by_cases h2 : c2 <;> by_cases h3 : c3 <;>
    simp only [h1, h2, h3, if_true, if_false] <;>
    interval_cases a <;> decide

/-- C8 (sender status word). For every known tablet context and every raw
sample, the status of the packet that `NetworkStylus::sendPackets` builds from
the sample is `(rawStatus AND 0x000B) OR (0x10 if the context has a pressure
offset) OR (0x20 if it has a tiltX offset) OR (0x40 if it has a tiltY offset)`,
where `rawStatus` is the value at the status offset of the sample. Hence each
presence bit is set exactly when the offset of its field is not negative, the
touching, eraser and button bits are those of the raw status, and no other bit
is ever set. -/
theorem sendPackets_status (ub : Double → Nat) (s : Sender)
    (tcid numPackets totalLength : Nat) (buffer : List Int) (tablet : Context) (i : Nat)
    (p : Packet) (hctx : s.mContexts tcid = some tablet)
    (hp : (sendPackets ub s tcid numPackets totalLength buffer).sent[i]? = some p) :
    ∃ rawStatus : Int,
      readLong buffer (i * (totalLength / numPackets)) tablet.status = Except.ok rawStatus
      ∧ p.status = (longBits rawStatus &&& 0x000B) ||| (if 0 ≤ tablet.pressure then 0x10 else 0)
          ||| (if 0 ≤ tablet.tiltX then 0x20 else 0) ||| (if 0 ≤ tablet.tiltY then 0x40 else 0)
      ∧ (p.status &&& PacketHasPressure ≠ 0 ↔ 0 ≤ tablet.pressure)
      ∧ (p.status &&& PacketHasTiltX ≠ 0 ↔ 0 ≤ tablet.tiltX)
      ∧ (p.status &&& PacketHasTiltY ≠ 0 ↔ 0 ≤ tablet.tiltY)
      ∧ p.status &&& 0x000B = longBits rawStatus &&& 0x000B
      ∧ p.status &&& 0xFF84 = 0 := by
  obtain ⟨sq, hsq⟩ := sendPackets_built ub s tcid numPackets totalLength buffer tablet i p hctx hp
  obtain ⟨rawStatus, rawX, rawY, hs, -, -, -, hst, -⟩ :=
    buildPacket_ok ub s tablet buffer _ sq p hsq
  have hb := status_bits (longBits rawStatus) (0 ≤ tablet.pressure) (0 ≤ tablet.tiltX)
    (0 ≤ tablet.tiltY)
  have e : p.status = (longBits rawStatus &&& 0xB) ||| ((if 0 ≤ tablet.pressure then 0x10 else 0)
      ||| (if 0 ≤ tablet.tiltX then 0x20 else 0) ||| (if 0 ≤ tablet.tiltY then 0x40 else 0)) := by
    rw [hst]
    rfl
  refine ⟨rawStatus, hs, ?_, ?_⟩
  · rw [e, Nat.lor_assoc, Nat.lor_assoc, Nat.lor_assoc]
  · rw [e]
    exact hb

/-- Witness of C8: a raw status with all 32 bits set, on a tablet with pressure
and without tilt, gives the status `0x1B`. -/
theorem sendPackets_status_witness :
    ∃ rawStatus : Int,
      readLong [1000, 500, -1, 2048] (0 * (4 / 1)) sampleContext.status = Except.ok rawStatus
      ∧ (0x1B : Nat) = (longBits rawStatus &&& 0x000B)
          ||| (if 0 ≤ sampleContext.pressure then 0x10 else 0)
          ||| (if 0 ≤ sampleContext.tiltX then 0x20 else 0)
          ||| (if 0 ≤ sampleContext.tiltY then 0x40 else 0)
      ∧ ((0x1B : Nat) &&& PacketHasPressure ≠ 0 ↔ 0 ≤ sampleContext.pressure)
      ∧ ((0x1B : Nat) &&& PacketHasTiltX ≠ 0 ↔ 0 ≤ sampleContext.tiltX)
      ∧ ((0x1B : Nat) &&& PacketHasTiltY ≠ 0 ↔ 0 ≤ sampleContext.tiltY)
      ∧ (0x1B : Nat) &&& 0x000B = longBits rawStatus &&& 0x000B
      ∧ (0x1B : Nat) &&& 0xFF84 = 0 :=
  sendPackets_status sampleUb sampleSender 7 1 4 [1000, 500, -1, 2048] sampleContext 0
    { samplePacket 0 with status := 0x1B } rfl (by decide)

/-- One call of `sendPackets` numbers its packets consecutively from `mSeqNumber`
and advances `mSeqNumber` by the number of packets it sends. -/
theorem sendPackets_seq (ub : Double → Nat) (s : Sender) (tcid numPackets totalLength : Nat)
    (buffer : List Int) (hseq : s.mSeqNumber < UINT64_RANGE) :
    (sendPackets ub s tcid numPackets totalLength buffer).st.mSeqNumber
        = (s.mSeqNumber + (sendPackets ub s tcid numPackets totalLength buffer).sent.length)
            % UINT64_RANGE
      ∧ ∀ (k : Nat) (p : Packet),
          (sendPackets ub s tcid numPackets totalLength buffer).sent[k]? = some p →
            p.seqNumber = (s.mSeqNumber + k) % UINT64_RANGE := by
  cases hc : s.mContexts tcid with
  | none =>
    obtain ⟨h1, h2⟩ := sendPackets_nothing ub s tcid numPackets totalLength buffer (Or.inl hc)
    rw [h1, h2]
    simp [Nat.mod_eq_of_lt hseq]
  | some tablet =>
    by_cases hn : numPackets = 0
    · obtain ⟨h1, h2⟩ := sendPackets_nothing ub s tcid numPackets totalLength buffer (Or.inr hn)
      rw [h1, h2]
      simp [Nat.mod_eq_of_lt hseq]
    · obtain ⟨h1, h2, -⟩ := sendPackets_known ub s tcid numPackets totalLength buffer tablet hc hn
      have hl := sendLoop_spec ub s tablet (totalLength / numPackets) buffer numPackets 0
        s.mSeqNumber hseq
      refine ⟨by rw [h2, h1]; exact hl.1, fun k p hk => ?_⟩
      obtain ⟨_, _, _, _, _, _, _, _, _, _, _, _, hsq, _⟩ := buildPacket_ok ub s tablet buffer _ _ p
        (sendPackets_sent ub s tcid numPackets totalLength buffer tablet k p hc hseq hk)
      exact hsq

/-- A sequence of calls numbers the packets it sends consecutively from the
`mSeqNumber` it starts with. -/
theorem sendAll_seq (ub : Double → Nat) (calls : List Call) :
    ∀ s : Sender, s.mSeqNumber < UINT64_RANGE →
      ∀ (k : Nat) (p : Packet), (sendAll ub s calls).sent[k]? = some p →
        p.seqNumber = (s.mSeqNumber + k) % UINT64_RANGE := by
  induction calls with
  | nil => intro s _ k p h; simp [sendAll] at h
  | cons c cs ih =>
    intro s hseq k p h
    have hc := sendPackets_seq ub (c.sender s) c.tcid c.numPackets c.totalLength c.buffer hseq
    rw [sendAll] at h
    simp only at h
    cases hf : (sendPackets ub (c.sender s) c.tcid c.numPackets c.totalLength c.buffer).fault with
    | some f =>
      rw [hf] at h
      exact hc.2 k p h
    | none =>
      rw [hf] at h
      simp only at h
      by_cases hk : k < (sendPackets ub (c.sender s) c.tcid c.numPackets c.totalLength
          c.buffer).sent.length
      · rw [List.getElem?_append_left hk] at h
        exact hc.2 k p h
      · rw [List.getElem?_append_right (by omega)] at h
        have := ih _ (by rw [hc.1]; exact Nat.mod_lt _ UINT64_RANGE_pos) _ p h
        rw [this, hc.1, Nat.mod_add_mod]
        congr 1
        show s.mSeqNumber + _ + _ = _
        omega

/-- C9 (sender sequence numbers). For every sequence of `sendPackets` calls on a
freshly constructed sender, the `k`-th packet transmitted overall (from 0)
carries `seqNumber = k` modulo `2 ^ 64`; so the sequence numbers of the packets
at positions below `2 ^ 64` are strictly increasing, hence pairwise distinct.
Every call advances `mSeqNumber` by exactly the number of packets it transmits,
which is `numPackets` for a call that completes on a known context; and a call
whose tablet context is unknown transmits nothing, completes, and leaves the
sender, so also `mSeqNumber`, as it was. -/
theorem sendAll_seqNumbers (ub : Double → Nat) (calls : List Call) :
    (∀ (k : Nat) (p : Packet), (sendAll ub Sender.init calls).sent[k]? = some p →
        p.seqNumber = k % UINT64_RANGE)
      ∧ (∀ (i j : Nat) (p q : Packet), i < j → j < UINT64_RANGE →
          (sendAll ub Sender.init calls).sent[i]? = some p →
          (sendAll ub Sender.init calls).sent[j]? = some q → p.seqNumber < q.seqNumber)
      ∧ (∀ (s : Sender) (tcid numPackets totalLength : Nat) (buffer : List Int),
          s.mSeqNumber < UINT64_RANGE →
            (sendPackets ub s tcid numPackets totalLength buffer).st.mSeqNumber
              = (s.mSeqNumber
                  + (sendPackets ub s tcid numPackets totalLength buffer).sent.length)
                % UINT64_RANGE
            ∧ (s.mContexts tcid ≠ none →
                (sendPackets ub s tcid numPackets totalLength buffer).fault = none →
                (sendPackets ub s tcid numPackets totalLength buffer).sent.length = numPackets)
            ∧ (s.mContexts tcid = none →
                (sendPackets ub s tcid numPackets totalLength buffer).sent = []
                ∧ (sendPackets ub s tcid numPackets totalLength buffer).fault = none
                ∧ (sendPackets ub s tcid numPackets totalLength buffer).st = s)) := by
  have h0 : Sender.init.mSeqNumber < UINT64_RANGE := by decide
  have key : ∀ (k : Nat) (p : Packet), (sendAll ub Sender.init calls).sent[k]? = some p →
      p.seqNumber = k % UINT64_RANGE := by
    intro k p h
    have := sendAll_seq ub calls Sender.init h0 k p h
    rw [this]
    congr 1
    show 0 + k = k
    omega
  refine ⟨key, fun i j p q hij hj hp hq => ?_, fun s tcid numPackets totalLength buffer hseq => ?_⟩
  · rw [key i p hp, key j q hq, Nat.mod_eq_of_lt hj, Nat.mod_eq_of_lt (by omega)]
    exact hij
  · refine ⟨(sendPackets_seq ub s tcid numPackets totalLength buffer hseq).1, ?_, ?_⟩
    · intro hc hf
      cases hct : s.mContexts tcid with
      | none => exact absurd hct hc
      | some tablet =>
        by_cases hn : numPackets = 0
        · unfold sendPackets at hf
          rw [hct] at hf
          simp [hn] at hf
        · obtain ⟨h1, -, h3⟩ :=
            sendPackets_known ub s tcid numPackets totalLength buffer tablet hct hn
          rw [h1]
          rw [h3] at hf
          by_cases hs : s.mSeqNumber < UINT64_RANGE
          · exact (sendLoop_spec ub s tablet (totalLength / numPackets) buffer numPackets 0
              s.mSeqNumber hs).2.2.1 hf
          · exact absurd hseq hs
    · intro hc
      unfold sendPackets
      rw [hc]
      exact ⟨rfl, rfl, rfl⟩

/-- Witness of C9: a drop on an unknown tablet, then two calls on the sample
tablet with two samples and one sample; the three packets sent are numbered
0, 1 and 2. -/
theorem sendAll_seqNumbers_witness :
    ((sendAll sampleUb Sender.init
        [⟨10000, 5000, Double.finite 1 0, Double.finite 1 0, sampleSender.mContexts, 9, 1, 4,
            [1, 2, 3, 4]⟩,
         ⟨10000, 5000, Double.finite 1 0, Double.finite 1 0, sampleSender.mContexts, 7, 2, 8,
            [1000, 500, 1, 2048, 1001, 501, 1, 2049]⟩,
         ⟨10000, 5000, Double.finite 1 0, Double.finite 1 0, sampleSender.mContexts, 7, 1, 4,
            [1002, 502, 0, 0]⟩]).sent.map Packet.seqNumber) = [0, 1, 2]
      ∧ (∀ (k : Nat) (p : Packet),
          (sendAll sampleUb Sender.init
            [⟨10000, 5000, Double.finite 1 0, Double.finite 1 0, sampleSender.mContexts, 7, 2, 8,
              [1000, 500, 1, 2048, 1001, 501, 1, 2049]⟩]).sent[k]? = some p →
            p.seqNumber = k % UINT64_RANGE) :=
  ⟨by decide, (sendAll_seqNumbers sampleUb
    [⟨10000, 5000, Double.finite 1 0, Double.finite 1 0, sampleSender.mContexts, 7, 2, 8,
      [1000, 500, 1, 2048, 1001, 501, 1, 2049]⟩]).1⟩

/-- The conversion to `uint32_t` of a `double` whose truncation fits 32 bits is
that truncation. -/
theorem castUInt32_of_truncate (ub : Double → Nat) (d : Double) (t : Int)
    (h : d.truncate = some t) (h0 : 0 ≤ t) (h1 : t < 2 ^ 32) :
    ((castUInt32 ub d : Nat) : Int) = t := by
  unfold castUInt32
  rw [h]
  simp only [h0, h1, and_self, if_true]
  exact Int.toNat_of_nonneg h0

/-- The bit pattern of a `LONG` that is not negative is its value. -/
theorem longBits_of_nonneg (v : Int) (h0 : 0 ≤ v) (h1 : v < 2 ^ 32) :
    ((longBits v : Nat) : Int) = v := by
  unfold longBits ofInt32
  rw [Int.toNat_of_nonneg (Int.emod_nonneg _ (by decide)), Int.emod_eq_of_lt h0 h1]

/-- Counterexample to C10 as stated. On the sample tablet (pressure offset 3) a
sample with raw pressure `-1` gives a packet whose pressure is `4294967295`, not
the raw pressure value; and with scale `0.25` the non-negative raw x
`2147483647` has the quotient `8589934588`, which no `uint32_t` field can hold
(on the sample platform the packet carries `x = 0`). -/
theorem sendPackets_fields_counterexample :
    sampleSender.mContexts 7 = some sampleContext
      ∧ 0 ≤ sampleContext.pressure
      ∧ readLong [1000, 500, 1, -1] 0 sampleContext.pressure = Except.ok (-1)
      ∧ (sendPackets sampleUb sampleSender 7 1 4 [1000, 500, 1, -1]).sent.map Packet.pressure
          = [4294967295]
      ∧ readLong [2147483647, 500, 1, 2048] 0 sampleContext.x = Except.ok 2147483647
      ∧ ((Double.ofLong 2147483647).div (Double.finite 1 (-2))).truncate = some 8589934588
      ∧ (sendPackets sampleUb { sampleSender with mScaleX := Double.finite 1 (-2) } 7 1 4
          [2147483647, 500, 1, 2048]).sent.map Packet.x = [0] := by
  refine ⟨rfl, by decide, rfl, by decide, rfl, by decide, by decide⟩

/-- C10, amended. For every known context with a pressure offset and every
sample from which `sendPackets` builds a packet: `x` is the truncation of the
`double` quotient `rawX / mScaleX` whenever that truncation is in the range of
`uint32_t` (from 0 to `2 ^ 32 - 1`), and likewise `y`; `maxX` and `maxY` are the
sender's current extents; `pressure` is the raw pressure value reduced modulo
`2 ^ 32`, so the raw value itself when that is not negative (and a `LONG`, below
`2 ^ 31`); and `maxPressure` is the logical maximum pressure of the context. -/
theorem sendPackets_fields (ub : Double → Nat) (s : Sender)
    (tcid numPackets totalLength : Nat) (buffer : List Int) (tablet : Context) (i : Nat)
    (p : Packet) (hctx : s.mContexts tcid = some tablet) (hpress : 0 ≤ tablet.pressure)
    (hp : (sendPackets ub s tcid numPackets totalLength buffer).sent[i]? = some p) :
    ∃ rawX rawY rawPressure : Int,
      readLong buffer (i * (totalLength / numPackets)) tablet.x = Except.ok rawX
      ∧ readLong buffer (i * (totalLength / numPackets)) tablet.y = Except.ok rawY
      ∧ readLong buffer (i * (totalLength / numPackets)) tablet.pressure = Except.ok rawPressure
      ∧ (∀ t : Int, ((Double.ofLong rawX).div s.mScaleX).truncate = some t →
          0 ≤ t → t < 2 ^ 32 → (p.x : Int) = t)
      ∧ (∀ t : Int, ((Double.ofLong rawY).div s.mScaleY).truncate = some t →
          0 ≤ t → t < 2 ^ 32 → (p.y : Int) = t)
      ∧ p.maxX = s.mMaxX ∧ p.maxY = s.mMaxY
      ∧ (p.pressure : Int) = rawPressure % 2 ^ 32
      ∧ (0 ≤ rawPressure → rawPressure < 2 ^ 31 → (p.pressure : Int) = rawPressure)
      ∧ p.maxPressure = tablet.maxPressure := by
  obtain ⟨sq, hsq⟩ := sendPackets_built ub s tcid numPackets totalLength buffer tablet i p hctx hp
  obtain ⟨rawStatus, rawX, rawY, -, hx, hy, -, -, hpx, hpy, hmx, hmy, -, hpr, -⟩ :=
    buildPacket_ok ub s tablet buffer _ sq p hsq
  rw [if_pos hpress] at hpr
  obtain ⟨v, hv, hpv, hmp⟩ := hpr
  have hmod : ((longBits v : Nat) : Int) = v % 2 ^ 32 := by
    unfold longBits ofInt32
    exact Int.toNat_of_nonneg (Int.emod_nonneg _ (by decide))
  refine ⟨rawX, rawY, v, hx, hy, hv, ?_, ?_, hmx, hmy, ?_, ?_, hmp⟩
  · intro t ht h0 h1
    rw [hpx]
    exact castUInt32_of_truncate ub _ t ht h0 h1
  · intro t ht h0 h1
    rw [hpy]
    exact castUInt32_of_truncate ub _ t ht h0 h1
  · rw [hpv]
    exact hmod
  · intro h0 h1
    rw [hpv]
    exact longBits_of_nonneg v h0 (by omega)

/-- Witness of C10, amended: the sender of the sample (window 100 mm by 50 mm,
scale 1.0, tablet with maximum pressure 4096 and no tilt) sends for the raw
sample `x = 1000, y = 500, status = touching, pressure = 2048` exactly the sample
packet: `x = 1000, y = 500, maxX = 10000, maxY = 5000, pressure = 2048,
maxPressure = 4096` and status `0x11`. -/
theorem sendPackets_fields_witness :
    (sendPackets sampleUb sampleSender 7 1 4 [1000, 500, 1, 2048]).sent = [samplePacket 0]
      ∧ ∃ rawX rawY rawPressure : Int,
        readLong [1000, 500, 1, 2048] (0 * (4 / 1)) sampleContext.x = Except.ok rawX
        ∧ readLong [1000, 500, 1, 2048] (0 * (4 / 1)) sampleContext.y = Except.ok rawY
        ∧ readLong [1000, 500, 1, 2048] (0 * (4 / 1)) sampleContext.pressure
            = Except.ok rawPressure
        ∧ (∀ t : Int, ((Double.ofLong rawX).div sampleSender.mScaleX).truncate = some t →
            0 ≤ t → t < 2 ^ 32 → ((samplePacket 0).x : Int) = t)
        ∧ (∀ t : Int, ((Double.ofLong rawY).div sampleSender.mScaleY).truncate = some t →
            0 ≤ t → t < 2 ^ 32 → ((samplePacket 0).y : Int) = t)
        ∧ (samplePacket 0).maxX = sampleSender.mMaxX ∧ (samplePacket 0).maxY = sampleSender.mMaxY
        ∧ ((samplePacket 0).pressure : Int) = rawPressure % 2 ^ 32
        ∧ (0 ≤ rawPressure → rawPressure < 2 ^ 31 →
            ((samplePacket 0).pressure : Int) = rawPressure)
        ∧ (samplePacket 0).maxPressure = sampleContext.maxPressure :=
  ⟨by decide, sendPackets_fields sampleUb sampleSender 7 1 4 [1000, 500, 1, 2048] sampleContext
    0 (samplePacket 0) rfl (by decide) (by decide)⟩

/-! ## Properties of the two ends together -/

theorem length_leBytes (w : Nat) : ∀ v : Nat, (leBytes w v).length = w := by
  induction w with
  | zero => intro v; rfl
  | succ w ih => intro v; simp [leBytes, ih]

theorem leNat_leBytes (w : Nat) : ∀ v : Nat, leNat (leBytes w v) = v % 256 ^ w := by
  induction w with
  | zero => intro v; simp [leBytes, leNat, Nat.mod_one]
  | succ w ih =>
    intro v
    rw [leBytes, leNat, ih, pow_succ, Nat.mul_comm (256 ^ w) 256, Nat.mod_mul]

theorem fieldAt_skip (a rest : List Byte) (off w : Nat) (h : a.length ≤ off) :
    fieldAt (a ++ rest) off w = fieldAt rest (off - a.length) w := by
  unfold fieldAt
  rw [List.drop_append_eq_append_drop, List.drop_eq_nil_of_le h, List.nil_append]

theorem fieldAt_head (a rest : List Byte) (w : Nat) (h : a.length = w) :
    fieldAt (a ++ rest) 0 w = leNat a := by
  unfold fieldAt
  rw [List.drop_zero, List.take_left' h]

theorem toInt32_ofInt32 (i : Int) (h0 : -2 ^ 31 ≤ i) (h1 : i < 2 ^ 31) :
    toInt32 (ofInt32 i) = i := by
  unfold toInt32 ofInt32
  have hnn : (0 : Int) ≤ i % 2 ^ 32 := Int.emod_nonneg _ (by decide)
  have hlt : i % 2 ^ 32 < 2 ^ 32 := Int.emod_lt_of_pos _ (by decide)
  have hcast : (((i % 2 ^ 32).toNat : Nat) : Int) = i % 2 ^ 32 := Int.toNat_of_nonneg hnn
  have hmod : (i % 2 ^ 32).toNat % 2 ^ 32 = (i % 2 ^ 32).toNat := by
    apply Nat.mod_eq_of_lt
    omega
  rw [hmod]
  split
  · rw [hcast]; omega
  · rw [hcast]; omega

theorem length_toBytes (p : Packet) : p.toBytes.length = PACKET_SIZE := by
  unfold Packet.toBytes PACKET_SIZE
  simp only [List.length_append, List.length_take, List.length_replicate, length_leBytes]
  omega

theorem ofBytes_toBytes (p : Packet) (h : p.InRange) : Packet.ofBytes p.toBytes = p := by
  obtain ⟨hm, hst, hpr, hsq, hmp0, hmp1, hx, hmx, hy, hmy, htx, hty⟩ := h
  have hmagic : (p.magic ++ List.replicate 10 0).take 10 = p.magic := List.take_left' hm
  have e : p.toBytes = p.magic ++ (leBytes 2 p.status ++ (leBytes 4 p.pressure
      ++ (leBytes 8 p.seqNumber ++ (leBytes 4 (ofInt32 p.maxPressure) ++ (leBytes 4 p.x
      ++ (leBytes 4 p.maxX ++ (leBytes 4 p.y ++ (leBytes 4 p.maxY ++ (leBytes 4 p.tiltX
      ++ (leBytes 4 p.tiltY ++ List.replicate 4 0)))))))))) := by
    unfold Packet.toBytes
    rw [hmagic]
    simp only [List.append_assoc]
  have key : ∀ (v : Nat) (w : Nat) (rest : List Byte), v < 256 ^ w →
      fieldAt (leBytes w v ++ rest) 0 w = v := by
    intro v w rest hv
    rw [fieldAt_head _ _ _ (length_leBytes w v), leNat_leBytes, Nat.mod_eq_of_lt hv]
  obtain ⟨magic, status, pressure, seqNumber, maxPressure, x, maxX, y, maxY, tiltX, tiltY⟩ := p
  simp only at hm hst hpr hsq hmp0 hmp1 hx hmx hy hmy htx hty e
  unfold Packet.ofBytes
  rw [e]
  simp only [Packet.mk.injEq]
  have skipM : ∀ (rest : List Byte) (off w : Nat), 10 ≤ off →
      fieldAt (magic ++ rest) off w = fieldAt rest (off - 10) w := by
    intro rest off w h
    rw [fieldAt_skip _ _ _ _ (by omega), hm]
  have skipL : ∀ (w v : Nat) (rest : List Byte) (off w2 : Nat), w ≤ off →
      fieldAt (leBytes w v ++ rest) off w2 = fieldAt rest (off - w) w2 := by
    intro w v rest off w2 h
    rw [fieldAt_skip _ _ _ _ (by rw [length_leBytes]; exact h), length_leBytes]
  have h16 : (256 : Nat) ^ 2 = 2 ^ 16 := by norm_num
  have h32 : (256 : Nat) ^ 4 = 2 ^ 32 := by norm_num
  have h64 : (256 : Nat) ^ 8 = 2 ^ 64 := by norm_num
  have hmpb : ofInt32 maxPressure < 256 ^ 4 := by
    rw [h32]
    unfold ofInt32
    have := Int.emod_lt_of_pos maxPressure (by decide : (0 : Int) < 2 ^ 32)
    have := Int.emod_nonneg maxPressure (by decide : (2 : Int) ^ 32 ≠ 0)
    omega
  refine ⟨List.take_left' hm, ?_, ?_, ?_, ?_, ?_, ?_, ?_, ?_, ?_, ?_⟩
  · rw [skipM _ _ _ (by decide)]
    exact key _ _ _ (by rw [h16]; exact hst)
  · rw [skipM _ _ _ (by decide), skipL _ _ _ _ _ (by decide)]
    exact key _ _ _ (by rw [h32]; exact hpr)
  · rw [skipM _ _ _ (by decide), skipL _ _ _ _ _ (by decide), skipL _ _ _ _ _ (by decide)]
    exact key _ _ _ (by rw [h64]; exact hsq)
  · rw [skipM _ _ _ (by decide), skipL _ _ _ _ _ (by decide), skipL _ _ _ _ _ (by decide),
      skipL _ _ _ _ _ (by decide)]
    have := key (ofInt32 maxPressure) 4 (leBytes 4 x ++ (leBytes 4 maxX ++ (leBytes 4 y
      ++ (leBytes 4 maxY ++ (leBytes 4 tiltX ++ (leBytes 4 tiltY ++ List.replicate 4 0))))))
      hmpb
    rw [this]
    exact toInt32_ofInt32 _ hmp0 hmp1
  · rw [skipM _ _ _ (by decide), skipL _ _ _ _ _ (by decide), skipL _ _ _ _ _ (by decide),
      skipL _ _ _ _ _ (by decide), skipL _ _ _ _ _ (by decide)]
    exact key _ _ _ (by rw [h32]; exact hx)
  · rw [skipM _ _ _ (by decide), skipL _ _ _ _ _ (by decide), skipL _ _ _ _ _ (by decide),
      skipL _ _ _ _ _ (by decide), skipL _ _ _ _ _ (by decide), skipL _ _ _ _ _ (by decide)]
    exact key _ _ _ (by rw [h32]; exact hmx)
  · rw [skipM _ _ _ (by decide), skipL _ _ _ _ _ (by decide), skipL _ _ _ _ _ (by decide),
      skipL _ _ _ _ _ (by decide), skipL _ _ _ _ _ (by decide), skipL _ _ _ _ _ (by decide),
      skipL _ _ _ _ _ (by decide)]
    exact key _ _ _ (by rw [h32]; exact hy)
  · rw [skipM _ _ _ (by decide), skipL _ _ _ _ _ (by decide), skipL _ _ _ _ _ (by decide),
      skipL _ _ _ _ _ (by decide), skipL _ _ _ _ _ (by decide), skipL _ _ _ _ _ (by decide),
      skipL _ _ _ _ _ (by decide), skipL _ _ _ _ _ (by decide)]
    exact key _ _ _ (by rw [h32]; exact hmy)
  · rw [skipM _ _ _ (by decide), skipL _ _ _ _ _ (by decide), skipL _ _ _ _ _ (by decide),
      skipL _ _ _ _ _ (by decide), skipL _ _ _ _ _ (by decide), skipL _ _ _ _ _ (by decide),
      skipL _ _ _ _ _ (by decide), skipL _ _ _ _ _ (by decide), skipL _ _ _ _ _ (by decide)]
    exact key _ _ _ (by rw [h32]; exact htx)
  · rw [skipM _ _ _ (by decide), skipL _ _ _ _ _ (by decide), skipL _ _ _ _ _ (by decide),
      skipL _ _ _ _ _ (by decide), skipL _ _ _ _ _ (by decide), skipL _ _ _ _ _ (by decide),
      skipL _ _ _ _ _ (by decide), skipL _ _ _ _ _ (by decide), skipL _ _ _ _ _ (by decide),
      skipL _ _ _ _ _ (by decide)]
    exact key _ _ _ (by rw [h32]; exact hty)

theorem castUInt32_lt (ub : Double → Nat) (d : Double) : castUInt32 ub d < 2 ^ 32 := by
  unfold castUInt32
  split
  · split
    · rename_i t h
      have := Int.toNat_of_nonneg h.1
      omega
    · exact Nat.mod_lt _ (by decide)
  · exact Nat.mod_lt _ (by decide)

theorem longBits_lt (v : Int) : longBits v < 2 ^ 32 := by
  unfold longBits ofInt32
  have := Int.emod_lt_of_pos v (by decide : (0 : Int) < 2 ^ 32)
  have := Int.emod_nonneg v (by decide : (2 : Int) ^ 32 ≠ 0)
  omega

/-- A packet built by `sendPackets` holds values of the C types of its fields,
when the members of the sender and of the context do. -/
theorem buildPacket_inRange (ub : Double → Nat) (s : Sender) (tablet : Context)
    (buffer : List Int) (base seq : Nat) (p : Packet)
    (h : buildPacket ub s tablet buffer base seq = Except.ok p)
    (hseq : seq < 2 ^ 64) (hmx : s.mMaxX < 2 ^ 32) (hmy : s.mMaxY < 2 ^ 32)
    (hmp0 : -2 ^ 31 ≤ tablet.maxPressure) (hmp1 : tablet.maxPressure < 2 ^ 31) :
    p.InRange := by
  obtain ⟨rawStatus, rawX, rawY, -, -, -, hmagic, hst, hx, hy, hmaxX, hmaxY, hsq, hpr, htx, hty⟩ :=
    buildPacket_ok ub s tablet buffer base seq p h
  have hb := (status_bits (longBits rawStatus) (0 ≤ tablet.pressure) (0 ≤ tablet.tiltX)
    (0 ≤ tablet.tiltY)).2.2.2.2
  have hstatus : p.status < 2 ^ 16 := by
    have e : p.status = (longBits rawStatus &&& 0xB) ||| ((if 0 ≤ tablet.pressure then 0x10 else 0)
        ||| (if 0 ≤ tablet.tiltX then 0x20 else 0) ||| (if 0 ≤ tablet.tiltY then 0x40 else 0)) := by
      rw [hst]; rfl
    rw [e]
    apply Nat.or_lt_two_pow
    · exact lt_of_le_of_lt Nat.and_le_right (by decide)
    · split <;> split <;> split <;> decide
  refine ⟨by rw [hmagic]; rfl, hstatus, ?_, by rw [hsq]; exact hseq, ?_, ?_,
    by rw [hx]; exact castUInt32_lt _ _, by rw [hmaxX]; exact hmx,
    by rw [hy]; exact castUInt32_lt _ _, by rw [hmaxY]; exact hmy, ?_, ?_⟩
  · split at hpr
    · obtain ⟨v, -, hv, -⟩ := hpr
      rw [hv]; exact longBits_lt v
    · rw [hpr.1]; decide
  · split at hpr
    · obtain ⟨v, -, -, hv⟩ := hpr
      rw [hv]; exact hmp0
    · rw [hpr.2]; decide
  · split at hpr
    · obtain ⟨v, -, -, hv⟩ := hpr
      rw [hv]; exact hmp1
    · rw [hpr.2]; decide
  · split at htx
    · obtain ⟨v, -, hv⟩ := htx
      rw [hv]; exact longBits_lt v
    · rw [htx]; decide
  · split at hty
    · obtain ⟨v, -, hv⟩ := hty
      rw [hv]; exact longBits_lt v
    · rw [hty]; decide

/-- C11 (round trip sender to receiver). For every datagram `p.toBytes` that
`sendPackets` produces from a known context (a packet is only built when the X,
Y and Status offsets could be read), with the members of the sender and of the
context holding values of their C types, delivered unmodified to a receiver of
the same byte order whose `mLastSeq` is smaller than the `seqNumber` of the
packet: the bytes decode to the packet the sender built, `Server::readOne`
passes the magic check, accepts the datagram, and returns exactly that packet,
so the same status, x, y, maxX, maxY and seqNumber, and the same pressure,
maxPressure, tiltX and tiltY, whether or not their presence bits are set. -/
theorem sendPackets_readOne_round_trip (ub : Double → Nat) (s : Sender)
    (tcid numPackets totalLength : Nat) (buffer : List Int) (tablet : Context) (i : Nat)
    (p : Packet) (r : Server) (sig : Bool) (rest : List Tick)
    (hctx : s.mContexts tcid = some tablet) (hseq : s.mSeqNumber < UINT64_RANGE)
    (hmx : s.mMaxX < 2 ^ 32) (hmy : s.mMaxY < 2 ^ 32)
    (hmp0 : -2 ^ 31 ≤ tablet.maxPressure) (hmp1 : tablet.maxPressure < 2 ^ 31)
    (hp : (sendPackets ub s tcid numPackets totalLength buffer).sent[i]? = some p)
    (hlast : r.mLastSeq < p.seqNumber) :
    Packet.ofBytes p.toBytes = p
      ∧ strncmp (Packet.ofBytes (received r.pbuf p.toBytes)).magic PACKET_MAGIC 10 = 0
      ∧ readOne r (⟨ReadResult.datagram p.toBytes, sig⟩ :: rest) =
          (Outcome.returned p,
            { r with canRun := r.canRun && !sig, pbuf := received r.pbuf p.toBytes,
                     mLastSeq := p.seqNumber }, rest) := by
  have hb := sendPackets_sent ub s tcid numPackets totalLength buffer tablet i p hctx hseq hp
  have hr : p.InRange := buildPacket_inRange ub s tablet buffer _ _ p hb
    (Nat.mod_lt _ UINT64_RANGE_pos) hmx hmy hmp0 hmp1
  have hrt := ofBytes_toBytes p hr
  have hmagic : (Packet.ofBytes p.toBytes).magic = PACKET_MAGIC := by
    rw [hrt]
    exact (buildPacket_ok ub s tablet buffer _ _ p hb).choose_spec.choose_spec.choose_spec.2.2.2.1
  have hlen : PACKET_SIZE ≤ p.toBytes.length := le_of_eq (length_toBytes p).symm
  have hlen24 : 24 ≤ p.toBytes.length := by rw [length_toBytes]; decide
  have hrecv := ofBytes_received r.pbuf p.toBytes hlen hmagic
  have hm9 := magic_received r.pbuf p.toBytes (by omega) hmagic
  refine ⟨hrt, (magic_check_iff r.pbuf p.toBytes).mpr hm9, ?_⟩
  rw [readOne_takes r p.toBytes sig rest (by omega) hm9
    (by rw [hrecv, hrt]; omega), hrecv, hrt]

/-- Witness of C11: the second of two samples sent by the sample sender, numbered
1, is returned unchanged by a freshly constructed receiver. -/
theorem sendPackets_readOne_round_trip_witness :
    Packet.ofBytes (samplePacket 1).toBytes = samplePacket 1
      ∧ strncmp (Packet.ofBytes (received (sampleServer 0).pbuf (samplePacket 1).toBytes)).magic
          PACKET_MAGIC 10 = 0
      ∧ readOne (sampleServer 0) (⟨ReadResult.datagram (samplePacket 1).toBytes, false⟩ :: []) =
          (Outcome.returned (samplePacket 1),
            { sampleServer 0 with
              canRun := (sampleServer 0).canRun && !false
              pbuf := received (sampleServer 0).pbuf (samplePacket 1).toBytes
              mLastSeq := (samplePacket 1).seqNumber }, []) :=
  sendPackets_readOne_round_trip sampleUb sampleSender 7 2 8
    [1000, 500, 1, 2048, 1000, 500, 1, 2048] sampleContext 1 (samplePacket 1) (sampleServer 0)
    false [] rfl (by decide) (by decide) (by decide) (by decide) (by decide) (by decide)
    (by decide)

/-! ## Properties of the tablet property resolver -/

theorem lastPosition_ge (k : PropertyKind) (props : List PacketProperty) :
    -1 ≤ lastPosition k props := by
  induction props with
  | nil => simp [lastPosition]
  | cons pr rest ih =>
    rw [lastPosition]
    split_ifs <;> omega

theorem resolveFrom_spec (props : List PacketProperty) :
    ∀ (ctx : Context) (j : Int),
      resolveFrom ctx j props =
        { x := if 0 ≤ lastPosition PropertyKind.X props
            then j + lastPosition PropertyKind.X props else ctx.x
          y := if 0 ≤ lastPosition PropertyKind.Y props
            then j + lastPosition PropertyKind.Y props else ctx.y
          pressure := if 0 ≤ lastPosition PropertyKind.NORMAL_PRESSURE props
            then j + lastPosition PropertyKind.NORMAL_PRESSURE props else ctx.pressure
          maxPressure := (lastLogicalMax props).getD ctx.maxPressure
          tiltX := if 0 ≤ lastPosition PropertyKind.X_TILT_ORIENTATION props
            then j + lastPosition PropertyKind.X_TILT_ORIENTATION props else ctx.tiltX
          tiltY := if 0 ≤ lastPosition PropertyKind.Y_TILT_ORIENTATION props
            then j + lastPosition PropertyKind.Y_TILT_ORIENTATION props else ctx.tiltY
          status := if 0 ≤ lastPosition PropertyKind.PACKET_STATUS props
            then j + lastPosition PropertyKind.PACKET_STATUS props else ctx.status } := by
  induction props with
  | nil => intro ctx j; simp [resolveFrom, lastPosition, lastLogicalMax]
  | cons pr rest ih =>
    intro ctx j
    rw [resolveFrom, ih]
    obtain ⟨g, m⟩ := pr
    have hX := lastPosition_ge PropertyKind.X rest
    have hY := lastPosition_ge PropertyKind.Y rest
    have hP := lastPosition_ge PropertyKind.NORMAL_PRESSURE rest
    have hTX := lastPosition_ge PropertyKind.X_TILT_ORIENTATION rest
    have hTY := lastPosition_ge PropertyKind.Y_TILT_ORIENTATION rest
    have hS := lastPosition_ge PropertyKind.PACKET_STATUS rest
    cases hl : lastLogicalMax rest <;> cases g <;>
      simp only [Context.setProperty, lastPosition, lastLogicalMax, hl, Context.mk.injEq,
        Option.getD_some, Option.getD_none, reduceCtorEq, if_false, if_true, and_true,
        true_and] <;>
      (refine ⟨?_, ?_, ?_, ?_, ?_, ?_⟩ <;> split_ifs <;> omega)

theorem resolve_eq_spec (props : List PacketProperty) : resolve props = resolvedBySpec props := by
  unfold resolve resolvedBySpec
  rw [resolveFrom_spec]
  have hX := lastPosition_ge PropertyKind.X props
  have hY := lastPosition_ge PropertyKind.Y props
  have hP := lastPosition_ge PropertyKind.NORMAL_PRESSURE props
  have hTX := lastPosition_ge PropertyKind.X_TILT_ORIENTATION props
  have hTY := lastPosition_ge PropertyKind.Y_TILT_ORIENTATION props
  have hS := lastPosition_ge PropertyKind.PACKET_STATUS props
  simp only [Context.mk.injEq, true_and]
  refine ⟨?_, ?_, ?_, ?_, ?_, ?_⟩ <;> split_ifs <;> omega

/-- The function `lastPosition` yields `-1` exactly for a kind that does not
occur, and otherwise a position that holds the kind and after which the kind
does not occur again. -/
theorem lastPosition_spec (k : PropertyKind) (props : List PacketProperty) :
    (lastPosition k props = -1 ↔ ∀ pr ∈ props, pr.guid ≠ k)
      ∧ (0 ≤ lastPosition k props →
          ∃ n : Nat, lastPosition k props = n
            ∧ (∃ pr, props[n]? = some pr ∧ pr.guid = k)
            ∧ ∀ (m : Nat) (pr : PacketProperty), n < m → props[m]? = some pr → pr.guid ≠ k) := by
  induction props with
  | nil => simp [lastPosition]
  | cons pr rest ih =>
    obtain ⟨ih1, ih2⟩ := ih
    have hge := lastPosition_ge k rest
    rw [lastPosition]
    by_cases h0 : 0 ≤ lastPosition k rest
    · obtain ⟨n, hn, ⟨q, hq, hqk⟩, hafter⟩ := ih2 h0
      simp only [h0, if_true]
      constructor
      · constructor
        · intro h; omega
        · intro h
          exact absurd hqk (h q (List.mem_cons_of_mem _ ((List.mem_iff_getElem?.mpr ⟨_, hq⟩))))
      · intro _
        refine ⟨n + 1, by rw [hn]; push_cast; ring, ⟨q, by simpa using hq, hqk⟩, ?_⟩
        intro m pr2 hm hpr2
        obtain ⟨m2, rfl⟩ : ∃ m2, m = m2 + 1 := ⟨m - 1, by omega⟩
        exact hafter m2 pr2 (by omega) (by simpa using hpr2)
    · have hneg : lastPosition k rest = -1 := by omega
      have hnone := ih1.mp hneg
      simp only [h0, if_false]
      by_cases hk : pr.guid = k
      · simp only [hk, if_true]
        constructor
        · constructor
          · intro h; omega
          · intro h; exact absurd hk (h pr (List.mem_cons_self _ _))
        · intro _
          refine ⟨0, rfl, ⟨pr, List.getElem?_cons_zero, hk⟩, ?_⟩
          intro m pr2 hm hpr2
          obtain ⟨m2, rfl⟩ : ∃ m2, m = m2 + 1 := ⟨m - 1, by omega⟩
          exact hnone pr2 ((List.mem_iff_getElem?.mpr ⟨m2, by simpa using hpr2⟩))
      · simp only [hk, if_false]
        constructor
        · constructor
          · intro _ q hq
            rcases List.mem_cons.mp hq with rfl | hq
            · exact hk
            · exact hnone q hq
          · intro _; trivial
        · intro h; omega

/-- The function `lastLogicalMax` yields the logical maximum of the property at
the last position of NormalPressure, and nothing when that kind does not occur. -/
theorem lastLogicalMax_spec (props : List PacketProperty) :
    (lastPosition PropertyKind.NORMAL_PRESSURE props = -1 → lastLogicalMax props = none)
      ∧ ∀ n : Nat, lastPosition PropertyKind.NORMAL_PRESSURE props = n →
          ∃ pr, props[n]? = some pr ∧ lastLogicalMax props = some pr.nLogicalMax := by
  induction props with
  | nil => simp [lastPosition, lastLogicalMax]
  | cons pr rest ih =>
    obtain ⟨ih1, ih2⟩ := ih
    have hge := lastPosition_ge PropertyKind.NORMAL_PRESSURE rest
    rw [lastPosition, lastLogicalMax]
    by_cases h0 : 0 ≤ lastPosition PropertyKind.NORMAL_PRESSURE rest
    · obtain ⟨n0, hn0⟩ : ∃ n0 : Nat, lastPosition PropertyKind.NORMAL_PRESSURE rest = n0 :=
        ⟨(lastPosition PropertyKind.NORMAL_PRESSURE rest).toNat, (Int.toNat_of_nonneg h0).symm⟩
      obtain ⟨q, hq, hql⟩ := ih2 n0 hn0
      simp only [h0, if_true, hql]
      constructor
      · intro h; omega
      · intro n hn
        have : n = n0 + 1 := by omega
        subst this
        exact ⟨q, by simpa using hq, rfl⟩
    · have hneg : lastPosition PropertyKind.NORMAL_PRESSURE rest = -1 := by omega
      simp only [h0, if_false, ih1 hneg]
      by_cases hk : pr.guid = PropertyKind.NORMAL_PRESSURE
      · simp only [hk, if_true]
        constructor
        · intro h; omega
        · intro n hn
          have : n = 0 := by omega
          subst this
          exact ⟨pr, List.getElem?_cons_zero, rfl⟩
      · simp only [hk, if_false]
        constructor
        · intro _; trivial
        · intro n hn; omega

theorem gatherLoop_eq (id : Nat) (ts : List TabletReport) :
    ∀ m : Nat → Option Context,
      gatherLoop m ts id = (match lastUsable id ts with
        | some c => some c
        | none => m id) := by
  induction ts with
  | nil => intro m; rfl
  | cons t ts ih =>
    intro m
    rw [gatherLoop, lastUsable]
    cases hl : lastUsable id ts with
    | some c =>
      split_ifs <;> rw [ih, hl]
    | none =>
      simp only
      by_cases hf : t.tabletFound = true
      · by_cases hu : 0 ≤ (resolve t.properties).x ∧ 0 ≤ (resolve t.properties).y
            ∧ 0 ≤ (resolve t.properties).status
        · rw [if_pos hf, if_pos hu, ih, hl]
          simp only
          by_cases hid : t.tcid = id
          · subst hid
            rw [Function.update_same, if_pos ⟨rfl, hf, hu⟩]
          · rw [Function.update_noteq (Ne.symm hid), if_neg (fun h => hid h.1)]
        · rw [if_pos hf, if_neg hu, ih, hl]
          simp only
          rw [if_neg (fun h => hu h.2.2)]
      · rw [if_neg hf, ih, hl]
        simp only
        rw [if_neg (fun h => hf h.2.1)]

theorem lastUsable_some (id : Nat) (ts : List TabletReport) (c : Context)
    (h : lastUsable id ts = some c) :
    ∃ t ∈ ts, t.tcid = id ∧ t.usable ∧ c = resolve t.properties := by
  induction ts with
  | nil => simp [lastUsable] at h
  | cons t ts ih =>
    rw [lastUsable] at h
    cases hl : lastUsable id ts with
    | some c2 =>
      rw [hl] at h
      simp only [Option.some.injEq] at h
      subst h
      obtain ⟨t2, ht2, h2⟩ := ih hl
      exact ⟨t2, List.mem_cons_of_mem _ ht2, h2⟩
    | none =>
      rw [hl] at h
      simp only at h
      split_ifs at h with hc
      simp only [Option.some.injEq] at h
      exact ⟨t, List.mem_cons_self _ _, hc.1, hc.2, h.symm⟩

theorem lastUsable_none (id : Nat) (ts : List TabletReport) :
    lastUsable id ts = none ↔ ∀ t ∈ ts, t.tcid = id → ¬ t.usable := by
  induction ts with
  | nil => simp [lastUsable]
  | cons t ts ih =>
    rw [lastUsable]
    cases hl : lastUsable id ts with
    | some c2 =>
      simp only [reduceCtorEq, false_iff]
      intro h
      have : lastUsable id ts = none := ih.mpr (fun t2 ht2 => h t2 (List.mem_cons_of_mem _ ht2))
      rw [hl] at this
      cases this
    | none =>
      have hts := ih.mp hl
      simp only
      constructor
      · intro h t2 ht2 hid hu
        rcases List.mem_cons.mp ht2 with rfl | ht2
        · split_ifs at h with hc
          exact hc ⟨hid, hu⟩
        · exact hts t2 ht2 hid hu
      · intro h
        rw [if_neg]
        intro hc
        exact h t (List.mem_cons_self _ _) hc.1 hc.2

theorem mem_of_lastPosition_nonneg (k : PropertyKind) (props : List PacketProperty)
    (h : 0 ≤ lastPosition k props) : ∃ pr ∈ props, pr.guid = k := by
  obtain ⟨n, -, ⟨pr, hpr, hk⟩, -⟩ := (lastPosition_spec k props).2 h
  exact ⟨pr, List.mem_iff_getElem?.mpr ⟨n, hpr⟩, hk⟩

/-- What `gatherContexts` leaves under an identifier: what was there before, or
the context of a usable report for that identifier. -/
theorem gatherContexts_lookup (s : Sender) (e : Enumeration) (id : Nat) :
    (gatherContexts s e).mContexts id =
      if e.succeeded = false ∨ e.contexts.length = 0 then s.mContexts id
      else (match lastUsable id e.contexts with
        | some c => some c
        | none => s.mContexts id) := by
  unfold gatherContexts
  split
  · rfl
  · exact gatherLoop_eq id e.contexts s.mContexts

/-- C12 (unusable contexts are never active). For every enumeration result,
what `NetworkStylus::gatherContexts` leaves in the map under an identifier was
there before, or is the context resolved from a reported tablet with that
identifier whose property list contains an X property, a Y property and a Status
property (its x, y and status offsets are then not negative). Over every
sequence of `gatherContexts` calls that starts from the empty map of the
constructor, every entry of the map has non-negative x, y and status offsets. -/
theorem gatherContexts_usable (s : Sender) (e : Enumeration) (es : List Enumeration) :
    (∀ (id : Nat) (ctx : Context), (gatherContexts s e).mContexts id = some ctx →
        s.mContexts id = some ctx ∨
        ∃ t ∈ e.contexts, t.tcid = id ∧ t.tabletFound = true ∧ ctx = resolve t.properties
          ∧ (∃ pr ∈ t.properties, pr.guid = PropertyKind.X)
          ∧ (∃ pr ∈ t.properties, pr.guid = PropertyKind.Y)
          ∧ (∃ pr ∈ t.properties, pr.guid = PropertyKind.PACKET_STATUS)
          ∧ 0 ≤ ctx.x ∧ 0 ≤ ctx.y ∧ 0 ≤ ctx.status)
      ∧ (∀ (id : Nat) (ctx : Context),
          (es.foldl gatherContexts Sender.init).mContexts id = some ctx →
            0 ≤ ctx.x ∧ 0 ≤ ctx.y ∧ 0 ≤ ctx.status) := by
  have step : ∀ (s0 : Sender) (e0 : Enumeration) (id : Nat) (ctx : Context),
      (gatherContexts s0 e0).mContexts id = some ctx →
        s0.mContexts id = some ctx ∨
        ∃ t ∈ e0.contexts, t.tcid = id ∧ t.tabletFound = true ∧ ctx = resolve t.properties
          ∧ (∃ pr ∈ t.properties, pr.guid = PropertyKind.X)
          ∧ (∃ pr ∈ t.properties, pr.guid = PropertyKind.Y)
          ∧ (∃ pr ∈ t.properties, pr.guid = PropertyKind.PACKET_STATUS)
          ∧ 0 ≤ ctx.x ∧ 0 ≤ ctx.y ∧ 0 ≤ ctx.status := by
    intro s0 e0 id ctx h
    rw [gatherContexts_lookup] at h
    split_ifs at h
    · exact Or.inl h
    · cases hl : lastUsable id e0.contexts with
      | none => rw [hl] at h; exact Or.inl h
      | some c =>
        rw [hl] at h
        simp only [Option.some.injEq] at h
        subst h
        obtain ⟨t, ht, hid, hu, hc⟩ := lastUsable_some id e0.contexts c hl
        obtain ⟨hf, hx, hy, hs⟩ := hu
        right
        refine ⟨t, ht, hid, hf, hc, ?_, ?_, ?_, by rw [hc]; exact hx, by rw [hc]; exact hy,
          by rw [hc]; exact hs⟩
        · rw [resolve_eq_spec] at hx
          exact mem_of_lastPosition_nonneg _ _ hx
        · rw [resolve_eq_spec] at hy
          exact mem_of_lastPosition_nonneg _ _ hy
        · rw [resolve_eq_spec] at hs
          exact mem_of_lastPosition_nonneg _ _ hs
  refine ⟨step s e, ?_⟩
  have inv : ∀ (l : List Enumeration) (s0 : Sender),
      (∀ id ctx, s0.mContexts id = some ctx → 0 ≤ ctx.x ∧ 0 ≤ ctx.y ∧ 0 ≤ ctx.status) →
      ∀ id ctx, (l.foldl gatherContexts s0).mContexts id = some ctx →
        0 ≤ ctx.x ∧ 0 ≤ ctx.y ∧ 0 ≤ ctx.status := by
    intro l
    induction l with
    | nil => intro s0 h0; exact h0
    | cons e0 l ih =>
      intro s0 h0
      rw [List.foldl_cons]
      apply ih
      intro id ctx h
      rcases step s0 e0 id ctx h with h1 | ⟨t, -, -, -, -, -, -, -, hx, hy, hs⟩
      · exact h0 id ctx h1
      · exact ⟨hx, hy, hs⟩
  exact inv es Sender.init (fun id ctx h => by cases h)

/-- Witness of C12: from no tablet, an enumeration with the sample tablet under 7
and a tablet without Status under 8 leaves the sample context under 7, with its
three offsets, and nothing under 8. -/
theorem gatherContexts_usable_witness :
    (gatherContexts Sender.init
        ⟨true, [⟨7, true, sampleProperties⟩,
                ⟨8, true, [⟨PropertyKind.X, 1⟩, ⟨PropertyKind.Y, 1⟩]⟩]⟩).mContexts 8 = none
      ∧ (0 ≤ sampleContext.x ∧ 0 ≤ sampleContext.y ∧ 0 ≤ sampleContext.status) :=
  ⟨by decide, (gatherContexts_usable Sender.init ⟨true, []⟩
    [⟨true, [⟨7, true, sampleProperties⟩,
             ⟨8, true, [⟨PropertyKind.X, 1⟩, ⟨PropertyKind.Y, 1⟩]⟩]⟩]).2 7 sampleContext
    (by decide)⟩

/-- Counterexample to C13 as stated: the sample sender knows the sample tablet
under 7. After an enumeration that reports only a tablet 8, and after one that
reports 7 with X and Y but without Status, the map still holds the sample
context under 7. -/
theorem gatherContexts_refresh_counterexample :
    sampleSender.mContexts 7 = some sampleContext
      ∧ (gatherContexts sampleSender ⟨true, [⟨8, true, sampleProperties⟩]⟩).mContexts 7
          = some sampleContext
      ∧ (resolve [⟨PropertyKind.X, 1⟩, ⟨PropertyKind.Y, 1⟩]).status = -1
      ∧ (gatherContexts sampleSender
          ⟨true, [⟨7, true, [⟨PropertyKind.X, 1⟩, ⟨PropertyKind.Y, 1⟩]⟩]⟩).mContexts 7
          = some sampleContext := by
  refine ⟨by decide, by decide, by decide, by decide⟩

/-- C13, amended. `gatherContexts` adds and overwrites entries and never removes
one. After it has run on an enumeration that succeeded and is not empty, an
identifier maps to the context resolved from its last usable report in the
enumeration when there is one, and keeps its prior mapping otherwise: an
identifier that is not reported any more, or whose newly reported property list
lacks X, Y or Status, stays in the map as it was. When the enumeration fails or
is empty the map is unchanged. A usable tablet that is reported once maps to
the context resolved from its property list alone, with no field of the prior
mapping. -/
theorem gatherContexts_refresh (s : Sender) (e : Enumeration) :
    (∀ id : Nat, (gatherContexts s e).mContexts id =
        if e.succeeded = false ∨ e.contexts.length = 0 then s.mContexts id
        else (match lastUsable id e.contexts with
          | some c => some c
          | none => s.mContexts id))
      ∧ (∀ (id : Nat) (c : Context), lastUsable id e.contexts = some c →
          ∃ t ∈ e.contexts, t.tcid = id ∧ t.usable ∧ c = resolve t.properties)
      ∧ (∀ id : Nat, lastUsable id e.contexts = none ↔
          ∀ t ∈ e.contexts, t.tcid = id → ¬ t.usable)
      ∧ (∀ t ∈ e.contexts, e.succeeded = true → t.usable →
          (∀ t2 ∈ e.contexts, t2.tcid = t.tcid → t2 = t) →
          (gatherContexts s e).mContexts t.tcid = some (resolve t.properties))
      ∧ (∀ id : Nat, (∀ t ∈ e.contexts, t.tcid = id → ¬ t.usable) →
          (gatherContexts s e).mContexts id = s.mContexts id) := by
  refine ⟨gatherContexts_lookup s e, fun id => lastUsable_some id e.contexts,
    fun id => lastUsable_none id e.contexts, ?_, ?_⟩
  · intro t ht hs hu huniq
    rw [gatherContexts_lookup]
    have hlen : ¬ (e.succeeded = false ∨ e.contexts.length = 0) := by
      intro h
      rcases h with h | h
      · rw [hs] at h; cases h
      · rw [List.length_eq_zero] at h
        rw [h] at ht
        cases ht
    rw [if_neg hlen]
    cases hl : lastUsable t.tcid e.contexts with
    | none => exact absurd hu ((lastUsable_none _ _).mp hl t ht rfl)
    | some c =>
      obtain ⟨t2, ht2, hid, -, hc⟩ := lastUsable_some _ _ c hl
      rw [huniq t2 ht2 hid] at hc
      rw [hc]
  · intro id h
    rw [gatherContexts_lookup, (lastUsable_none id e.contexts).mpr h]
    split <;> rfl

/-- Witness of C13, amended: the sample sender after an enumeration that reports a
usable tablet 8 (Status, Y, X in this order) holds the newly resolved context
under 8 and its prior context under 7. -/
theorem gatherContexts_refresh_witness :
    (gatherContexts sampleSender
        ⟨true, [⟨8, true, [⟨PropertyKind.PACKET_STATUS, 1⟩, ⟨PropertyKind.Y, 1⟩,
                            ⟨PropertyKind.X, 1⟩]⟩]⟩).mContexts 8
        = some { x := 2, y := 1, status := 0 }
      ∧ (gatherContexts sampleSender
        ⟨true, [⟨8, true, [⟨PropertyKind.PACKET_STATUS, 1⟩, ⟨PropertyKind.Y, 1⟩,
                            ⟨PropertyKind.X, 1⟩]⟩]⟩).mContexts 7 = sampleSender.mContexts 7 :=
  ⟨(gatherContexts_refresh sampleSender
      ⟨true, [⟨8, true, [⟨PropertyKind.PACKET_STATUS, 1⟩, ⟨PropertyKind.Y, 1⟩,
                          ⟨PropertyKind.X, 1⟩]⟩]⟩).2.2.2.1
      ⟨8, true, [⟨PropertyKind.PACKET_STATUS, 1⟩, ⟨PropertyKind.Y, 1⟩, ⟨PropertyKind.X, 1⟩]⟩
      (by decide) rfl ⟨rfl, by decide, by decide, by decide⟩ (by decide),
    (gatherContexts_refresh sampleSender
      ⟨true, [⟨8, true, [⟨PropertyKind.PACKET_STATUS, 1⟩, ⟨PropertyKind.Y, 1⟩,
                          ⟨PropertyKind.X, 1⟩]⟩]⟩).2.2.2.2 7
      (by intro t ht hid; simp at ht; subst ht; simp at hid)⟩

/-- C14 (resolver idempotence). For every prior state of the sender and every
enumeration result `e`, running `gatherContexts` on `e` twice in a row leaves
the sender as running it once does. The context resolved for one property list
is a function of that list alone, the one the specification describes
(`resolvedBySpec`): each recognised kind (X, Y, NormalPressure, TiltX, TiltY,
Status) gets the position of its last occurrence in the list, a position that
holds the kind and after which the kind does not occur again; `maxPressure` gets
the logical maximum of the property at the last position of NormalPressure;
kinds that do not occur stay absent (`-1`); and a property of an unrecognised
kind sets no field. -/
theorem gatherContexts_idempotent (s : Sender) (e : Enumeration)
    (props : List PacketProperty) :
    gatherContexts (gatherContexts s e) e = gatherContexts s e
      ∧ resolve props = resolvedBySpec props
      ∧ (∀ k : PropertyKind,
          (lastPosition k props = -1 ↔ ∀ pr ∈ props, pr.guid ≠ k)
          ∧ (0 ≤ lastPosition k props →
              ∃ n : Nat, lastPosition k props = n
                ∧ (∃ pr, props[n]? = some pr ∧ pr.guid = k)
                ∧ ∀ (m : Nat) (pr : PacketProperty), n < m → props[m]? = some pr →
                    pr.guid ≠ k))
      ∧ (lastPosition PropertyKind.NORMAL_PRESSURE props = -1 → lastLogicalMax props = none)
      ∧ (∀ n : Nat, lastPosition PropertyKind.NORMAL_PRESSURE props = n →
          ∃ pr, props[n]? = some pr ∧ lastLogicalMax props = some pr.nLogicalMax)
      ∧ (∀ (ctx : Context) (j : Int) (guid : Nat) (logicalMax : Int),
          ctx.setProperty j ⟨PropertyKind.other guid, logicalMax⟩ = ctx) := by
  refine ⟨?_, resolve_eq_spec props, fun k => lastPosition_spec k props,
    (lastLogicalMax_spec props).1, (lastLogicalMax_spec props).2, fun _ _ _ _ => rfl⟩
  have hfun : gatherLoop (gatherLoop s.mContexts e.contexts) e.contexts
      = gatherLoop s.mContexts e.contexts := by
    funext id
    rw [gatherLoop_eq id e.contexts (gatherLoop s.mContexts e.contexts)]
    cases hl : lastUsable id e.contexts with
    | none => rfl
    | some c =>
      simp only
      rw [gatherLoop_eq id e.contexts s.mContexts, hl]
  unfold gatherContexts
  by_cases hc : e.succeeded = false ∨ e.contexts.length = 0
  · simp only [hc, if_true]
  · simp only [hc, if_false]
    rw [hfun]

/-- Witness of C14: in a list with X at positions 0 and 4, NormalPressure at 2 and
5, Y at 3 and an unrecognised property at 1, X resolves to 4, Y to 3, pressure
to 5 with the logical maximum of position 5, and the rest stays absent. -/
theorem gatherContexts_idempotent_witness :
    resolve
        [⟨PropertyKind.X, 1⟩, ⟨PropertyKind.other 5, 9⟩, ⟨PropertyKind.NORMAL_PRESSURE, 1024⟩,
         ⟨PropertyKind.Y, 1⟩, ⟨PropertyKind.X, 1⟩, ⟨PropertyKind.NORMAL_PRESSURE, 2048⟩]
        = { x := 4, y := 3, pressure := 5, maxPressure := 2048 }
      ∧ ∃ n : Nat, lastPosition PropertyKind.X
            [⟨PropertyKind.X, 1⟩, ⟨PropertyKind.other 5, 9⟩, ⟨PropertyKind.NORMAL_PRESSURE, 1024⟩,
             ⟨PropertyKind.Y, 1⟩, ⟨PropertyKind.X, 1⟩, ⟨PropertyKind.NORMAL_PRESSURE, 2048⟩] = n
          ∧ (∃ pr, [(⟨PropertyKind.X, 1⟩ : PacketProperty), ⟨PropertyKind.other 5, 9⟩,
              ⟨PropertyKind.NORMAL_PRESSURE, 1024⟩, ⟨PropertyKind.Y, 1⟩, ⟨PropertyKind.X, 1⟩,
              ⟨PropertyKind.NORMAL_PRESSURE, 2048⟩][n]? = some pr ∧ pr.guid = PropertyKind.X)
          ∧ ∀ (m : Nat) (pr : PacketProperty), n < m →
              [(⟨PropertyKind.X, 1⟩ : PacketProperty), ⟨PropertyKind.other 5, 9⟩,
               ⟨PropertyKind.NORMAL_PRESSURE, 1024⟩, ⟨PropertyKind.Y, 1⟩, ⟨PropertyKind.X, 1⟩,
               ⟨PropertyKind.NORMAL_PRESSURE, 2048⟩][m]? = some pr → pr.guid ≠ PropertyKind.X :=
  ⟨by decide, ((gatherContexts_idempotent Sender.init ⟨true, []⟩
    [⟨PropertyKind.X, 1⟩, ⟨PropertyKind.other 5, 9⟩, ⟨PropertyKind.NORMAL_PRESSURE, 1024⟩,
     ⟨PropertyKind.Y, 1⟩, ⟨PropertyKind.X, 1⟩, ⟨PropertyKind.NORMAL_PRESSURE, 2048⟩]).2.2.1
    PropertyKind.X).2 (by decide)⟩

/-! ## Properties of the geometry of the sender -/

theorem buildPacket_extents (ub : Double → Nat) (s : Sender) (tablet : Context)
    (buffer : List Int) (base seq mx my : Nat) :
    buildPacket ub { s with mMaxX := mx, mMaxY := my } tablet buffer base seq
      = (buildPacket ub s tablet buffer base seq).map (Packet.withExtents mx my) := by
  unfold buildPacket
  cases readLong buffer base tablet.status with
  | error f => rfl
  | ok rs =>
    cases readLong buffer base tablet.x with
    | error f => rfl
    | ok rx =>
      cases readLong buffer base tablet.y with
      | error f => rfl
      | ok ry =>
        simp only [bind, Except.bind, pure, Except.pure]
        by_cases hp : 0 ≤ tablet.pressure <;> by_cases htx : 0 ≤ tablet.tiltX <;>
          by_cases hty : 0 ≤ tablet.tiltY <;>
          simp only [hp, htx, hty, if_true, if_false]
        all_goals
          cases readLong buffer base tablet.pressure <;>
          cases readLong buffer base tablet.tiltX <;>
          cases readLong buffer base tablet.tiltY <;> rfl

theorem sendLoop_extents (ub : Double → Nat) (s : Sender) (tablet : Context) (packetSize : Nat)
    (buffer : List Int) (mx my n : Nat) :
    ∀ base seq : Nat,
      sendLoop ub { s with mMaxX := mx, mMaxY := my } tablet packetSize buffer n base seq
        = (((sendLoop ub s tablet packetSize buffer n base seq).1.map (Packet.withExtents mx my)),
            (sendLoop ub s tablet packetSize buffer n base seq).2.1,
            (sendLoop ub s tablet packetSize buffer n base seq).2.2) := by
  induction n with
  | zero => intro base seq; rfl
  | succ n ih =>
    intro base seq
    rw [sendLoop, sendLoop, buildPacket_extents]
    cases buildPacket ub s tablet buffer base seq with
    | error f => rfl
    | ok p =>
      simp only [Except.map]
      rw [ih]
      rfl

/-- The extents of the sender reach nothing in `sendPackets` but the fields `maxX`
and `maxY` of the packets. -/
theorem sendPackets_extents (ub : Double → Nat) (s : Sender) (tcid numPackets totalLength : Nat)
    (buffer : List Int) (mx my : Nat) :
    (sendPackets ub { s with mMaxX := mx, mMaxY := my } tcid numPackets totalLength buffer).sent
        = (sendPackets ub s tcid numPackets totalLength buffer).sent.map
            (Packet.withExtents mx my)
      ∧ (sendPackets ub { s with mMaxX := mx, mMaxY := my } tcid numPackets totalLength
          buffer).fault = (sendPackets ub s tcid numPackets totalLength buffer).fault
      ∧ (sendPackets ub { s with mMaxX := mx, mMaxY := my } tcid numPackets totalLength
          buffer).st.mSeqNumber
          = (sendPackets ub s tcid numPackets totalLength buffer).st.mSeqNumber := by
  unfold sendPackets
  cases hc : s.mContexts tcid with
  | none => simp [hc]
  | some tablet =>
    by_cases hn : numPackets = 0
    · simp [hc, hn]
    · simp only [hc, hn, if_false]
      rw [sendLoop_extents]
      simp

/-- Notifications of a window that is too small leave the sender as it is. -/
theorem windowChanged_tooSmall (ws : List WindowMetrics) :
    ∀ s : Sender, (∀ w ∈ ws, w.tooSmall = true) → ws.foldl windowChanged s = s := by
  induction ws with
  | nil => intro s _; rfl
  | cons w ws ih =>
    intro s hall
    rw [List.foldl_cons]
    have hw : windowChanged s w = s := by
      unfold windowChanged
      rw [if_pos (hall w (List.mem_cons_self _ _))]
    rw [hw]
    exact ih s (fun w2 hw2 => hall w2 (List.mem_cons_of_mem _ hw2))

/-- Counterexample to C15 as stated: a sender whose only geometry notification
came from a window of less than one unit, and which then gathered one tablet, has
both extents zero, and `sendPackets` transmits the sample all the same, with
`maxX = maxY = 0` in the packet. -/
theorem sendPackets_not_ready_counterexample :
    (gatherContexts (windowChanged Sender.init ⟨true, Double.finite 1 0, Double.finite 1 0, 0, 0⟩)
        ⟨true, [⟨7, true, sampleProperties⟩]⟩).mMaxX = 0
      ∧ (gatherContexts (windowChanged Sender.init ⟨true, Double.finite 1 0, Double.finite 1 0, 0, 0⟩)
        ⟨true, [⟨7, true, sampleProperties⟩]⟩).mMaxY = 0
      ∧ (sendPackets sampleUb
          (gatherContexts
            (windowChanged Sender.init ⟨true, Double.finite 1 0, Double.finite 1 0, 0, 0⟩)
            ⟨true, [⟨7, true, sampleProperties⟩]⟩) 7 1 4 [1000, 500, 1, 2048]).sent
          = [{ samplePacket 0 with maxX := 0, maxY := 0 }] := by
  refine ⟨by decide, by decide, by decide⟩

/-- C15, amended: the extents of a sender are zero until a geometry notification of
at least one unit is applied (zero initially, kept by notifications that return
early and by `gatherContexts`), and zero extents suppress nothing: `sendPackets`
transmits the packets it transmits with any other extents, as many of them and with
the same fault if any, with `maxX` and `maxY` zero in each. -/
theorem sendPackets_degenerate_geometry (ub : Double → Nat) (s : Sender)
    (tcid numPackets totalLength : Nat) (buffer : List Int) (ws : List WindowMetrics)
    (e : Enumeration) :
    (Sender.init.mMaxX = 0 ∧ Sender.init.mMaxY = 0)
      ∧ ((∀ w ∈ ws, w.tooSmall = true) → ws.foldl windowChanged s = s)
      ∧ ((gatherContexts s e).mMaxX = s.mMaxX ∧ (gatherContexts s e).mMaxY = s.mMaxY)
      ∧ (sendPackets ub { s with mMaxX := 0, mMaxY := 0 } tcid numPackets totalLength buffer).sent
          = (sendPackets ub s tcid numPackets totalLength buffer).sent.map
              (Packet.withExtents 0 0)
      ∧ (sendPackets ub { s with mMaxX := 0, mMaxY := 0 } tcid numPackets totalLength
          buffer).sent.length = (sendPackets ub s tcid numPackets totalLength buffer).sent.length
      ∧ (sendPackets ub { s with mMaxX := 0, mMaxY := 0 } tcid numPackets totalLength
          buffer).fault = (sendPackets ub s tcid numPackets totalLength buffer).fault := by
  have h := sendPackets_extents ub s tcid numPackets totalLength buffer 0 0
  refine ⟨⟨rfl, rfl⟩, windowChanged_tooSmall ws s, ?_, h.1, by rw [h.1, List.length_map],
    h.2.1⟩
  unfold gatherContexts
  split <;> exact ⟨rfl, rfl⟩

/-- An instance of `sendPackets_degenerate_geometry`: after one notification from a
minimized window the fresh sender still has its initial state, and with the extents
zero the sample of the known context is transmitted. -/
theorem sendPackets_degenerate_geometry_witness :
    (∀ w ∈ [(⟨true, Double.finite 1 0, Double.finite 1 0, 0, 0⟩ : WindowMetrics)],
        w.tooSmall = true)
      ∧ [(⟨true, Double.finite 1 0, Double.finite 1 0, 0, 0⟩ : WindowMetrics)].foldl
          windowChanged sampleSender = sampleSender
      ∧ (sendPackets sampleUb { sampleSender with mMaxX := 0, mMaxY := 0 } 7 1 4
          [1000, 500, 1, 2048]).sent.length = 1 :=
  ⟨by decide,
    (sendPackets_degenerate_geometry sampleUb sampleSender 7 1 4 [1000, 500, 1, 2048]
      [⟨true, Double.finite 1 0, Double.finite 1 0, 0, 0⟩] ⟨false, []⟩).2.1 (by decide),
    by decide⟩


/-! ## Properties of the keys of the virtual device -/

/-- The button-pressed bit of a status word, as a value: 8 or 0. -/
theorem and_buttonPressed (n : Nat) :
    n &&& PacketButtonPressed = if n &&& PacketButtonPressed ≠ 0 then 8 else 0 := by
  have e : n &&& 8 = (n % 16) &&& 8 := by
    have h15 : (8 : Nat) = 15 &&& 8 := by decide
    have hm : n &&& 15 = n % 16 := Nat.and_pow_two_sub_one_eq_mod n 4
    conv_lhs => rw [h15, ← Nat.and_assoc, hm]
  have ha : n % 16 < 16 := Nat.mod_lt _ (by decide)
  unfold PacketButtonPressed
  rw [e]
  generalize n % 16 = a at ha
  interval_cases a <;> decide

/-- C16, as the code has it. For every packet with the has-pressure bit set,
`Server::packetToEvent` writes exactly one `BTN_STYLUS` event, and its value is the
masked status `status & PacketButtonPressed`: 8 when the button-pressed bit is set
and 0 when it is clear; the `BTN_TOUCH` event carries 1 or 0 for the touching
bit. -/
theorem packetToEvent_button_value (s : Server) (p : Packet) (errs : List Int)
    (h : p.status &&& PacketHasPressure ≠ 0) :
    (∀ v : Int, (EV_KEY, BTN_STYLUS, v) ∈ events (packetToEvent s p errs).2.1 ↔
        v = if p.status &&& PacketButtonPressed ≠ 0 then 8 else 0)
      ∧ (∀ v : Int, (EV_KEY, BTN_TOUCH, v) ∈ events (packetToEvent s p errs).2.1 ↔
        v = if p.status &&& PacketIsTouching ≠ 0 then 1 else 0) := by
  rw [events_packetToEvent s p errs h]
  have hb : ((p.status &&& PacketButtonPressed : Nat) : Int)
      = if p.status &&& PacketButtonPressed ≠ 0 then 8 else 0 := by
    have h0 := and_buttonPressed p.status
    by_cases hbit : p.status &&& PacketButtonPressed = 0
    · simp [hbit]
    · rw [if_pos hbit] at h0
      simp [h0]
  constructor
  · intro v
    rw [← hb]
    by_cases he : p.status &&& PacketIsEraser = 0 <;>
      by_cases htx : p.status &&& PacketHasTiltX = 0 <;>
      by_cases hty : p.status &&& PacketHasTiltY = 0 <;>
      simp [he, htx, hty, EV_KEY, EV_ABS, EV_SYN, BTN_STYLUS, BTN_TOUCH, BTN_TOOL_PEN,
        BTN_TOOL_RUBBER]
  · intro v
    by_cases he : p.status &&& PacketIsEraser = 0 <;>
      by_cases htx : p.status &&& PacketHasTiltX = 0 <;>
      by_cases hty : p.status &&& PacketHasTiltY = 0 <;>
      simp [he, htx, hty, EV_KEY, EV_ABS, EV_SYN, BTN_STYLUS, BTN_TOUCH, BTN_TOOL_PEN,
        BTN_TOOL_RUBBER]

/-- The failing input of C16: for the sample packet with the button pressed
(status `0x19`) the `BTN_STYLUS` event carries the value 8, not 1, while the
`BTN_TOUCH` event carries 1. -/
theorem packetToEvent_button_value_witness :
    { samplePacket 6 with status := 0x19 }.status &&& PacketHasPressure ≠ 0
      ∧ (EV_KEY, BTN_STYLUS, 8)
          ∈ events (packetToEvent (sampleServer 5) { samplePacket 6 with status := 0x19 } []).2.1
      ∧ (EV_KEY, BTN_STYLUS, 1)
          ∉ events (packetToEvent (sampleServer 5) { samplePacket 6 with status := 0x19 } []).2.1
      ∧ (EV_KEY, BTN_TOUCH, 1)
          ∈ events (packetToEvent (sampleServer 5) { samplePacket 6 with status := 0x19 } []).2.1 :=
  ⟨by decide,
    ((packetToEvent_button_value (sampleServer 5) { samplePacket 6 with status := 0x19 } []
      (by decide)).1 8).mpr (by decide),
    by decide, by decide⟩

/-- The log of `applyPackets` for one packet more. -/
theorem events_applyPackets_cons (s : Server) (p : Packet) (ps : List Packet) (errs : List Int) :
    events (applyPackets s (p :: ps) errs).2.1
      = events (packetToEvent s p errs).2.1
        ++ events (applyPackets (packetToEvent s p errs).1 ps (packetToEvent s p errs).2.2).2.1 := by
  rw [applyPackets, events_append]

/-- What the events of one packet do to the two tool keys: the key of the tool
that the eraser bit chooses becomes 1, the other key keeps its value. -/
theorem keyWrite_packetToEvent (s : Server) (p : Packet) (errs : List Int) (v : Int)
    (h : p.status &&& PacketHasPressure ≠ 0) :
    (events (packetToEvent s p errs).2.1).foldl (keyWrite BTN_TOOL_RUBBER) v
        = (if p.status &&& PacketIsEraser ≠ 0 then 1 else v)
      ∧ (events (packetToEvent s p errs).2.1).foldl (keyWrite BTN_TOOL_PEN) v
        = (if p.status &&& PacketIsEraser ≠ 0 then v else 1) := by
  rw [events_packetToEvent s p errs h]
  by_cases he : p.status &&& PacketIsEraser = 0 <;>
    by_cases htx : p.status &&& PacketHasTiltX = 0 <;>
    by_cases hty : p.status &&& PacketHasTiltY = 0 <;>
    simp [he, htx, hty, keyWrite, EV_KEY, EV_ABS, EV_SYN, BTN_STYLUS, BTN_TOUCH, BTN_TOOL_PEN,
      BTN_TOOL_RUBBER, ABS_X, ABS_Y, ABS_PRESSURE, ABS_TILT_X, ABS_TILT_Y, SYN_REPORT]

/-- The two tool keys after a sequence of packets, from any values before: a key
is 1 once a packet has chosen its tool, and keeps its value otherwise. -/
theorem keyWrite_applyPackets (ps : List Packet) :
    ∀ (s : Server) (errs : List Int) (v : Int),
      (∀ p ∈ ps, p.status &&& PacketHasPressure ≠ 0) →
      (events (applyPackets s ps errs).2.1).foldl (keyWrite BTN_TOOL_RUBBER) v
          = (if ∃ p ∈ ps, p.status &&& PacketIsEraser ≠ 0 then 1 else v)
        ∧ (events (applyPackets s ps errs).2.1).foldl (keyWrite BTN_TOOL_PEN) v
          = (if ∃ p ∈ ps, p.status &&& PacketIsEraser = 0 then 1 else v) := by
  induction ps with
  | nil => intro s errs v _; simp [applyPackets, events_nil]
  | cons p ps ih =>
    intro s errs v h
    have hp := h p (List.mem_cons_self _ _)
    have hps : ∀ q ∈ ps, q.status &&& PacketHasPressure ≠ 0 :=
      fun q hq => h q (List.mem_cons_of_mem _ hq)
    rw [events_applyPackets_cons, List.foldl_append, List.foldl_append,
      (keyWrite_packetToEvent s p errs v hp).1, (keyWrite_packetToEvent s p errs v hp).2,
      (ih _ _ _ hps).1, (ih _ _ _ hps).2]
    by_cases he : p.status &&& PacketIsEraser = 0 <;>
      by_cases h1 : ∃ q ∈ ps, q.status &&& PacketIsEraser ≠ 0 <;>
      by_cases h2 : ∃ q ∈ ps, q.status &&& PacketIsEraser = 0 <;>
      simp [he, h1, h2]

/-- Counterexample to C17 as stated: after an eraser packet and then a pen packet,
both with the has-pressure bit, `BTN_TOOL_PEN` and `BTN_TOOL_RUBBER` both have the
value 1, though the eraser bit of the last packet is clear. -/
theorem applyPackets_tool_keys_counterexample :
    (∀ p ∈ [{ samplePacket 6 with status := 0x13 }, samplePacket 7],
        p.status &&& PacketHasPressure ≠ 0)
      ∧ (samplePacket 7).status &&& PacketIsEraser = 0
      ∧ keyState (events (applyPackets (sampleServer 5)
          [{ samplePacket 6 with status := 0x13 }, samplePacket 7] []).2.1) BTN_TOOL_PEN = 1
      ∧ keyState (events (applyPackets (sampleServer 5)
          [{ samplePacket 6 with status := 0x13 }, samplePacket 7] []).2.1) BTN_TOOL_RUBBER = 1 := by
  refine ⟨by decide, by decide, by decide, by decide⟩

/-- C17, amended. Modelling the key state of the virtual device as the last value
written for each key code (all keys initially 0), after `Server::packetToEvent` has
been applied to any sequence of packets with the has-pressure bit set,
`BTN_TOOL_RUBBER` has the value 1 if and only if the eraser bit of some applied
packet was set, and `BTN_TOOL_PEN` has the value 1 if and only if the eraser bit of
some applied packet was clear; otherwise the key is 0. No tool key is ever written
0, so both are 1 once packets of both kinds have been applied. The key of the tool
that the eraser bit of the most recently applied packet chooses has the value 1. -/
theorem applyPackets_tool_keys (s : Server) (ps : List Packet) (errs : List Int)
    (h : ∀ p ∈ ps, p.status &&& PacketHasPressure ≠ 0) :
    (keyState (events (applyPackets s ps errs).2.1) BTN_TOOL_RUBBER = 1
        ↔ ∃ p ∈ ps, p.status &&& PacketIsEraser ≠ 0)
      ∧ (keyState (events (applyPackets s ps errs).2.1) BTN_TOOL_PEN = 1
        ↔ ∃ p ∈ ps, p.status &&& PacketIsEraser = 0)
      ∧ (keyState (events (applyPackets s ps errs).2.1) BTN_TOOL_RUBBER = 0
        ↔ ¬ ∃ p ∈ ps, p.status &&& PacketIsEraser ≠ 0)
      ∧ (keyState (events (applyPackets s ps errs).2.1) BTN_TOOL_PEN = 0
        ↔ ¬ ∃ p ∈ ps, p.status &&& PacketIsEraser = 0)
      ∧ ((∃ p ∈ ps, p.status &&& PacketIsEraser ≠ 0) → (∃ p ∈ ps, p.status &&& PacketIsEraser = 0)
          → keyState (events (applyPackets s ps errs).2.1) BTN_TOOL_RUBBER = 1
            ∧ keyState (events (applyPackets s ps errs).2.1) BTN_TOOL_PEN = 1)
      ∧ (∀ p : Packet, ps.getLast? = some p →
          keyState (events (applyPackets s ps errs).2.1)
            (if p.status &&& PacketIsEraser ≠ 0 then BTN_TOOL_RUBBER else BTN_TOOL_PEN) = 1) := by
  have hk := keyWrite_applyPackets ps s errs 0 h
  unfold keyState
  rw [hk.1, hk.2]
  refine ⟨?_, ?_, ?_, ?_, ?_, ?_⟩
  · by_cases h1 : ∃ q ∈ ps, q.status &&& PacketIsEraser ≠ 0 <;> simp [h1]
  · by_cases h2 : ∃ q ∈ ps, q.status &&& PacketIsEraser = 0 <;> simp [h2]
  · by_cases h1 : ∃ q ∈ ps, q.status &&& PacketIsEraser ≠ 0 <;> simp [h1]
  · by_cases h2 : ∃ q ∈ ps, q.status &&& PacketIsEraser = 0 <;> simp [h2]
  · intro h1 h2
    rw [if_pos h1, if_pos h2]
    exact ⟨rfl, rfl⟩
  · intro p hp
    have hmem : p ∈ ps := List.mem_of_mem_getLast? hp
    by_cases he : p.status &&& PacketIsEraser = 0
    · have h2 : ∃ q ∈ ps, q.status &&& PacketIsEraser = 0 := ⟨p, hmem, he⟩
      simp only [he, ne_eq, not_true_eq_false, if_false]
      rw [(keyWrite_applyPackets ps s errs 0 h).2, if_pos h2]
    · have h1 : ∃ q ∈ ps, q.status &&& PacketIsEraser ≠ 0 := ⟨p, hmem, he⟩
      simp only [he, ne_eq, not_false_eq_true, if_true]
      rw [(keyWrite_applyPackets ps s errs 0 h).1, if_pos h1]

/-- An instance of `applyPackets_tool_keys`: after an eraser packet and then a pen
packet the eraser key is 1 because an eraser packet was applied. -/
theorem applyPackets_tool_keys_witness :
    (∀ p ∈ [{ samplePacket 6 with status := 0x13 }, samplePacket 7],
        p.status &&& PacketHasPressure ≠ 0)
      ∧ (keyState (events (applyPackets (sampleServer 5)
            [{ samplePacket 6 with status := 0x13 }, samplePacket 7] []).2.1) BTN_TOOL_RUBBER = 1
          ↔ ∃ p ∈ [{ samplePacket 6 with status := 0x13 }, samplePacket 7],
              p.status &&& PacketIsEraser ≠ 0) :=
  ⟨by decide, (applyPackets_tool_keys (sampleServer 5)
    [{ samplePacket 6 with status := 0x13 }, samplePacket 7] [] (by decide)).1⟩

/-! ## Properties of a fresh receiver -/

/-- The magic that `readOne` finds in the bytes of a packet with the magic of
`PACKET_MAGIC`. -/
theorem magic_toBytes (p : Packet) (h : p.magic = PACKET_MAGIC) :
    (Packet.ofBytes p.toBytes).magic = PACKET_MAGIC := by
  have hl : ((p.magic ++ List.replicate 10 0).take 10).length = 10 := by simp
  show p.toBytes.take 10 = PACKET_MAGIC
  unfold Packet.toBytes
  simp only [List.append_assoc]
  rw [List.take_left' hl, h]
  decide

/-- The sequence number that `readOne` finds in the bytes of a packet. -/
theorem seqNumber_toBytes (p : Packet) :
    (Packet.ofBytes p.toBytes).seqNumber = p.seqNumber % 2 ^ 64 := by
  have hl : ((p.magic ++ List.replicate 10 0).take 10).length = 10 := by simp
  show fieldAt p.toBytes 16 8 = _
  unfold Packet.toBytes
  simp only [List.append_assoc]
  rw [fieldAt_skip _ _ _ _ (by rw [hl]; decide), hl,
    fieldAt_skip _ _ _ _ (by rw [length_leBytes]; decide), length_leBytes,
    fieldAt_skip _ _ _ _ (by rw [length_leBytes]), length_leBytes,
    fieldAt_head _ _ _ (length_leBytes 8 _), leNat_leBytes]
  norm_num

/-- Every packet that a sequence of calls of `sendPackets` sends has the magic of
`PACKET_MAGIC`. -/
theorem sendAll_magic (ub : Double → Nat) (calls : List Call) :
    ∀ (s : Sender) (p : Packet), p ∈ (sendAll ub s calls).sent → p.magic = PACKET_MAGIC := by
  induction calls with
  | nil => intro s p h; simp [sendAll] at h
  | cons c cs ih =>
    intro s p h
    have hfirst : ∀ q, q ∈ (sendPackets ub (c.sender s) c.tcid c.numPackets c.totalLength
        c.buffer).sent → q.magic = PACKET_MAGIC := by
      intro q hq
      cases hc : (c.sender s).mContexts c.tcid with
      | none =>
        rw [(sendPackets_nothing ub (c.sender s) c.tcid c.numPackets c.totalLength c.buffer
          (Or.inl hc)).1] at hq
        simp at hq
      | some tablet =>
        obtain ⟨i, hi⟩ := List.mem_iff_getElem?.mp hq
        obtain ⟨sq, hsq⟩ := sendPackets_built ub (c.sender s) c.tcid c.numPackets c.totalLength
          c.buffer tablet i q hc hi
        obtain ⟨_, _, _, _, _, _, hm, _⟩ := buildPacket_ok ub (c.sender s) tablet c.buffer _ sq q hsq
        exact hm
    rw [sendAll] at h
    simp only at h
    cases hf : (sendPackets ub (c.sender s) c.tcid c.numPackets c.totalLength c.buffer).fault with
    | some f =>
      rw [hf] at h
      exact hfirst p h
    | none =>
      rw [hf] at h
      simp only [List.mem_append] at h
      rcases h with h | h
      · exact hfirst p h
      · exact ih _ p h

/-- From a receiver that has accepted nothing (`mLastSeq = 0`), a call of `readOne`
that returns with `canRun` set returns a packet that it has accepted, and its
sequence number is at least 1. -/
theorem readOne_first_accepted (tr : List Tick) :
    ∀ (s s1 : Server) (p : Packet) (rest : List Tick), s.mLastSeq = 0 →
      readOne s tr = (Outcome.returned p, s1, rest) → s1.canRun = true →
        1 ≤ p.seqNumber ∧ s1.mLastSeq = p.seqNumber := by
  induction tr with
  | nil => intro s s1 p rest _ h; rw [readOne_nil] at h; cases h
  | cons t tl ih =>
    intro s s1 p rest h0 h hrun
    obtain ⟨res, sig⟩ := t
    cases res with
    | error e =>
      rw [readOne] at h
      simp only at h
      split_ifs at h with h1 h2
      · exact ih _ _ _ _ (by exact h0) h hrun
      · cases h
      · cases h
        simp only at hrun
        exact absurd hrun h2
    | datagram d =>
      by_cases hd : 0 < d.length
      · rw [readOne_datagram s d sig tl hd] at h
        split_ifs at h with h1 h2
        · cases h
          refine ⟨?_, rfl⟩
          have := h1.2
          rw [h0] at this
          unfold shouldReset at this
          omega
        · exact ih _ _ _ _ (by exact h0) h hrun
        · cases h
          simp only at hrun
          exact absurd hrun h2
      · have hmin : min d.length PACKET_SIZE = 0 := by omega
        rw [readOne] at h
        simp only [hmin, if_true] at h
        split_ifs at h with h2
        · exact ih _ _ _ _ (by exact h0) h hrun
        · cases h
          simp only at hrun
          exact absurd hrun h2

/-- C18 (fresh receiver and sequence number 0). For a receiver in its initial
state (`mLastSeq = 0`) and a datagram `d` with the magic of `PACKET_MAGIC`,
`Server::readOne` accepts `d` when its `seqNumber` is not 0 (it returns the packet
and `mLastSeq` becomes the `seqNumber`) and discards it when its `seqNumber` is 0
(`mLastSeq` stays 0): read alone, `d` is returned if and only if its `seqNumber` is
not 0. The first packet of a fresh sender session has the magic and `seqNumber` 0,
so a fresh receiver discards it; and whatever a fresh receiver reads, the first
packet it accepts has a `seqNumber` of at least 1. -/
theorem readOne_fresh_receiver (ub : Double → Nat) (stack d : List Byte) (sig : Bool)
    (rest : List Tick) (hlen : 24 ≤ d.length)
    (hmagic : (Packet.ofBytes d).magic = PACKET_MAGIC) :
    (Server.init stack).mLastSeq = 0
      ∧ ((Packet.ofBytes d).seqNumber ≠ 0 →
          readOne (Server.init stack) (⟨ReadResult.datagram d, sig⟩ :: rest) =
            (Outcome.returned (Packet.ofBytes (received stack d)),
              { Server.init stack with canRun := !sig, pbuf := received stack d,
                                       mLastSeq := (Packet.ofBytes d).seqNumber }, rest))
      ∧ ((Packet.ofBytes d).seqNumber = 0 →
          readOne (Server.init stack) (⟨ReadResult.datagram d, sig⟩ :: rest)
              = readOn (Server.init stack) d sig rest
            ∧ (discarded (Server.init stack) d sig).mLastSeq = 0)
      ∧ ((readOne (Server.init stack) [⟨ReadResult.datagram d, false⟩]).1
            = Outcome.returned (Packet.ofBytes (received stack d))
          ↔ (Packet.ofBytes d).seqNumber ≠ 0)
      ∧ (∀ (calls : List Call) (p : Packet),
          (sendAll ub Sender.init calls).sent[0]? = some p →
            p.seqNumber = 0
              ∧ readOne (Server.init stack) (⟨ReadResult.datagram p.toBytes, sig⟩ :: rest)
                  = readOn (Server.init stack) p.toBytes sig rest
              ∧ (readOne (Server.init stack) [⟨ReadResult.datagram p.toBytes, false⟩]).1
                  = Outcome.blocked
              ∧ (readOne (Server.init stack)
                  [⟨ReadResult.datagram p.toBytes, false⟩]).2.1.mLastSeq = 0)
      ∧ (∀ (tr : List Tick) (p : Packet) (s1 : Server) (tl : List Tick),
          readOne (Server.init stack) tr = (Outcome.returned p, s1, tl) → s1.canRun = true →
            1 ≤ p.seqNumber ∧ s1.mLastSeq = p.seqNumber) := by
  have hs := seqNumber_received stack d hlen
  have take : ∀ (d2 : List Byte) (sg : Bool) (tl : List Tick), 24 ≤ d2.length →
      (Packet.ofBytes d2).magic = PACKET_MAGIC → (Packet.ofBytes d2).seqNumber ≠ 0 →
      readOne (Server.init stack) (⟨ReadResult.datagram d2, sg⟩ :: tl) =
        (Outcome.returned (Packet.ofBytes (received stack d2)),
          { Server.init stack with canRun := !sg, pbuf := received stack d2,
                                   mLastSeq := (Packet.ofBytes d2).seqNumber }, tl) := by
    intro d2 sg tl hl hm hne
    have hs2 : (Packet.ofBytes (received (Server.init stack).pbuf d2)).seqNumber
        = (Packet.ofBytes d2).seqNumber := seqNumber_received stack d2 hl
    rw [readOne_takes (Server.init stack) d2 sg tl (by omega)
      (magic_received stack d2 (by omega) hm)
      (by
        have h0 : (Server.init stack).mLastSeq = 0 := rfl
        rw [hs2, h0]; omega), hs2]
    rfl
  have drop : ∀ (d2 : List Byte) (sg : Bool) (tl : List Tick), 24 ≤ d2.length →
      (Packet.ofBytes d2).seqNumber = 0 →
      readOne (Server.init stack) (⟨ReadResult.datagram d2, sg⟩ :: tl)
        = readOn (Server.init stack) d2 sg tl := by
    intro d2 sg tl hl hz
    have hs2 := seqNumber_received stack d2 hl
    refine readOne_discards (Server.init stack) d2 sg tl (by omega) ?_
    show ¬ (_ ∧ ¬ ((Packet.ofBytes (received stack d2)).seqNumber ≤ 0
      ∧ 0 - (Packet.ofBytes (received stack d2)).seqNumber < shouldReset))
    rw [hs2, hz]
    unfold shouldReset
    intro hh
    exact hh.2 ⟨le_refl 0, by decide⟩
  have blocked : ∀ d2 : List Byte, 24 ≤ d2.length → (Packet.ofBytes d2).seqNumber = 0 →
      readOne (Server.init stack) [⟨ReadResult.datagram d2, false⟩]
        = (Outcome.blocked, discarded (Server.init stack) d2 false, []) := by
    intro d2 hl hz
    rw [drop d2 false [] hl hz]
    unfold readOn
    rw [if_pos (by rfl), readOne_nil]
  refine ⟨rfl, take d sig rest hlen hmagic, fun hz => ⟨drop d sig rest hlen hz, rfl⟩, ?_, ?_,
    fun tr p s1 tl h hrun => readOne_first_accepted tr _ s1 p tl rfl h hrun⟩
  · constructor
    · intro h hz
      rw [blocked d hlen hz] at h
      cases h
    · intro hne
      rw [take d false [] hlen hmagic hne]
  · intro calls p hp
    have hseq : p.seqNumber = 0 := by
      have := sendAll_seq ub calls Sender.init (by decide) 0 p hp
      rw [this]
      rfl
    have hm : p.magic = PACKET_MAGIC :=
      sendAll_magic ub calls Sender.init p (List.mem_iff_getElem?.mpr ⟨0, hp⟩)
    have hl : 24 ≤ p.toBytes.length := by rw [length_toBytes]; decide
    have hz : (Packet.ofBytes p.toBytes).seqNumber = 0 := by
      rw [seqNumber_toBytes, hseq, Nat.zero_mod]
    refine ⟨hseq, drop _ sig rest hl hz, ?_, ?_⟩
    · rw [blocked _ hl hz]
    · rw [blocked _ hl hz]
      rfl

/-- Witness of C18: a fresh receiver reads the sample packet numbered 0 and
discards it, then reads the sample packet numbered 1 and returns it. -/
theorem readOne_fresh_receiver_witness :
    ((readOne (Server.init (List.replicate 56 0))
        [⟨ReadResult.datagram (samplePacket 0).toBytes, false⟩]).1 = Outcome.blocked
      ∧ (readOne (Server.init (List.replicate 56 0))
        [⟨ReadResult.datagram (samplePacket 0).toBytes, false⟩,
         ⟨ReadResult.datagram (samplePacket 1).toBytes, false⟩]).1
          = Outcome.returned (samplePacket 1))
      ∧ ((readOne (Server.init (List.replicate 56 0))
            [⟨ReadResult.datagram (samplePacket 1).toBytes, false⟩]).1
            = Outcome.returned
                (Packet.ofBytes (received (List.replicate 56 0) (samplePacket 1).toBytes))
          ↔ (Packet.ofBytes (samplePacket 1).toBytes).seqNumber ≠ 0) :=
  ⟨⟨by decide, by decide⟩,
    (readOne_fresh_receiver sampleUb (List.replicate 56 0) (samplePacket 1).toBytes false []
      (by decide) (by decide)).2.2.2.1⟩

/-! ## Properties of the strided sample buffer -/

/-- A read at a position inside the buffer succeeds with the value there. -/
theorem readLong_inBounds (buffer : List Int) (base : Nat) (off : Int) (h0 : 0 ≤ off)
    (h : base + off.toNat < buffer.length) :
    ∃ v, buffer[base + off.toNat]? = some v ∧ readLong buffer base off = Except.ok v := by
  have e : ((base : Int) + off).toNat = base + off.toNat := by omega
  refine ⟨buffer[base + off.toNat], List.getElem?_eq_getElem h, ?_⟩
  unfold readLong
  rw [if_pos (by omega), e, List.get?_eq_getElem?, List.getElem?_eq_getElem h]

/-- A read depends on the buffer through the position read only. -/
theorem readLong_congr (buffer buffer2 : List Int) (base : Nat) (off : Int) (h0 : 0 ≤ off)
    (h : buffer2[base + off.toNat]? = buffer[base + off.toNat]?) :
    readLong buffer2 base off = readLong buffer base off := by
  have e : ((base : Int) + off).toNat = base + off.toNat := by omega
  unfold readLong
  rw [e, List.get?_eq_getElem?, List.get?_eq_getElem?, h]

theorem offsets_status (c : Context) : c.status ∈ c.offsets := by simp [Context.offsets]

theorem offsets_x (c : Context) : c.x ∈ c.offsets := by simp [Context.offsets]

theorem offsets_y (c : Context) : c.y ∈ c.offsets := by simp [Context.offsets]

theorem offsets_pressure (c : Context) (h : 0 ≤ c.pressure) : c.pressure ∈ c.offsets := by
  simp [Context.offsets, h]

theorem offsets_tiltX (c : Context) (h : 0 ≤ c.tiltX) : c.tiltX ∈ c.offsets := by
  simp [Context.offsets, h]

theorem offsets_tiltY (c : Context) (h : 0 ≤ c.tiltY) : c.tiltY ∈ c.offsets := by
  simp [Context.offsets, h]

/-- The packet built from a sample depends on the buffer through the reads at the
offsets of the tablet only. -/
theorem buildPacket_congr (ub : Double → Nat) (s : Sender) (tablet : Context)
    (buffer buffer2 : List Int) (base seq : Nat)
    (h : ∀ off ∈ tablet.offsets, readLong buffer2 base off = readLong buffer base off) :
    buildPacket ub s tablet buffer2 base seq = buildPacket ub s tablet buffer base seq := by
  unfold buildPacket
  rw [h _ (offsets_status tablet), h _ (offsets_x tablet), h _ (offsets_y tablet)]
  by_cases hp : 0 ≤ tablet.pressure <;> by_cases htx : 0 ≤ tablet.tiltX <;>
    by_cases hty : 0 ≤ tablet.tiltY <;>
    simp only [hp, htx, hty, if_true, if_false]
  all_goals
    first
    | rw [h _ (offsets_pressure tablet hp), h _ (offsets_tiltX tablet htx),
        h _ (offsets_tiltY tablet hty)]
    | rw [h _ (offsets_pressure tablet hp), h _ (offsets_tiltX tablet htx)]
    | rw [h _ (offsets_pressure tablet hp), h _ (offsets_tiltY tablet hty)]
    | rw [h _ (offsets_tiltX tablet htx), h _ (offsets_tiltY tablet hty)]
    | rw [h _ (offsets_pressure tablet hp)]
    | rw [h _ (offsets_tiltX tablet htx)]
    | rw [h _ (offsets_tiltY tablet hty)]

/-- A sample whose reads all succeed yields a packet. -/
theorem buildPacket_safe (ub : Double → Nat) (s : Sender) (tablet : Context)
    (buffer : List Int) (base seq : Nat)
    (h : ∀ off ∈ tablet.offsets, ∃ v, readLong buffer base off = Except.ok v) :
    ∃ p, buildPacket ub s tablet buffer base seq = Except.ok p := by
  obtain ⟨vs, hs⟩ := h _ (offsets_status tablet)
  obtain ⟨vx, hx⟩ := h _ (offsets_x tablet)
  obtain ⟨vy, hy⟩ := h _ (offsets_y tablet)
  unfold buildPacket
  rw [hs, hx, hy]
  by_cases hp : 0 ≤ tablet.pressure <;> by_cases htx : 0 ≤ tablet.tiltX <;>
    by_cases hty : 0 ≤ tablet.tiltY <;>
    simp only [hp, htx, hty, if_true, if_false]
  all_goals
    first
    | (obtain ⟨v1, h1⟩ := h _ (offsets_pressure tablet hp)
       obtain ⟨v2, h2⟩ := h _ (offsets_tiltX tablet htx)
       obtain ⟨v3, h3⟩ := h _ (offsets_tiltY tablet hty)
       rw [h1, h2, h3]; exact ⟨_, rfl⟩)
    | (obtain ⟨v1, h1⟩ := h _ (offsets_pressure tablet hp)
       obtain ⟨v2, h2⟩ := h _ (offsets_tiltX tablet htx)
       rw [h1, h2]; exact ⟨_, rfl⟩)
    | (obtain ⟨v1, h1⟩ := h _ (offsets_pressure tablet hp)
       obtain ⟨v3, h3⟩ := h _ (offsets_tiltY tablet hty)
       rw [h1, h3]; exact ⟨_, rfl⟩)
    | (obtain ⟨v2, h2⟩ := h _ (offsets_tiltX tablet htx)
       obtain ⟨v3, h3⟩ := h _ (offsets_tiltY tablet hty)
       rw [h2, h3]; exact ⟨_, rfl⟩)
    | (obtain ⟨v1, h1⟩ := h _ (offsets_pressure tablet hp)
       rw [h1]; exact ⟨_, rfl⟩)
    | (obtain ⟨v2, h2⟩ := h _ (offsets_tiltX tablet htx)
       rw [h2]; exact ⟨_, rfl⟩)
    | (obtain ⟨v3, h3⟩ := h _ (offsets_tiltY tablet hty)
       rw [h3]; exact ⟨_, rfl⟩)
    | exact ⟨_, rfl⟩

/-- The loop of `sendPackets` depends on the buffer through the reads at the
offsets of the tablet in each sample only. -/
theorem sendLoop_congr (ub : Double → Nat) (s : Sender) (tablet : Context) (packetSize : Nat)
    (buffer buffer2 : List Int) (n : Nat) :
    ∀ (base seq : Nat),
      (∀ i, i < n → ∀ off ∈ tablet.offsets,
          readLong buffer2 (base + i * packetSize) off
            = readLong buffer (base + i * packetSize) off) →
      sendLoop ub s tablet packetSize buffer2 n base seq
        = sendLoop ub s tablet packetSize buffer n base seq := by
  induction n with
  | zero => intro base seq _; rfl
  | succ n ih =>
    intro base seq h
    have h0 : ∀ off ∈ tablet.offsets, readLong buffer2 base off = readLong buffer base off := by
      intro off hoff
      have := h 0 (Nat.succ_pos n) off hoff
      simpa using this
    have hrest : ∀ i, i < n → ∀ off ∈ tablet.offsets,
        readLong buffer2 (base + packetSize + i * packetSize) off
          = readLong buffer (base + packetSize + i * packetSize) off := by
      intro i hi off hoff
      have := h (i + 1) (Nat.succ_lt_succ hi) off hoff
      have e : base + (i + 1) * packetSize = base + packetSize + i * packetSize := by ring
      rw [e] at this
      exact this
    rw [sendLoop, sendLoop, buildPacket_congr ub s tablet buffer buffer2 base seq h0,
      ih _ _ hrest]

/-- The loop of `sendPackets` ends without a fault when the reads of every sample
succeed. -/
theorem sendLoop_safe (ub : Double → Nat) (s : Sender) (tablet : Context) (packetSize : Nat)
    (buffer : List Int) (n : Nat) :
    ∀ (base seq : Nat),
      (∀ i, i < n → ∀ off ∈ tablet.offsets,
          ∃ v, readLong buffer (base + i * packetSize) off = Except.ok v) →
      (sendLoop ub s tablet packetSize buffer n base seq).2.2 = none := by
  induction n with
  | zero => intro base seq _; rfl
  | succ n ih =>
    intro base seq h
    have h0 : ∀ off ∈ tablet.offsets, ∃ v, readLong buffer base off = Except.ok v := by
      intro off hoff
      have := h 0 (Nat.succ_pos n) off hoff
      simpa using this
    have hrest : ∀ i, i < n → ∀ off ∈ tablet.offsets,
        ∃ v, readLong buffer (base + packetSize + i * packetSize) off = Except.ok v := by
      intro i hi off hoff
      have := h (i + 1) (Nat.succ_lt_succ hi) off hoff
      have e : base + (i + 1) * packetSize = base + packetSize + i * packetSize := by ring
      rw [e] at this
      exact this
    obtain ⟨p, hp⟩ := buildPacket_safe ub s tablet buffer base seq h0
    rw [sendLoop, hp]
    exact ih _ _ hrest

/-- The positions of a strided buffer: an offset smaller than the stride in sample
`i` of `n` lies inside a buffer of `n * stride` values. -/
theorem strided_inBounds (n stride i : Nat) (off : Int) (len : Nat) (hi : i < n)
    (h0 : 0 ≤ off) (h1 : off < (stride : Int)) (hlen : n * stride ≤ len) :
    i * stride + off.toNat < len := by
  have h2 : off.toNat < stride := by omega
  have h3 : (i + 1) * stride ≤ n * stride := Nat.mul_le_mul_right _ hi
  have h4 : (i + 1) * stride = i * stride + stride := by ring
  omega

/-- C19, as the code has it. For a call of `sendPackets` with a known tablet context:
with `numPackets = 0` the stride `totalLength / numPackets` is a division by zero
(the fault `divByZero`; no packet has been sent and `mSeqNumber` is as before). When
`numPackets >= 1`, `totalLength = numPackets * stride`, the buffer holds at least
`totalLength` values and every offset that the loop reads is at least 0 and smaller
than `stride`, then the stride computed is `stride`, the call ends without a fault,
every read of sample `i` is at a position `i * stride + offset` inside the buffer,
exactly `numPackets` packets are sent, packet `i` being the one built from the
sample at `i * stride`, and the packets depend on the buffer through those positions
only. -/
theorem sendPackets_strided (ub : Double → Nat) (s : Sender)
    (tcid numPackets totalLength stride : Nat) (buffer : List Int) (tablet : Context)
    (hctx : s.mContexts tcid = some tablet) (hseq : s.mSeqNumber < UINT64_RANGE)
    (hn : 1 ≤ numPackets) (hlen : totalLength = numPackets * stride)
    (hbuf : totalLength ≤ buffer.length)
    (hoff : ∀ off ∈ tablet.offsets, 0 ≤ off ∧ off < (stride : Int)) :
    ((sendPackets ub s tcid 0 totalLength buffer).fault = some Fault.divByZero
        ∧ (sendPackets ub s tcid 0 totalLength buffer).sent = []
        ∧ (sendPackets ub s tcid 0 totalLength buffer).st.mSeqNumber = s.mSeqNumber)
      ∧ totalLength / numPackets = stride
      ∧ (sendPackets ub s tcid numPackets totalLength buffer).fault = none
      ∧ (sendPackets ub s tcid numPackets totalLength buffer).sent.length = numPackets
      ∧ (∀ i, i < numPackets → ∀ off ∈ tablet.offsets,
          ∃ v, buffer[i * stride + off.toNat]? = some v
            ∧ readLong buffer (i * stride) off = Except.ok v)
      ∧ (∀ i, i < numPackets →
          ∃ p, (sendPackets ub s tcid numPackets totalLength buffer).sent[i]? = some p
            ∧ buildPacket ub s tablet buffer (i * stride) ((s.mSeqNumber + i) % UINT64_RANGE)
                = Except.ok p)
      ∧ (∀ buffer2 : List Int,
          (∀ i, i < numPackets → ∀ off ∈ tablet.offsets,
            buffer2[i * stride + off.toNat]? = buffer[i * stride + off.toNat]?) →
          (sendPackets ub s tcid numPackets totalLength buffer2).sent
            = (sendPackets ub s tcid numPackets totalLength buffer).sent) := by
  have hne : numPackets ≠ 0 := by omega
  have hdiv : totalLength / numPackets = stride := by
    rw [hlen]
    exact Nat.mul_div_cancel_left stride (by omega)
  have hzero : (sendPackets ub s tcid 0 totalLength buffer).fault = some Fault.divByZero := by
    unfold sendPackets
    rw [hctx]
    rfl
  have hnothing := sendPackets_nothing ub s tcid 0 totalLength buffer (Or.inr rfl)
  obtain ⟨ksent, -, kfault⟩ := sendPackets_known ub s tcid numPackets totalLength buffer tablet
    hctx hne
  rw [hdiv] at ksent kfault
  have hreads : ∀ i, i < numPackets → ∀ off ∈ tablet.offsets,
      ∃ v, buffer[i * stride + off.toNat]? = some v
        ∧ readLong buffer (i * stride) off = Except.ok v := by
    intro i hi off ho
    exact readLong_inBounds buffer (i * stride) off (hoff off ho).1
      (strided_inBounds numPackets stride i off buffer.length hi (hoff off ho).1 (hoff off ho).2
        (by rw [← hlen]; exact hbuf))
  have hfault : (sendLoop ub s tablet stride buffer numPackets 0 s.mSeqNumber).2.2 = none := by
    apply sendLoop_safe
    intro i hi off ho
    obtain ⟨v, -, hv⟩ := hreads i hi off ho
    rw [Nat.zero_add]
    exact ⟨v, hv⟩
  have hlength : (sendLoop ub s tablet stride buffer numPackets 0 s.mSeqNumber).1.length
      = numPackets :=
    (sendLoop_spec ub s tablet stride buffer numPackets 0 s.mSeqNumber hseq).2.2.1 hfault
  refine ⟨⟨hzero, hnothing.1, by rw [hnothing.2]⟩, hdiv, by rw [kfault, hfault],
    by rw [ksent, hlength], hreads, ?_, ?_⟩
  · intro i hi
    have hi2 : i < (sendPackets ub s tcid numPackets totalLength buffer).sent.length := by
      rw [ksent, hlength]; exact hi
    refine ⟨_, List.getElem?_eq_getElem hi2, ?_⟩
    have := sendPackets_sent ub s tcid numPackets totalLength buffer tablet i _ hctx hseq
      (List.getElem?_eq_getElem hi2)
    rw [hdiv] at this
    exact this
  · intro buffer2 h2
    obtain ⟨ksent2, -, -⟩ := sendPackets_known ub s tcid numPackets totalLength buffer2 tablet
      hctx hne
    rw [hdiv] at ksent2
    rw [ksent, ksent2, sendLoop_congr ub s tablet stride buffer buffer2 numPackets 0 s.mSeqNumber]
    intro i hi off ho
    rw [Nat.zero_add]
    exact readLong_congr buffer buffer2 (i * stride) off (hoff off ho).1 (h2 i hi off ho)

/-- The failing input of C19 and an instance of `sendPackets_strided`: the sample
sender, called for its tablet with no sample, divides by zero; called with two
samples of stride 4 in a buffer of 8 values it sends two packets without a fault. -/
theorem sendPackets_strided_witness :
    (sampleSender.mContexts 7 = some sampleContext
        ∧ (sendPackets sampleUb sampleSender 7 0 0 []).fault = some Fault.divByZero)
      ∧ ((sendPackets sampleUb sampleSender 7 2 8
            [1000, 500, 1, 2048, 1001, 501, 1, 2049]).fault = none
        ∧ (sendPackets sampleUb sampleSender 7 2 8
            [1000, 500, 1, 2048, 1001, 501, 1, 2049]).sent.length = 2) :=
  ⟨⟨by decide, by decide⟩,
    (sendPackets_strided sampleUb sampleSender 7 2 8 4 [1000, 500, 1, 2048, 1001, 501, 1, 2049]
      sampleContext (by decide) (by decide) (by decide) (by decide) (by decide)
      (by decide)).2.2.1,
    (sendPackets_strided sampleUb sampleSender 7 2 8 4 [1000, 500, 1, 2048, 1001, 501, 1, 2049]
      sampleContext (by decide) (by decide) (by decide) (by decide) (by decide)
      (by decide)).2.2.2.1⟩

end NetStylus
